import Mathlib

/-!
# FormFix: friction telemetry and its analysis

A shallow embedding of the capture SDK (`src/formfix-sdk.js`) and of the analysis
functions of the backend (`src/server.js`).

Conventions of the embedding.

* A JavaScript number is a rational, or NaN: `Num = Option ℚ` with `none` for NaN. Sums
  and differences of counters, durations and timestamps are exact, as they are in double
  precision below `2 ^ 53`. The percentages of `analyzeDropOffPoints` and
  `calculatePredictedCompletion` and the two means and the comparison of the typing-speed
  drop-off are computed in double precision: `toDouble` rounds a rational to the nearest
  double, ties to even (the exponent range is not bounded: the values at hand are far from
  overflow and from the subnormal numbers). The other quotients are kept exact.
* A payload key that is missing reads as `undefined`: every key of `Data` is an `Option`,
  `none` meaning that the key is absent. Counters are naturals, durations and timestamps
  are integers, rates are rationals, as the SDK produces them.
* A plain object used as a dictionary is an association list in insertion order, and
  `Object.entries` / `Object.values` enumerate its own keys: array-index keys first, in
  ascending numeric order, then the other keys in insertion order.
* A read `fieldStats[k]` of such a dictionary goes through the prototype chain: `slotOf`
  tells an own property from `Object.prototype` itself (key `__proto__`), from a function
  inherited from it (`constructor`, `toString`, ...) and from a number inherited from it.
  The analyses can write three properties of `Object.prototype`: `backspaces` and
  `rageClicks`, which then hold NaN, read as falsy like a missing property, and
  `focusCount`, whose value is carried as `focusCount : Option Nat` (`none` when it is
  not set). The file is in sloppy mode: a write to a property of a number does nothing.
  A `TypeError` thrown by a loop is the flag `thrown`, and the function then has no
  result (`none`).
* A `Set` is a duplicate-free list in order of first insertion.
-/

namespace FormFix

/-! ## Numbers -/

/-- JavaScript number: an exact rational, or NaN (`none`). -/
abbrev Num := Option ℚ

/-- Addition of JavaScript numbers; NaN is absorbing. -/
def jsAdd (a b : Num) : Num :=
  match a, b with
  | some x, some y => some (x + y)
  | _, _ => none

/-- Multiplication of a JavaScript number by a finite constant. -/
def jsMulConst (a : Num) (c : ℚ) : Num := a.map (fun x => x * c)

/-- Division of a JavaScript number by a finite non-zero constant. -/
def jsDivConst (a : Num) (c : ℚ) : Num := a.map (fun x => x / c)

/-- Comparison `a > c`; false on NaN. -/
def jsGt (a : Num) (c : ℚ) : Bool :=
  match a with
  | some x => decide (x > c)
  | none => false

/-- ToNumber of an integer payload that may be missing: `undefined` becomes NaN. -/
def intToNum (v : Option Int) : Num := v.map (fun x => (x : ℚ))

/-- ToNumber of a counter payload that may be missing: `undefined` becomes NaN. -/
def natToNum (v : Option Nat) : Num := v.map (fun x => (x : ℚ))

/-! ## Events -/

/-- Payload `data` of a metric: each key is present (`some`) or absent (`none`). -/
structure Data where
  focusCount : Option Nat := none
  hesitation : Option Int := none
  rate : Option ℚ := none
  backspaceCount : Option Nat := none
  correctionRate : Option ℚ := none
  prevAvg : Option ℚ := none
  currAvg : Option ℚ := none
  pasteCount : Option Nat := none
  totalHover : Option Int := none
  count : Option Nat := none
  charCount : Option Nat := none
  submittedAt : Option Int := none
  abandonedAt : Option Int := none
  trigger : Option String := none
  deriving DecidableEq, Repr

/-- Metric as built by `reportMetric` and read by the analyses. The top-level key
`abandonedAt` is read by `analyzeDropOffPoints`; `reportMetric` never sets it. -/
structure Metric where
  sessionId : String
  form : String := "unknown"
  field : String
  type : String
  data : Data := {}
  ts : Int := 0
  abandonedAt : Option Int := none
  deriving DecidableEq, Repr

/-! ## Plain objects used as dictionaries, and sets -/

/-- Value of a string of decimal digits. -/
def digitsValue (cs : List Char) : Nat :=
  cs.foldl (fun n c => 10 * n + (c.toNat - 48)) 0

/-- Array index denoted by a property key: a canonical decimal numeral (no leading zero)
of value at most `2^32 - 2`. -/
def arrayIndex (s : String) : Option Nat :=
  let cs := s.toList
  if cs ≠ [] ∧ cs.all Char.isDigit = true ∧ (cs.head? ≠ some '0' ∨ cs.length = 1)
      ∧ digitsValue cs < 4294967295 then
    some (digitsValue cs)
  else
    none

/-- Order of two array-index keys. -/
def indexLE {α : Type} (a b : String × α) : Prop :=
  (arrayIndex a.1).getD 0 ≤ (arrayIndex b.1).getD 0

instance {α : Type} : DecidableRel (indexLE (α := α)) :=
  fun a b => inferInstanceAs (Decidable ((arrayIndex a.1).getD 0 ≤ (arrayIndex b.1).getD 0))

/-- Enumeration `Object.entries(o)` of a dictionary held in insertion order: array-index
keys ascending, then the remaining keys in insertion order. -/
def objectEntries {α : Type} (o : List (String × α)) : List (String × α) :=
  (o.filter (fun kv => (arrayIndex kv.1).isSome)).insertionSort indexLE
    ++ o.filter (fun kv => (arrayIndex kv.1).isNone)

/-- Enumeration `Object.values(o)`. -/
def objectValues {α : Type} (o : List (String × α)) : List α :=
  (objectEntries o).map Prod.snd

/-- Property read `o[k]`: the value stored under `k`, if any. -/
def objectGet {α : Type} : List (String × α) → String → Option α
  | [], _ => none
  | kv :: o, k => if kv.1 = k then some kv.2 else objectGet o k

/-- In-place update of the object stored under `k`. -/
def objectModify {α : Type} (o : List (String × α)) (k : String) (f : α → α) :
    List (String × α) :=
  o.map (fun kv => if kv.1 = k then (kv.1, f kv.2) else kv)

/-- Assignment `o[k] = v` for a key that `o` does not hold yet. -/
def objectAdd {α : Type} (o : List (String × α)) (k : String) (v : α) : List (String × α) :=
  o ++ [(k, v)]

/-- Insertion `s.add(x)` into a set kept in order of first insertion. -/
def setAdd {α : Type} [DecidableEq α] (s : List α) (x : α) : List α :=
  if x ∈ s then s else s ++ [x]

/-- Construction `new Set(xs)`. -/
def setOf {α : Type} [DecidableEq α] (xs : List α) : List α :=
  xs.foldl setAdd []

/-! ## `analyzeFrictionPatterns` (server.js) -/

/-- Per-field accumulator of `analyzeFrictionPatterns`. -/
structure FieldStats where
  hesitation : List Num
  backspaces : Num
  rageClicks : Num
  focusCount : Option Nat
  deriving DecidableEq, Repr

/-- Initial accumulator `{ hesitation: [], backspaces: 0, rageClicks: 0, focusCount: 0 }`. -/
def FieldStats.init : FieldStats :=
  { hesitation := [], backspaces := some 0, rageClicks := some 0, focusCount := some 0 }

/-- Names of the functions that a plain object inherits from `Object.prototype`. -/
def prototypeMethods : List String :=
  ["constructor", "__defineGetter__", "__defineSetter__", "hasOwnProperty",
   "__lookupGetter__", "__lookupSetter__", "isPrototypeOf", "propertyIsEnumerable",
   "toString", "valueOf", "toLocaleString"]

/-- Kinds of value that the read `fieldStats[k]` of a dictionary yields. -/
inductive Slot where
  /-- The accumulator stored under `k`, an own property. -/
  | own
  /-- The object `Object.prototype` itself, through the accessor `__proto__`. -/
  | prototype
  /-- A truthy value inherited from `Object.prototype`: a function, or a non-zero number. -/
  | inherited
  /-- Nothing (`undefined`), or an inherited falsy value (0 or NaN). -/
  | undefined
  deriving DecidableEq, Repr

/-- Read `fieldStats[k]` of a dictionary created as `{}`, where `focusCount` is the value
of `Object.prototype.focusCount`. -/
def slotOf {α : Type} (focusCount : Option Nat) (o : List (String × α)) (k : String) : Slot :=
  if k = "__proto__" then .prototype
  else if (objectGet o k).isSome then .own
  else if k ∈ prototypeMethods then .inherited
  else if k = "focusCount" ∧ 0 < focusCount.getD 0 then .inherited
  else .undefined

/-- Read `metric.data.focusCount`: the own value or, when the key is missing, the value
inherited from `Object.prototype`. -/
def readFocusCount (focusCount : Option Nat) (metric : Metric) : Option Nat :=
  match metric.data.focusCount with
  | some n => some n
  | none => focusCount

/-- Branch on `metric.type` in the body of the first `forEach`, on an accumulator. -/
def frictionUpdate (focusCount : Option Nat) (metric : Metric) (s : FieldStats) : FieldStats :=
  if metric.type = "hesitation" then
    { s with hesitation := s.hesitation ++ [intToNum metric.data.hesitation] }
  else if metric.type = "backspace" then
    { s with backspaces := jsAdd s.backspaces (natToNum metric.data.backspaceCount) }
  else if metric.type = "rage_click" then
    { s with rageClicks := jsAdd s.rageClicks (natToNum metric.data.count) }
  else if metric.type = "field_focus" then
    { s with focusCount := readFocusCount focusCount metric }
  else s

/-- Body of the first `forEach` when `fieldStats[metric.field]` is an own accumulator or
is falsy: the accumulator is created if need be, then updated. -/
def frictionRecord (focusCount : Option Nat) (fieldStats : List (String × FieldStats))
    (metric : Metric) : List (String × FieldStats) :=
  let fieldStats :=
    if (objectGet fieldStats metric.field).isNone then
      objectAdd fieldStats metric.field FieldStats.init
    else fieldStats
  objectModify fieldStats metric.field (frictionUpdate focusCount metric)

/-- State of the first `forEach` of `analyzeFrictionPatterns`: the dictionary, the value
of `Object.prototype.focusCount`, and whether a `TypeError` was thrown. -/
structure FrictionLoop where
  fieldStats : List (String × FieldStats)
  focusCount : Option Nat
  thrown : Bool
  deriving DecidableEq, Repr

/-- Body of the first `forEach` of `analyzeFrictionPatterns`. When the read
`fieldStats[metric.field]` yields `Object.prototype` or an inherited truthy value, no
accumulator is created: `.hesitation.push` throws (`hesitation` is `undefined` there),
`+=` leaves NaN on `Object.prototype` or on the function and nothing on a number, and
`.focusCount =` writes `Object.prototype.focusCount` when the label is `__proto__`. -/
def frictionStep (s : FrictionLoop) (metric : Metric) : FrictionLoop :=
  if s.thrown then s
  else
    match slotOf s.focusCount s.fieldStats metric.field with
    | .own => { s with fieldStats := frictionRecord s.focusCount s.fieldStats metric }
    | .undefined => { s with fieldStats := frictionRecord s.focusCount s.fieldStats metric }
    | .prototype =>
      if metric.type = "hesitation" then { s with thrown := true }
      else if metric.type = "backspace" then s
      else if metric.type = "rage_click" then s
      else if metric.type = "field_focus" then
        { s with focusCount := readFocusCount s.focusCount metric }
      else s
    | .inherited =>
      if metric.type = "hesitation" then { s with thrown := true }
      else s

/-- First `forEach` of `analyzeFrictionPatterns`, run with `Object.prototype.focusCount`
holding `focusCount`. -/
def frictionLoop (focusCount : Option Nat) (metrics : List Metric) : FrictionLoop :=
  metrics.foldl frictionStep { fieldStats := [], focusCount := focusCount, thrown := false }

/-- Dictionary `fieldStats` when the first `forEach` stops, run in a process whose
`Object.prototype` is as the engine created it. -/
def frictionStats (metrics : List Metric) : List (String × FieldStats) :=
  (frictionLoop none metrics).fieldStats

/-- Sum `xs.reduce((a, b) => a + b, 0)`. -/
def jsSum (xs : List Num) : Num := xs.foldl jsAdd (some 0)

/-- Mean of the hesitation samples, `0` when there are none. -/
def avgHesitationOf (samples : List Num) : Num :=
  if samples.length > 0 then jsDivConst (jsSum samples) (samples.length : ℚ) else some 0

/-- Score `(avgHesitation / 1000) + (backspaces * 0.5) + (rageClicks * 2)`. -/
def frictionScoreOf (avgHesitation backspaces rageClicks : Num) : Num :=
  jsAdd (jsAdd (jsDivConst avgHesitation 1000) (jsMulConst backspaces (1 / 2)))
    (jsMulConst rageClicks 2)

/-- Issue flags of a problematic field. -/
structure Issues where
  highHesitation : Bool
  manyBackspaces : Bool
  rageClicks : Bool
  deriving DecidableEq, Repr

/-- Entry of `problematicFields`. -/
structure ProblematicField where
  field : String
  frictionScore : Num
  issues : Issues
  deriving DecidableEq, Repr

/-- Body of the second `forEach`: the entry pushed for `[field, stats]`, if any. -/
def frictionEntry (kv : String × FieldStats) : Option ProblematicField :=
  let avgHesitation := avgHesitationOf kv.2.hesitation
  let frictionScore := frictionScoreOf avgHesitation kv.2.backspaces kv.2.rageClicks
  if jsGt frictionScore 3 then
    some { field := kv.1
           frictionScore := frictionScore
           issues := { highHesitation := jsGt avgHesitation 3000
                       manyBackspaces := jsGt kv.2.backspaces 5
                       rageClicks := jsGt kv.2.rageClicks 0 } }
  else none

/-- Result of `analyzeFrictionPatterns`. -/
structure FrictionAnalysis where
  score : String
  problematicFields : List ProblematicField
  deriving DecidableEq, Repr

/-- Second `forEach` and result of `analyzeFrictionPatterns`, from the dictionary. -/
def frictionResult (fieldStats : List (String × FieldStats)) : FrictionAnalysis :=
  let problematicFields := (objectEntries fieldStats).filterMap frictionEntry
  { score := if problematicFields.length > 0 then "High" else "Low"
    problematicFields := problematicFields }

/-- Function `analyzeFrictionPatterns(metrics)`, called with `Object.prototype.focusCount`
holding `focusCount` (`none` in a process that has not written it); `none` when the
function throws. -/
def analyzeFrictionPatterns (focusCount : Option Nat) (metrics : List Metric) :
    Option FrictionAnalysis :=
  let loop := frictionLoop focusCount metrics
  if loop.thrown then none else some (frictionResult loop.fieldStats)

/-! ## Double-precision rounding -/

/-- Integer nearest to a rational, a tie going to the even neighbour. -/
def roundHalfEven (q : ℚ) : ℤ :=
  if q - ⌊q⌋ < 1 / 2 then ⌊q⌋
  else if 1 / 2 < q - ⌊q⌋ then ⌊q⌋ + 1
  else if ⌊q⌋ % 2 = 0 then ⌊q⌋
  else ⌊q⌋ + 1

/-- Binary exponent of a non-zero rational: the `e` with `2 ^ e ≤ |q| < 2 ^ (e + 1)`. -/
def binaryExponent (q : ℚ) : ℤ := Int.log 2 |q|

/-- Number value of a real result: the binary64 double nearest to it (53 significant bits,
round to nearest, ties to even). The exponent is not bounded: the quotients and products
rounded here are far inside the range of binary64. -/
def toDouble (q : ℚ) : ℚ :=
  if q = 0 then 0
  else (roundHalfEven (q / 2 ^ (binaryExponent q - 52)) : ℚ) * 2 ^ (binaryExponent q - 52)

/-! ## Drop-off, completion and journey analyses (server.js) -/

/-- Helper `getLastFieldBeforeAbandon(metrics, sessionId)`. -/
def getLastFieldBeforeAbandon (metrics : List Metric) (sessionId : String) : String :=
  let sessionMetrics := metrics.filter (fun m => decide (m.sessionId = sessionId))
  let fieldMetrics := sessionMetrics.filter (fun m => decide (m.type = "field_blur"))
  match fieldMetrics.getLast? with
  | some m => m.field
  | none => "Unknown"

/-- Expression `part / (part + rest) * 100` on two array lengths: `0 / 0` is NaN; otherwise
the quotient is rounded to a double, and so is its product by 100. -/
def percentOf (part rest : Nat) : Num :=
  if part + rest = 0 then none
  else some (toDouble (toDouble ((part : ℚ) / ((part : ℚ) + (rest : ℚ))) * 100))

/-- Entry of `points`. -/
structure DropOffPoint where
  sessionId : String
  timestamp : Option Int
  lastField : String
  deriving DecidableEq, Repr

/-- Result of `analyzeDropOffPoints`. -/
structure DropOffAnalysis where
  totalSessions : Nat
  abandonments : Nat
  completions : Nat
  dropOffRate : Num
  points : List DropOffPoint
  deriving DecidableEq, Repr

/-- Function `analyzeDropOffPoints(metrics)`. -/
def analyzeDropOffPoints (metrics : List Metric) : DropOffAnalysis :=
  let dropOffs := metrics.filter (fun m => decide (m.type = "form_abandon"))
  let completions := metrics.filter (fun m => decide (m.type = "form_submit"))
  { totalSessions := (setOf (metrics.map (fun m => m.sessionId))).length
    abandonments := dropOffs.length
    completions := completions.length
    dropOffRate := percentOf dropOffs.length completions.length
    points := dropOffs.map (fun d =>
      { sessionId := d.sessionId
        timestamp := d.abandonedAt
        lastField := getLastFieldBeforeAbandon metrics d.sessionId }) }

/-- Function `Math.round` on a JavaScript number: the integer nearest to the double `x`, a
tie going up, that is the floor of `x + 1/2`; NaN on NaN. -/
def mathRound (x : Num) : Option Int := x.map (fun q => Int.floor (q + 1 / 2))

/-- Function `calculatePredictedCompletion(metrics)`; `none` is NaN. -/
def calculatePredictedCompletion (metrics : List Metric) : Option Int :=
  let sessions := setOf (metrics.map (fun m => m.sessionId))
  let completions := (metrics.filter (fun m => decide (m.type = "form_submit"))).length
  let abandonments := (metrics.filter (fun m => decide (m.type = "form_abandon"))).length
  if sessions.length = 0 then some 0
  else
    let completionRate := percentOf completions abandonments
    mathRound completionRate

/-- Entry of the journey insights. -/
structure JourneyInsight where
  sessionId : String
  fieldOrder : List String
  completed : Bool
  abandoned : Bool
  deriving DecidableEq, Repr

/-- Body of `sessions.forEach` in `analyzeUserJourney`: the entry pushed, if any. -/
def journeyEntry (metrics : List Metric) (sessionId : String) : Option JourneyInsight :=
  let sessionMetrics := metrics.filter (fun m => decide (m.sessionId = sessionId))
  let fieldOrder :=
    (sessionMetrics.filter (fun m => decide (m.type = "field_focus"))).map (fun m => m.field)
  if fieldOrder.length > 1 then
    some { sessionId := sessionId
           fieldOrder := fieldOrder
           completed := sessionMetrics.any (fun m => decide (m.type = "form_submit"))
           abandoned := sessionMetrics.any (fun m => decide (m.type = "form_abandon")) }
  else none

/-- Function `analyzeUserJourney(metrics)`. -/
def analyzeUserJourney (metrics : List Metric) : List JourneyInsight :=
  let sessions := setOf (metrics.map (fun m => m.sessionId))
  sessions.filterMap (journeyEntry metrics)

/-! ## Field patterns and suggestions (server.js) -/

/-- Per-field accumulator of `analyzeFieldPatterns`. -/
structure PatternStats where
  name : String
  totalTime : Int
  backspaces : Nat
  characters : Nat
  sessions : List String
  deriving DecidableEq, Repr

/-- Expression `v || 0` on an integer payload that may be missing. -/
def intOrZero (v : Option Int) : Int := v.getD 0

/-- Expression `v || 0` on a counter payload that may be missing. -/
def natOrZero (v : Option Nat) : Nat := v.getD 0

/-- Body of the `forEach` of `analyzeFieldPatterns` on a `field_blur` event, when
`fieldStats[metric.field]` is an own accumulator or is falsy: the accumulator is created if
need be, then updated. -/
def patternRecord (fieldStats : List (String × PatternStats)) (metric : Metric) :
    List (String × PatternStats) :=
  let fieldStats :=
    if (objectGet fieldStats metric.field).isNone then
      objectAdd fieldStats metric.field
        { name := metric.field, totalTime := 0, backspaces := 0, characters := 0,
          sessions := [] }
    else fieldStats
  objectModify fieldStats metric.field (fun s =>
    { s with
      totalTime := s.totalTime + intOrZero metric.data.totalHover
      backspaces := s.backspaces + natOrZero metric.data.backspaceCount
      characters := s.characters + natOrZero metric.data.charCount
      sessions := setAdd s.sessions metric.sessionId })

/-- State of the `forEach` of `analyzeFieldPatterns`: the dictionary, and whether a
`TypeError` was thrown. -/
structure PatternLoop where
  fieldStats : List (String × PatternStats)
  thrown : Bool
  deriving DecidableEq, Repr

/-- Body of the `forEach` of `analyzeFieldPatterns`, where `focusCount` is the value of
`Object.prototype.focusCount`. When the read `fieldStats[metric.field]` yields
`Object.prototype` or an inherited truthy value, no accumulator is created and
`.sessions.add` throws (`sessions` is `undefined` there). -/
def patternStep (focusCount : Option Nat) (s : PatternLoop) (metric : Metric) : PatternLoop :=
  if s.thrown then s
  else if metric.type = "field_blur" then
    match slotOf focusCount s.fieldStats metric.field with
    | .own => { s with fieldStats := patternRecord s.fieldStats metric }
    | .undefined => { s with fieldStats := patternRecord s.fieldStats metric }
    | .prototype => { s with thrown := true }
    | .inherited => { s with thrown := true }
  else s

/-- The `forEach` of `analyzeFieldPatterns`. -/
def patternLoop (focusCount : Option Nat) (metrics : List Metric) : PatternLoop :=
  metrics.foldl (patternStep focusCount) { fieldStats := [], thrown := false }

/-- Entry returned by `analyzeFieldPatterns`. -/
structure FieldPattern where
  name : String
  totalTime : Int
  backspaces : Nat
  characters : Nat
  sessions : List String
  avgHesitation : ℚ
  backspaceRate : ℚ
  deriving DecidableEq, Repr

/-- Result `Object.values(fieldStats).map(...)` of `analyzeFieldPatterns`. Every
accumulator holds at least one session, so the division by `sessions.size` is a division
by a positive number. -/
def fieldPatterns (fieldStats : List (String × PatternStats)) : List FieldPattern :=
  (objectValues fieldStats).map (fun field =>
    { name := field.name
      totalTime := field.totalTime
      backspaces := field.backspaces
      characters := field.characters
      sessions := field.sessions
      avgHesitation := (field.totalTime : ℚ) / (field.sessions.length : ℚ)
      backspaceRate :=
        if field.characters > 0 then (field.backspaces : ℚ) / (field.characters : ℚ) else 0 })

/-- Function `analyzeFieldPatterns(metrics)`, called with `Object.prototype.focusCount`
holding `focusCount`; `none` when the function throws. -/
def analyzeFieldPatterns (focusCount : Option Nat) (metrics : List Metric) :
    Option (List FieldPattern) :=
  let loop := patternLoop focusCount metrics
  if loop.thrown then none else some (fieldPatterns loop.fieldStats)

/-- Entry of the suggestion list. -/
structure Suggestion where
  type : String
  field : String
  suggestion : String
  reasoning : String
  deriving DecidableEq, Repr

/-- Body of `fieldAnalysis.forEach` in `generateOptimizationSuggestions`. -/
def suggestionsFor (field : FieldPattern) : List Suggestion :=
  (if field.avgHesitation > 5000 then
    [{ type := "field_clarity"
       field := field.name
       suggestion := "Clarify the purpose of \"" ++ field.name ++ "\" field"
       reasoning := "Users hesitate significantly before filling this field" }]
   else [])
  ++
  (if field.backspaceRate > 3 / 10 then
    [{ type := "field_validation"
       field := field.name
       suggestion := "Add real-time validation for \"" ++ field.name ++ "\""
       reasoning := "High correction rate indicates unclear requirements" }]
   else [])

/-- The `fieldAnalysis.forEach` of `generateOptimizationSuggestions`. -/
def suggestionsOf (fieldAnalysis : List FieldPattern) : List Suggestion :=
  fieldAnalysis.flatMap suggestionsFor

/-- Function `generateOptimizationSuggestions(metrics)`, called with
`Object.prototype.focusCount` holding `focusCount`; `none` when `analyzeFieldPatterns`
throws. -/
def generateOptimizationSuggestions (focusCount : Option Nat) (metrics : List Metric) :
    Option (List Suggestion) :=
  (analyzeFieldPatterns focusCount metrics).map suggestionsOf

/-! ## Field interaction tracker (formfix-sdk.js) -/

/-- Closure variables of one tracked field. -/
structure FieldState where
  startTime : Option Int := none
  hesitationRecorded : Bool := false
  backspaceCount : Nat := 0
  hoverStart : Option Int := none
  totalHover : Int := 0
  clickTimestamps : List Int := []
  lastInputTime : Option Int := none
  charCount : Nat := 0
  typingIntervals : List Int := []
  focusCount : Nat := 0
  lastTypingRate : Option ℚ := none
  pasteCount : Nat := 0
  deriving DecidableEq, Repr

/-- Call `reportMetric(type, field, data)` as seen by the handler: type and payload. -/
structure Emission where
  type : String
  data : Data
  deriving DecidableEq, Repr

/-- Truthiness of a timestamp variable that is `null` or a number. -/
def truthyTime (t : Option Int) : Bool :=
  match t with
  | some v => decide (v ≠ 0)
  | none => false

/-- Handler of `focus`. -/
def onFocus (s : FieldState) (now : Int) : FieldState × List Emission :=
  let s := { s with startTime := some now, hesitationRecorded := false,
                    focusCount := s.focusCount + 1 }
  (s, [{ type := "field_focus", data := { focusCount := some s.focusCount } }])

/-- Handler of `input`, first block: hesitation. -/
def inputHesitation (s : FieldState) (now : Int) : FieldState × List Emission :=
  if !s.hesitationRecorded && truthyTime s.startTime then
    let hesitation := now - s.startTime.getD 0
    ({ s with hesitationRecorded := true },
      [{ type := "hesitation", data := { hesitation := some hesitation } }])
  else (s, [])

/-- Handler of `input`, second block: typing rate. -/
def inputTypingRate (s : FieldState) (now : Int) : FieldState × List Emission :=
  let (s, out) :=
    if truthyTime s.lastInputTime then
      let interval := now - s.lastInputTime.getD 0
      let s := { s with typingIntervals := s.typingIntervals ++ [interval] }
      if interval > 0 then
        let rate : ℚ := 1000 / (interval : ℚ)
        ({ s with lastTypingRate := some rate },
          [{ type := "typing_rate", data := { rate := some rate } }])
      else (s, [])
    else (s, [])
  ({ s with lastInputTime := some now }, out)

/-- Handler of `input`, third block: character accounting. -/
def inputCharCount (s : FieldState) (inputType : String) : FieldState × List Emission :=
  if inputType = "deleteContentBackward" then
    let s := { s with backspaceCount := s.backspaceCount + 1 }
    (s, [{ type := "backspace", data := { backspaceCount := some s.backspaceCount } }])
  else if inputType = "insertText" ∨ inputType = "insertFromPaste" then
    ({ s with charCount := s.charCount + 1 }, [])
  else (s, [])

/-- Handler of `input`, fourth block: correction rate. -/
def inputCorrectionRate (s : FieldState) : List Emission :=
  if s.charCount > 0 then
    let correctionRate : ℚ := (s.backspaceCount : ℚ) / (s.charCount : ℚ)
    [{ type := "correction_rate", data := { correctionRate := some correctionRate } }]
  else []

/-- Sum `xs.reduce((a, b) => a + b, 0)` of integer intervals. -/
def intSum (xs : List Int) : Int := xs.foldl (fun a b => a + b) 0

/-- Handler of `input`, fifth block: typing-speed drop-off. The sums are sums of integers;
the two means, the constant `1.7` and the product `prevAvg * 1.7` are rounded to
doubles. -/
def inputDropoff (s : FieldState) : List Emission :=
  if s.typingIntervals.length ≥ 6 then
    let prevAvg : ℚ := toDouble
      ((intSum ((s.typingIntervals.drop (s.typingIntervals.length - 6)).take 3) : ℚ) / 3)
    let currAvg : ℚ := toDouble
      ((intSum (s.typingIntervals.drop (s.typingIntervals.length - 3)) : ℚ) / 3)
    if prevAvg ≠ 0 ∧ currAvg ≠ 0 ∧ currAvg > toDouble (prevAvg * toDouble (17 / 10)) then
      [{ type := "typing_speed_dropoff",
         data := { prevAvg := some prevAvg, currAvg := some currAvg } }]
    else []
  else []

/-- Handler of `input`. -/
def onInput (s : FieldState) (now : Int) (inputType : String) : FieldState × List Emission :=
  let (s, out1) := inputHesitation s now
  let (s, out2) := inputTypingRate s now
  let (s, out3) := inputCharCount s inputType
  (s, out1 ++ out2 ++ out3 ++ inputCorrectionRate s ++ inputDropoff s)

/-- Handler of `paste`. -/
def onPaste (s : FieldState) : FieldState × List Emission :=
  let s := { s with pasteCount := s.pasteCount + 1 }
  (s, [{ type := "paste", data := { pasteCount := some s.pasteCount } }])

/-- Handler of `mouseover`. -/
def onMouseover (s : FieldState) (now : Int) : FieldState × List Emission :=
  ({ s with hoverStart := some now }, [])

/-- Handler of `mouseout`. -/
def onMouseout (s : FieldState) (now : Int) : FieldState × List Emission :=
  if truthyTime s.hoverStart then
    let s := { s with totalHover := s.totalHover + (now - s.hoverStart.getD 0) }
    ({ s with hoverStart := none },
      [{ type := "hover", data := { totalHover := some s.totalHover } }])
  else (s, [])

/-- Handler of `click`: rage-click detection. -/
def onClick (s : FieldState) (now : Int) : FieldState × List Emission :=
  let clickTimestamps := s.clickTimestamps ++ [now]
  let clickTimestamps := clickTimestamps.filter (fun ts => decide (now - ts < 1000))
  let s := { s with clickTimestamps := clickTimestamps }
  if clickTimestamps.length ≥ 3 then
    (s, [{ type := "rage_click", data := { count := some clickTimestamps.length } }])
  else (s, [])

/-- Handler of `blur`: summary, then reset of the per-cycle variables. -/
def onBlur (s : FieldState) : FieldState × List Emission :=
  let summary : Emission :=
    { type := "field_blur"
      data := { totalHover := some s.totalHover
                backspaceCount := some s.backspaceCount
                charCount := some s.charCount
                correctionRate :=
                  some (if s.charCount > 0 then (s.backspaceCount : ℚ) / (s.charCount : ℚ)
                        else 0)
                focusCount := some s.focusCount
                pasteCount := some s.pasteCount } }
  ({ s with startTime := none, hesitationRecorded := false, backspaceCount := 0,
            totalHover := 0, hoverStart := none, clickTimestamps := [],
            lastInputTime := none, charCount := 0, typingIntervals := [],
            lastTypingRate := none, pasteCount := 0 },
    [summary])

/-- DOM event delivered to a tracked field, with the clock reading of its handler. -/
inductive FieldEvent where
  | focus (now : Int)
  | input (now : Int) (inputType : String)
  | paste (now : Int)
  | mouseover (now : Int)
  | mouseout (now : Int)
  | click (now : Int)
  | blur (now : Int)
  deriving DecidableEq, Repr

/-- Clock reading of an event. -/
def FieldEvent.now : FieldEvent → Int
  | .focus now => now
  | .input now _ => now
  | .paste now => now
  | .mouseover now => now
  | .mouseout now => now
  | .click now => now
  | .blur now => now

/-- Dispatch of one event to the handlers of a field. -/
def fieldStep (s : FieldState) (e : FieldEvent) : FieldState × List Emission :=
  match e with
  | .focus now => onFocus s now
  | .input now inputType => onInput s now inputType
  | .paste _ => onPaste s
  | .mouseover now => onMouseover s now
  | .mouseout now => onMouseout s now
  | .click now => onClick s now
  | .blur _ => onBlur s

/-- Run of a field over a sequence of events: final state and the emissions, in order. -/
def fieldRun (s : FieldState) : List FieldEvent → FieldState × List Emission
  | [] => (s, [])
  | e :: es =>
    let r := fieldStep s e
    let rest := fieldRun r.1 es
    (rest.1, r.2 ++ rest.2)

/-- Function `reportMetric(type, field, data)`: the payload posted for an emission of an
element whose resolved label is `label`. -/
def reportMetric (sessionId form label : String) (now : Int) (e : Emission) : Metric :=
  { sessionId := sessionId, form := form, field := label, type := e.type, data := e.data,
    ts := now }

/-- Metrics posted for a field whose resolved label is `label`, over a sequence of events
from state `s`, in order of emission. -/
def fieldMetrics (sessionId form label : String) (s : FieldState) :
    List FieldEvent → List Metric
  | [] => []
  | e :: es =>
    (fieldStep s e).2.map (reportMetric sessionId form label e.now)
      ++ fieldMetrics sessionId form label (fieldStep s e).1 es

/-! ## Abandonment detector (formfix-sdk.js) -/

/-- Closure variables of one tracked form. -/
structure FormState where
  formStarted : Bool := false
  formSubmitted : Bool := false
  deriving DecidableEq, Repr

/-- Event of a tracked form that reads or writes the form-level variables. -/
inductive FormEvent where
  | fieldFocus (now : Int)
  | submit (now : Int)
  | submitButtonClick (now : Int)
  | beforeunload (now : Int)
  deriving DecidableEq, Repr

/-- Form-level effect of one event: new state and the form-level emissions. The
`field_focus` metric of a focus is emitted by the handler of the field (`onFocus`). -/
def formStep (s : FormState) (e : FormEvent) : FormState × List Emission :=
  match e with
  | .fieldFocus _ => ({ s with formStarted := true }, [])
  | .submit now =>
    ({ s with formSubmitted := true },
      [{ type := "form_submit", data := { submittedAt := some now } }])
  | .submitButtonClick now =>
    ({ s with formSubmitted := true },
      [{ type := "form_submit",
         data := { submittedAt := some now, trigger := some "button_click" } }])
  | .beforeunload now =>
    if s.formStarted && !s.formSubmitted then
      (s, [{ type := "form_abandon", data := { abandonedAt := some now } }])
    else (s, [])

/-- Run of a form over a sequence of events, one list of emissions per event. -/
def formRun (s : FormState) : List FormEvent → List (List Emission)
  | [] => []
  | e :: es => (formStep s e).2 :: formRun (formStep s e).1 es

/-! ## Metric ingestion (server.js) -/

/-- JSON value of a request body. -/
inductive JsonValue where
  | null
  | bool (b : Bool)
  | num (q : ℚ)
  | str (s : String)
  | arr (items : List JsonValue)
  | obj (props : List (String × JsonValue))

/-- Truthiness of a property read: `undefined` (`none`), `null`, `false`, `0` and the
empty string are falsy. -/
def truthy : Option JsonValue → Bool
  | none => false
  | some .null => false
  | some (.bool b) => b
  | some (.num q) => decide (q ≠ 0)
  | some (.str s) => decide (s ≠ "")
  | some (.arr _) => true
  | some (.obj _) => true

/-- Property read `metric[k]` on a parsed body: own properties of an object; any other
value has neither `type` nor `field`. -/
def JsonValue.prop (metric : JsonValue) (k : String) : Option JsonValue :=
  match metric with
  | .obj props => objectGet props k
  | _ => none

/-- Assignment of key `k` in an object literal under construction: an existing key keeps
its place and takes the new value, a new key is appended. -/
def objectSet {α : Type} (o : List (String × α)) (k : String) (v : α) : List (String × α) :=
  if (objectGet o k).isSome then objectModify o k (fun _ => v) else objectAdd o k v

/-- Response of the ingestion endpoint. -/
inductive IngestResponse where
  | ok
  | badRequest (error : String)
  deriving DecidableEq, Repr

/-- Own enumerable properties copied by the spread `...metric`: the properties of an
object, the indexed items of an array, the indexed characters of a string, nothing for
the other values. -/
def spreadProps : JsonValue → List (String × JsonValue)
  | .obj props => props
  | .arr items => items.enum.map (fun p => (toString p.1, p.2))
  | .str s => s.toList.enum.map (fun p => (toString p.1, JsonValue.str (String.singleton p.2)))
  | _ => []

/-- Handler of `POST /api/formfix`: response and new content of `metrics`. The stored
entry is `{ ...metric, receivedAt: Date.now() }`. -/
def postMetric (metrics : List (List (String × JsonValue))) (metric : JsonValue) (now : Int) :
    IngestResponse × List (List (String × JsonValue)) :=
  if !truthy (some metric) || !truthy (metric.prop "type") || !truthy (metric.prop "field") then
    (.badRequest "Invalid metric payload", metrics)
  else
    (.ok, metrics ++ [objectSet (spreadProps metric) "receivedAt" (.num (now : ℚ))])

/-- Successive calls of `POST /api/formfix`, one per request and clock reading. -/
def postAll (metrics : List (List (String × JsonValue))) :
    List (JsonValue × Int) → List (List (String × JsonValue))
  | [] => metrics
  | r :: rs => postAll (postMetric metrics r.1 r.2).2 rs

/-- Handler of `GET /api/formfix/metrics`: the content of `metrics`. -/
def getMetrics (metrics : List (List (String × JsonValue))) : List (List (String × JsonValue)) :=
  metrics

/-! ## Quantities named by the specification -/

/-- Keys held by a dictionary, in insertion order. -/
def objectKeys {α : Type} (o : List (String × α)) : List String := o.map Prod.fst

/-- Hesitation samples of a field: the payloads of its `hesitation` events, in order. -/
def hesitationSamples (metrics : List Metric) (f : String) : List Num :=
  (metrics.filter (fun m => decide (m.field = f ∧ m.type = "hesitation"))).map
    (fun m => intToNum m.data.hesitation)

/-- Cumulative backspaces of a field: the sum of the payloads of its `backspace` events. -/
def backspacesTotal (metrics : List Metric) (f : String) : Num :=
  jsSum ((metrics.filter (fun m => decide (m.field = f ∧ m.type = "backspace"))).map
    (fun m => natToNum m.data.backspaceCount))

/-- Cumulative rage-clicks of a field: the sum of the payloads of its `rage_click` events. -/
def rageClicksTotal (metrics : List Metric) (f : String) : Num :=
  jsSum ((metrics.filter (fun m => decide (m.field = f ∧ m.type = "rage_click"))).map
    (fun m => natToNum m.data.count))

/-- Mean of the hesitation samples of a field, or 0 when it has none. -/
def meanHesitation (metrics : List Metric) (f : String) : Num :=
  if hesitationSamples metrics f = [] then some 0
  else jsDivConst (jsSum (hesitationSamples metrics f)) ((hesitationSamples metrics f).length : ℚ)

/-- Friction score of the spec: `avgHesitation/1000 + backspaces*0.5 + rageClicks*2`. -/
def specFrictionScore (metrics : List Metric) (f : String) : Num :=
  jsAdd (jsAdd (jsDivConst (meanHesitation metrics f) 1000)
    (jsMulConst (backspacesTotal metrics f) (1 / 2))) (jsMulConst (rageClicksTotal metrics f) 2)

/-- Label that a read through the prototype chain does not find when it is not an own key:
it is not `__proto__`, it names no function of `Object.prototype`, and it is not
`focusCount` while `Object.prototype.focusCount` holds a non-zero number. -/
def plainLabel (focusCount : Option Nat) (k : String) : Prop :=
  k ≠ "__proto__" ∧ k ∉ prototypeMethods ∧ ¬ (k = "focusCount" ∧ 0 < focusCount.getD 0)

instance (focusCount : Option Nat) (k : String) : Decidable (plainLabel focusCount k) :=
  inferInstanceAs (Decidable (k ≠ "__proto__" ∧ k ∉ prototypeMethods
    ∧ ¬ (k = "focusCount" ∧ 0 < focusCount.getD 0)))

/-- Dictionary that the first `forEach` of `analyzeFrictionPatterns` builds when every read
`fieldStats[metric.field]` is an own accumulator or is falsy. -/
def plainStats (focusCount : Option Nat) (metrics : List Metric) :
    List (String × FieldStats) :=
  metrics.foldl (frictionRecord focusCount) []

/-- Events of the witness of C1: 6 backspaces and 1 rage-click on `Email`. -/
def frictionWitness : List Metric :=
  [ { sessionId := "s1", field := "Email", type := "backspace",
      data := { backspaceCount := some 6 } },
    { sessionId := "s1", field := "Email", type := "rage_click", data := { count := some 1 } } ]

/-- Failing input of C1: the events of the witness, on a field labelled `constructor`. -/
def inheritedLabel : List Metric :=
  [ { sessionId := "s1", field := "constructor", type := "backspace",
      data := { backspaceCount := some 6 } },
    { sessionId := "s1", field := "constructor", type := "rage_click",
      data := { count := some 1 } } ]

/-- Failing input of C1, second form: one hesitation sample on a field labelled
`constructor`. -/
def inheritedHesitation : List Metric :=
  [ { sessionId := "s1", field := "constructor", type := "hesitation",
      data := { hesitation := some 4000 } } ]

/-- Deletion-type edit: an `input` event whose `inputType` is `deleteContentBackward`. -/
def isDeletion : FieldEvent → Bool
  | .input _ inputType => decide (inputType = "deleteContentBackward")
  | _ => false

/-- Blur event. -/
def isBlur : FieldEvent → Bool
  | .blur _ => true
  | _ => false

/-- Events of the failing input of C2: a focus followed by two deletions. -/
def twoDeletions : List FieldEvent :=
  [.focus 1000, .input 1100 "deleteContentBackward", .input 1200 "deleteContentBackward"]

/-- Last field of the spec for an abandonment preceded by the events `pre`: the field of
the most recent `field_blur` event of the session among `pre`, else `Unknown`. -/
def specLastField (pre : List Metric) (sessionId : String) : String :=
  match (pre.filter
      (fun m => decide (m.sessionId = sessionId ∧ m.type = "field_blur"))).getLast? with
  | some m => m.field
  | none => "Unknown"

/-- Failing input of C3: session `s1` abandons, then a `field_blur` of the same session on
`Email` is received. -/
def blurAfterAbandon : List Metric :=
  [ { sessionId := "s1", field := "signup", type := "form_abandon", ts := 1000 },
    { sessionId := "s1", field := "Email", type := "field_blur", ts := 2000 } ]

/-- Witness of C3: a `field_blur` on `Email` immediately followed by the abandonment. -/
def blurThenAbandon : List Metric :=
  [ { sessionId := "s1", field := "Email", type := "field_blur", ts := 1000 },
    { sessionId := "s1", field := "signup", type := "form_abandon", ts := 2000 } ]

/-- The `field_blur` events of a field, in sequence order. -/
def blurEvents (metrics : List Metric) (f : String) : List Metric :=
  metrics.filter (fun m => decide (m.type = "field_blur" ∧ m.field = f))

/-- Hover time of a field: the sum of `totalHover` over its `field_blur` events, a missing
value counting as 0. -/
def hoverTotal (metrics : List Metric) (f : String) : Int :=
  ((blurEvents metrics f).map (fun m => intOrZero m.data.totalHover)).sum

/-- Backspaces of a field: the sum of `backspaceCount` over its `field_blur` events, a
missing value counting as 0. -/
def blurBackspaces (metrics : List Metric) (f : String) : Nat :=
  ((blurEvents metrics f).map (fun m => natOrZero m.data.backspaceCount)).sum

/-- Characters of a field: the sum of `charCount` over its `field_blur` events, a missing
value counting as 0. -/
def blurCharacters (metrics : List Metric) (f : String) : Nat :=
  ((blurEvents metrics f).map (fun m => natOrZero m.data.charCount)).sum

/-- Number of distinct sessions among the `field_blur` events of a field. -/
def blurSessionCount (metrics : List Metric) (f : String) : Nat :=
  ((blurEvents metrics f).map (fun m => m.sessionId)).toFinset.card

/-- Body of the `forEach` of `analyzeFieldPatterns` when the read `fieldStats[metric.field]`
is an own accumulator or is falsy. -/
def plainPatternStep (fieldStats : List (String × PatternStats)) (metric : Metric) :
    List (String × PatternStats) :=
  if metric.type = "field_blur" then patternRecord fieldStats metric else fieldStats

/-- Dictionary that the `forEach` of `analyzeFieldPatterns` builds when every read
`fieldStats[metric.field]` is an own accumulator or is falsy. -/
def patternStats (metrics : List Metric) : List (String × PatternStats) :=
  metrics.foldl plainPatternStep []

/-- Counterexample of C4, first half: one hesitation sample of 6000 ms on `Name`. -/
def longHesitation : List Metric :=
  [ { sessionId := "s1", field := "Name", type := "hesitation",
      data := { hesitation := some 6000 } } ]

/-- Counterexample of C4, second half: a blur of `Name` after 6000 ms of hover and no
hesitation sample. -/
def longHover : List Metric :=
  [ { sessionId := "s1", field := "Name", type := "field_blur",
      data := { totalHover := some 6000 } } ]

/-- Entry that `analyzeFieldPatterns` returns for a field with `field_blur` events, in
terms of the sums over these events. -/
def fieldPatternOf (metrics : List Metric) (f : String) : FieldPattern :=
  { name := f
    totalTime := hoverTotal metrics f
    backspaces := blurBackspaces metrics f
    characters := blurCharacters metrics f
    sessions := setOf ((blurEvents metrics f).map (fun m => m.sessionId))
    avgHesitation := (hoverTotal metrics f : ℚ) / (blurSessionCount metrics f : ℚ)
    backspaceRate :=
      if blurCharacters metrics f > 0 then
        (blurBackspaces metrics f : ℚ) / (blurCharacters metrics f : ℚ)
      else 0 }

/-- Entry stored for an accepted payload: the payload with `receivedAt` set. -/
def storedEntry (r : JsonValue × Int) : List (String × JsonValue) :=
  objectSet (spreadProps r.1) "receivedAt" (.num (r.2 : ℚ))

/-- Acceptance test of the ingestion endpoint: `type` and `field` are both truthy. -/
def accepted (metric : JsonValue) : Bool :=
  truthy (metric.prop "type") && truthy (metric.prop "field")

/-- Counterexample of C5: a payload whose `field` is present and is the empty string. -/
def emptyFieldPayload : JsonValue :=
  .obj [("type", .str "hesitation"), ("field", .str "")]

/-- Witness of C5: a payload that carries a `receivedAt` of its own. -/
def stampedPayload : JsonValue :=
  .obj [("type", .str "hesitation"), ("receivedAt", .num 1), ("field", .str "Email")]

/-- Number of `form_abandon` events. -/
def abandonCount (metrics : List Metric) : Nat :=
  metrics.countP (fun m => decide (m.type = "form_abandon"))

/-- Number of `form_submit` events. -/
def submitCount (metrics : List Metric) : Nat :=
  metrics.countP (fun m => decide (m.type = "form_submit"))

/-- Sequence of `n` events of type `t` of session `s1`. -/
def formEvents (t : String) (n : Nat) : List Metric :=
  List.replicate n { sessionId := "s1", field := "signup", type := t }

/-- Traversal order of a session: the fields of its `field_focus` events, in order. -/
def focusFields (metrics : List Metric) (sessionId : String) : List String :=
  (metrics.filter (fun m => decide (m.sessionId = sessionId ∧ m.type = "field_focus"))).map
    (fun m => m.field)

/-- Counterexample of C8: a session that focuses the same field twice. -/
def refocus : List Metric :=
  [ { sessionId := "s1", field := "Name", type := "field_focus", ts := 1000 },
    { sessionId := "s1", field := "Name", type := "field_focus", ts := 2000 } ]

/-- Witness of C8: a session that focuses two fields and submits. -/
def twoFieldJourney : List Metric :=
  [ { sessionId := "s1", field := "Name", type := "field_focus", ts := 1000 },
    { sessionId := "s1", field := "Email", type := "field_focus", ts := 2000 },
    { sessionId := "s1", field := "signup", type := "form_submit", ts := 3000 } ]

/-- Click events at the given times. -/
def clickEvents (times : List Int) : List FieldEvent := times.map FieldEvent.click

/-- Clicks retained in the window of the code at time `t`: those less than 1000 ms old. -/
def retained (clicks : List Int) (t : Int) : List Int :=
  clicks.filter (fun ts => decide (t - ts < 1000))

/-- Clicks retained in the window as C9 words it: only those with `t - ts > 1000` are
dropped. -/
def retainedAtMost (clicks : List Int) (t : Int) : List Int :=
  clicks.filter (fun ts => decide (¬ t - ts > 1000))

/-- Emission `rage_click{count}`. -/
def rageClick (count : Nat) : Emission :=
  { type := "rage_click", data := { count := some count } }

/-- Focus of a field of the form. -/
def isFieldFocus : FormEvent → Bool
  | .fieldFocus _ => true
  | _ => false

/-- Submit event, or click on a submit-type control. -/
def isSubmission : FormEvent → Bool
  | .submit _ => true
  | .submitButtonClick _ => true
  | _ => false

/-- Environment teardown (`beforeunload`). -/
def isTeardown : FormEvent → Bool
  | .beforeunload _ => true
  | _ => false

/-- Clock reading of a form event. -/
def FormEvent.now : FormEvent → Int
  | .fieldFocus now => now
  | .submit now => now
  | .submitButtonClick now => now
  | .beforeunload now => now

/-- State of the form after a sequence of events. -/
def formStateAfter (s : FormState) (es : List FormEvent) : FormState :=
  es.foldl (fun s e => (formStep s e).1) s

/-- Emission `form_abandon{abandonedAt}`. -/
def formAbandon (now : Int) : Emission :=
  { type := "form_abandon", data := { abandonedAt := some now } }

/-- The `form_abandon` emissions among a list of emissions. -/
def abandons (out : List Emission) : List Emission :=
  out.filter (fun x => decide (x.type = "form_abandon"))

/-- Counterexample of C10: a focus followed by two teardowns. -/
def twoTeardowns : List FormEvent :=
  [.fieldFocus 1000, .beforeunload 2000, .beforeunload 3000]

/-- Focus event. -/
def isFocus : FieldEvent → Bool
  | .focus _ => true
  | _ => false

/-- Content change: an `input` event, whatever its `inputType`. -/
def isInput : FieldEvent → Bool
  | .input _ _ => true
  | _ => false

/-- Emission `field_focus{focusCount}`. -/
def fieldFocus (focusCount : Nat) : Emission :=
  { type := "field_focus", data := { focusCount := some focusCount } }

/-- Emissions of a given type among a list of emissions. -/
def ofType (t : String) (out : List Emission) : List Emission :=
  out.filter (fun x => decide (x.type = t))

/-- Typing intervals recorded in the cycle once the content change at `now` is accounted
for: the change adds the time elapsed since the previous change, if there is one. -/
def intervalsAfter (s : FieldState) (now : Int) : List Int :=
  if truthyTime s.lastInputTime then s.typingIntervals ++ [now - s.lastInputTime.getD 0]
  else s.typingIntervals

/-- Exact mean of the most recent 3 intervals. -/
def currAvgOf (intervals : List Int) : ℚ :=
  (((intervals.reverse.take 3).sum : Int) : ℚ) / 3

/-- Exact mean of the 3 intervals that immediately precede the most recent 3. -/
def prevAvgOf (intervals : List Int) : ℚ :=
  ((((intervals.reverse.drop 3).take 3).sum : Int) : ℚ) / 3

/-- Comparison `currAvg > prevAvg * 1.7` as the handler evaluates it, from the exact
means: each mean, the constant and the product are rounded to doubles. -/
def slowerInDouble (prevAvg currAvg : ℚ) : Prop :=
  toDouble currAvg > toDouble (toDouble prevAvg * toDouble (17 / 10))

instance (prevAvg currAvg : ℚ) : Decidable (slowerInDouble prevAvg currAvg) :=
  inferInstanceAs (Decidable (toDouble currAvg > toDouble (toDouble prevAvg * toDouble (17 / 10))))

/-- Emission `typing_speed_dropoff{prevAvg, currAvg}`. -/
def speedDropoff (prevAvg currAvg : ℚ) : Emission :=
  { type := "typing_speed_dropoff", data := { prevAvg := some prevAvg, currAvg := some currAvg } }

/-- Content changes at the given times, as typed characters. -/
def typedAt (times : List Int) : List FieldEvent :=
  times.map (fun t => FieldEvent.input t "insertText")

/-- Emission `hesitation{hesitation}`. -/
def hesitationOf (hesitation : Int) : Emission :=
  { type := "hesitation", data := { hesitation := some hesitation } }

/-- Event that neither starts nor ends a focus cycle and is not a content change. -/
def isOther (e : FieldEvent) : Bool := !isFocus e && !isBlur e && !isInput e

/-- Event that neither starts nor ends a focus cycle. -/
def inCycle (e : FieldEvent) : Bool := !isFocus e && !isBlur e

/-- Witness of C14: two blurs of `Email`, 2 backspaces for 3 characters then 1 for 2; and
a blur of `Name` without characters. -/
def correctedEmail : List Metric :=
  [ { sessionId := "s1", field := "Email", type := "field_blur",
      data := { backspaceCount := some 2, charCount := some 3 } },
    { sessionId := "s1", field := "Name", type := "field_blur",
      data := { backspaceCount := some 4 } },
    { sessionId := "s2", field := "Email", type := "field_blur",
      data := { backspaceCount := some 1, charCount := some 2 } } ]

/-- Failing input of C14: a blur of `Email` with 2 backspaces for 3 characters, then a blur
of a field labelled `constructor`. -/
def inheritedBlur : List Metric :=
  [ { sessionId := "s1", field := "Email", type := "field_blur",
      data := { backspaceCount := some 2, charCount := some 3 } },
    { sessionId := "s1", field := "constructor", type := "field_blur",
      data := { backspaceCount := some 0, charCount := some 4 } } ]

/-- Fields of the aggregate of `analyzeFieldPatterns` in order of first appearance: the
fields of the `field_blur` events, each at its first occurrence. -/
def firstAppearance (metrics : List Metric) : List String :=
  setOf ((metrics.filter (fun m => decide (m.type = "field_blur"))).map (fun m => m.field))

/-- Order of two labels that are array indices. -/
def labelLE (a b : String) : Prop :=
  (arrayIndex a).getD 0 ≤ (arrayIndex b).getD 0

instance : DecidableRel labelLE :=
  fun a b => inferInstanceAs (Decidable ((arrayIndex a).getD 0 ≤ (arrayIndex b).getD 0))

/-- Order in which `Object.values` enumerates the aggregate: the labels that are array
indices in ascending numeric order, then the other labels in order of first appearance. -/
def enumerationOrder (metrics : List Metric) : List String :=
  ((firstAppearance metrics).filter (fun f => (arrayIndex f).isSome)).insertionSort labelLE
    ++ (firstAppearance metrics).filter (fun f => (arrayIndex f).isNone)

/-- Accumulator that `analyzeFieldPatterns` holds for a field with `field_blur` events. -/
def patternStatsOf (metrics : List Metric) (f : String) : PatternStats :=
  { name := f
    totalTime := hoverTotal metrics f
    backspaces := blurBackspaces metrics f
    characters := blurCharacters metrics f
    sessions := setOf ((blurEvents metrics f).map (fun m => m.sessionId)) }

/-- Counterexample of C15: field `2` is blurred first, then field `1`, each after 6000 ms
of hover. -/
def numericLabels : List Metric :=
  [ { sessionId := "s1", field := "2", type := "field_blur",
      data := { totalHover := some 6000 } },
    { sessionId := "s1", field := "1", type := "field_blur",
      data := { totalHover := some 6000 } } ]

/-- Witness of C15: field `Name` is blurred first, then field `Email`, then `Name` again,
each after 6000 ms of hover. -/
def namedLabels : List Metric :=
  [ { sessionId := "s1", field := "Name", type := "field_blur",
      data := { totalHover := some 6000 } },
    { sessionId := "s1", field := "Email", type := "field_blur",
      data := { totalHover := some 6000 } },
    { sessionId := "s1", field := "Name", type := "field_blur",
      data := { totalHover := some 6000 } } ]

/-- Entry of `problematicFields` for a field, in terms of its samples and totals. -/
def problematicOf (metrics : List Metric) (f : String) : ProblematicField :=
  { field := f
    frictionScore := specFrictionScore metrics f
    issues := { highHesitation := jsGt (meanHesitation metrics f) 3000
                manyBackspaces := jsGt (backspacesTotal metrics f) 5
                rageClicks := jsGt (rageClicksTotal metrics f) 0 } }

/-- Witness of C16: events of two fields. -/
def mixedEvents : List Metric :=
  [ { sessionId := "s1", field := "Email", type := "backspace",
      data := { backspaceCount := some 6 } },
    { sessionId := "s1", field := "Name", type := "hesitation",
      data := { hesitation := some 9000 } },
    { sessionId := "s1", field := "Email", type := "rage_click", data := { count := some 1 } } ]

/-- Witness of C16: the same events, received in another order. -/
def mixedEventsReordered : List Metric :=
  [ { sessionId := "s1", field := "Name", type := "hesitation",
      data := { hesitation := some 9000 } },
    { sessionId := "s1", field := "Email", type := "rage_click", data := { count := some 1 } },
    { sessionId := "s1", field := "Email", type := "backspace",
      data := { backspaceCount := some 6 } } ]

/-- Failing input of C16: a focus of a field labelled `__proto__`, which reports
`focusCount = 1`, then a rage-click of count 2 on a field labelled `focusCount`. -/
def shadowedLabel : List Metric :=
  [ { sessionId := "s1", field := "__proto__", type := "field_focus",
      data := { focusCount := some 1 } },
    { sessionId := "s1", field := "focusCount", type := "rage_click",
      data := { count := some 2 } } ]

/-! ## Double-precision rounding: error bound and evaluation -/

theorem roundHalfEven_sub_le (q : ℚ) : |(roundHalfEven q : ℚ) - q| ≤ 1 / 2 := by
  have h1 := Int.floor_le q
  have h2 := Int.lt_floor_add_one q
  unfold roundHalfEven
  split_ifs with a b c
  · rw [abs_le]; constructor <;> linarith
  · rw [abs_le]; push_cast; constructor <;> linarith
  · rw [abs_le]; constructor <;> linarith
  · rw [abs_le]; push_cast; constructor <;> linarith

theorem roundHalfEven_eq (q : ℚ) (m : ℤ) (h1 : (m : ℚ) - 1 / 2 < q)
    (h2 : q < (m : ℚ) + 1 / 2) : roundHalfEven q = m := by
  have hb := roundHalfEven_sub_le q
  rw [abs_le] at hb
  have h3 : ((roundHalfEven q : ℤ) : ℚ) < (m : ℚ) + 1 := by linarith
  have h4 : (m : ℚ) - 1 < ((roundHalfEven q : ℤ) : ℚ) := by linarith
  have h5 : roundHalfEven q < m + 1 := by exact_mod_cast h3
  have h6 : m - 1 < roundHalfEven q := by exact_mod_cast h4
  omega

theorem binaryExponent_eq (q : ℚ) (e : ℤ) (h1 : (2 : ℚ) ^ e ≤ |q|)
    (h2 : |q| < (2 : ℚ) ^ (e + 1)) : binaryExponent q = e := by
  have hpos : 0 < |q| := lt_of_lt_of_le (by positivity) h1
  unfold binaryExponent
  have a1 : e ≤ Int.log 2 |q| :=
    (Int.zpow_le_iff_le_log (by norm_num) hpos).1 (by exact_mod_cast h1)
  have a2 : Int.log 2 |q| < e + 1 :=
    (Int.lt_zpow_iff_log_lt (by norm_num) hpos).1 (by exact_mod_cast h2)
  omega

/-- Evaluation of `toDouble` at a positive rational: with `2 ^ e ≤ q < 2 ^ (e + 1)`, the
double is `m * 2 ^ (e - 52)` for the integer `m` strictly nearest to `q / 2 ^ (e - 52)`. -/
theorem toDouble_eval (q : ℚ) (e m : ℤ) (h1 : (2 : ℚ) ^ e ≤ q) (h2 : q < (2 : ℚ) ^ (e + 1))
    (h3 : (m : ℚ) - 1 / 2 < q / 2 ^ (e - 52)) (h4 : q / 2 ^ (e - 52) < (m : ℚ) + 1 / 2) :
    toDouble q = (m : ℚ) * 2 ^ (e - 52) := by
  have hpos : 0 < q := lt_of_lt_of_le (by positivity) h1
  have he : binaryExponent q = e :=
    binaryExponent_eq q e (by rwa [abs_of_pos hpos]) (by rwa [abs_of_pos hpos])
  unfold toDouble
  rw [if_neg (ne_of_gt hpos), he, roundHalfEven_eq _ m h3 h4]

/-- Evaluation of `toDouble` at a negative rational. -/
theorem toDouble_eval_neg (q : ℚ) (e m : ℤ) (h1 : (2 : ℚ) ^ e ≤ -q)
    (h2 : -q < (2 : ℚ) ^ (e + 1)) (h3 : (m : ℚ) - 1 / 2 < q / 2 ^ (e - 52))
    (h4 : q / 2 ^ (e - 52) < (m : ℚ) + 1 / 2) : toDouble q = (m : ℚ) * 2 ^ (e - 52) := by
  have hneg : q < 0 := by
    have : (0 : ℚ) < 2 ^ e := by positivity
    linarith
  have he : binaryExponent q = e :=
    binaryExponent_eq q e (by rwa [abs_of_neg hneg]) (by rwa [abs_of_neg hneg])
  unfold toDouble
  rw [if_neg (ne_of_lt hneg), he, roundHalfEven_eq _ m h3 h4]

/-- Relative error of a rounding: at most `2 ^ (-53)`. -/
theorem toDouble_error (q : ℚ) : |toDouble q - q| ≤ |q| / 2 ^ 53 := by
  by_cases h0 : q = 0
  · simp [toDouble, h0]
  · have hpos : 0 < |q| := abs_pos.2 h0
    have hlog : (2 : ℚ) ^ binaryExponent q ≤ |q| := by
      have := Int.zpow_log_le_self (b := 2) (by norm_num) hpos
      exact_mod_cast this
    have hu : (0 : ℚ) < 2 ^ (binaryExponent q - 52) := by positivity
    have hr := roundHalfEven_sub_le (q / 2 ^ (binaryExponent q - 52))
    have e1 : toDouble q - q
        = ((roundHalfEven (q / 2 ^ (binaryExponent q - 52)) : ℚ)
            - q / 2 ^ (binaryExponent q - 52)) * 2 ^ (binaryExponent q - 52) := by
      unfold toDouble
      rw [if_neg h0]
      field_simp
    have e2 : (2 : ℚ) ^ (binaryExponent q - 52) = 2 ^ binaryExponent q / 2 ^ 52 := by
      rw [zpow_sub₀ (by norm_num)]
      norm_num
    rw [e1, abs_mul, abs_of_pos hu]
    calc |(roundHalfEven (q / 2 ^ (binaryExponent q - 52)) : ℚ)
            - q / 2 ^ (binaryExponent q - 52)| * 2 ^ (binaryExponent q - 52)
        ≤ 1 / 2 * 2 ^ (binaryExponent q - 52) := mul_le_mul_of_nonneg_right hr (le_of_lt hu)
      _ = 2 ^ binaryExponent q / 2 ^ 53 := by rw [e2]; ring
      _ ≤ |q| / 2 ^ 53 := div_le_div_of_nonneg_right hlog (by positivity)

theorem toDouble_pos (q : ℚ) (h : 0 < q) : 0 < toDouble q := by
  have he := toDouble_error q
  rw [abs_of_pos h, abs_le] at he
  have : q / 2 ^ 53 < q := div_lt_self h (by norm_num)
  linarith

theorem toDouble_zero : toDouble 0 = 0 := by simp [toDouble]

theorem toDouble_eq_zero (q : ℚ) : toDouble q = 0 ↔ q = 0 := by
  constructor
  · intro h
    by_contra hne
    have he := toDouble_error q
    rw [h, zero_sub, abs_neg] at he
    have hpos : 0 < |q| := abs_pos.2 hne
    have : |q| / 2 ^ 53 < |q| := div_lt_self hpos (by norm_num)
    linarith
  · intro h
    rw [h, toDouble_zero]

/-- Bounds of a rounding of a positive number. -/
theorem toDouble_bounds (q : ℚ) (h : 0 < q) :
    q * (1 - 1 / 2 ^ 53) ≤ toDouble q ∧ toDouble q ≤ q * (1 + 1 / 2 ^ 53) := by
  have he := toDouble_error q
  rw [abs_of_pos h, abs_le] at he
  constructor
  · have : q * (1 - 1 / 2 ^ 53) = q - q / 2 ^ 53 := by ring
    rw [this]
    linarith
  · have : q * (1 + 1 / 2 ^ 53) = q + q / 2 ^ 53 := by ring
    rw [this]
    linarith

/-- Bounds of the product `prevAvg * 1.7` as evaluated in double precision, for a positive
exact mean `p`: within a relative `2 ^ (-51)` of `p * 17 / 10`. -/
theorem doubleProduct_bounds (p : ℚ) (h : 0 < p) :
    p * (17 / 10) * (1 - 1 / 2 ^ 51) ≤ toDouble (toDouble p * toDouble (17 / 10))
    ∧ toDouble (toDouble p * toDouble (17 / 10)) ≤ p * (17 / 10) * (1 + 1 / 2 ^ 51) := by
  obtain ⟨p1, p2⟩ := toDouble_bounds p h
  obtain ⟨k1, k2⟩ := toDouble_bounds (17 / 10) (by norm_num)
  have hp' : 0 < toDouble p := toDouble_pos p h
  have hk' : 0 < toDouble (17 / 10) := toDouble_pos _ (by norm_num)
  obtain ⟨m1, m2⟩ := toDouble_bounds (toDouble p * toDouble (17 / 10)) (mul_pos hp' hk')
  have hlow : p * (1 - 1 / 2 ^ 53) * ((17 / 10) * (1 - 1 / 2 ^ 53))
      ≤ toDouble p * toDouble (17 / 10) :=
    mul_le_mul p1 k1 (by norm_num) hp'.le
  have hhigh : toDouble p * toDouble (17 / 10)
      ≤ p * (1 + 1 / 2 ^ 53) * ((17 / 10) * (1 + 1 / 2 ^ 53)) :=
    mul_le_mul p2 k2 hk'.le (by positivity)
  constructor
  · have h1 : p * (1 - 1 / 2 ^ 53) * ((17 / 10) * (1 - 1 / 2 ^ 53)) * (1 - 1 / 2 ^ 53)
        ≤ toDouble p * toDouble (17 / 10) * (1 - 1 / 2 ^ 53) :=
      mul_le_mul_of_nonneg_right hlow (by norm_num)
    have h2 : p * (17 / 10) * (1 - 1 / 2 ^ 51)
        ≤ p * (1 - 1 / 2 ^ 53) * ((17 / 10) * (1 - 1 / 2 ^ 53)) * (1 - 1 / 2 ^ 53) := by
      have e : p * (1 - 1 / 2 ^ 53) * ((17 / 10) * (1 - 1 / 2 ^ 53)) * (1 - 1 / 2 ^ 53)
          - p * (17 / 10) * (1 - 1 / 2 ^ 51)
          = p * ((17 / 10) * ((1 - 1 / 2 ^ 53) ^ 3 - (1 - 1 / 2 ^ 51))) := by ring
      have : (0 : ℚ) ≤ (17 / 10) * ((1 - 1 / 2 ^ 53) ^ 3 - (1 - 1 / 2 ^ 51)) := by norm_num
      nlinarith [mul_nonneg h.le this]
    linarith
  · have h1 : toDouble p * toDouble (17 / 10) * (1 + 1 / 2 ^ 53)
        ≤ p * (1 + 1 / 2 ^ 53) * ((17 / 10) * (1 + 1 / 2 ^ 53)) * (1 + 1 / 2 ^ 53) :=
      mul_le_mul_of_nonneg_right hhigh (by norm_num)
    have h2 : p * (1 + 1 / 2 ^ 53) * ((17 / 10) * (1 + 1 / 2 ^ 53)) * (1 + 1 / 2 ^ 53)
        ≤ p * (17 / 10) * (1 + 1 / 2 ^ 51) := by
      have e : p * (17 / 10) * (1 + 1 / 2 ^ 51)
          - p * (1 + 1 / 2 ^ 53) * ((17 / 10) * (1 + 1 / 2 ^ 53)) * (1 + 1 / 2 ^ 53)
          = p * ((17 / 10) * ((1 + 1 / 2 ^ 51) - (1 + 1 / 2 ^ 53) ^ 3)) := by ring
      have : (0 : ℚ) ≤ (17 / 10) * ((1 + 1 / 2 ^ 51) - (1 + 1 / 2 ^ 53) ^ 3) := by norm_num
      nlinarith [mul_nonneg h.le this]
    linarith

/-! ## Dictionaries -/

theorem objectGet_eq_none {α : Type} (o : List (String × α)) (k : String) :
    objectGet o k = none ↔ k ∉ objectKeys o := by
  induction o with
  | nil => simp [objectGet, objectKeys]
  | cons kv o ih =>
    by_cases h : kv.1 = k
    · simp [objectGet, objectKeys, h.symm]
    · have h2 : ¬ k = kv.1 := fun e => h e.symm
      simp only [objectKeys] at ih
      simp [objectGet, objectKeys, h, h2, ih]

theorem objectGet_modify {α : Type} (o : List (String × α)) (k k2 : String) (f : α → α) :
    objectGet (objectModify o k f) k2
      = if k2 = k then (objectGet o k2).map f else objectGet o k2 := by
  induction o with
  | nil => simp [objectGet, objectModify]
  | cons kv o ih =>
    simp only [objectModify, List.map_cons] at ih ⊢
    by_cases h1 : kv.1 = k <;> by_cases h2 : kv.1 = k2 <;> by_cases h3 : k2 = k <;>
      simp_all [objectGet]

theorem objectGet_add {α : Type} (o : List (String × α)) (k k2 : String) (v : α) :
    objectGet (objectAdd o k v) k2
      = match objectGet o k2 with
        | some s => some s
        | none => if k = k2 then some v else none := by
  induction o with
  | nil => by_cases h : k = k2 <;> simp [objectGet, objectAdd, h]
  | cons kv o ih =>
    simp only [objectAdd, List.cons_append] at ih ⊢
    by_cases h2 : kv.1 = k2
    · simp [objectGet, h2]
    · simpa [objectGet, h2] using ih

theorem objectKeys_modify {α : Type} (o : List (String × α)) (k : String) (f : α → α) :
    objectKeys (objectModify o k f) = objectKeys o := by
  induction o with
  | nil => rfl
  | cons kv o ih =>
    simp only [objectKeys, objectModify, List.map_cons] at ih ⊢
    rw [ih]
    by_cases h : kv.1 = k <;> simp [h]

theorem objectKeys_add {α : Type} (o : List (String × α)) (k : String) (v : α) :
    objectKeys (objectAdd o k v) = objectKeys o ++ [k] := by
  simp [objectKeys, objectAdd]

theorem objectGet_of_mem {α : Type} (o : List (String × α)) (hn : (objectKeys o).Nodup)
    (k : String) (s : α) : (k, s) ∈ o ↔ objectGet o k = some s := by
  induction o with
  | nil => simp [objectGet]
  | cons kv o ih =>
    obtain ⟨k0, s0⟩ := kv
    simp only [objectKeys, List.map_cons, List.nodup_cons] at hn
    have ih2 := ih hn.2
    by_cases h : k0 = k
    · subst h
      have : ∀ s, (k0, s) ∉ o := fun s hm => hn.1 (List.mem_map.2 ⟨(k0, s), hm, rfl⟩)
      simp [objectGet, this, eq_comm]
    · have h2 : ¬ k = k0 := fun e => h e.symm
      simp [objectGet, h, h2, ih2]

theorem mem_objectEntries {α : Type} (o : List (String × α)) (kv : String × α) :
    kv ∈ objectEntries o ↔ kv ∈ o := by
  unfold objectEntries
  rw [List.mem_append, (List.perm_insertionSort indexLE _).mem_iff, List.mem_filter,
    List.mem_filter]
  cases h : arrayIndex kv.1 <;> simp [h]

theorem plainStats_snoc (p : Option Nat) (ms : List Metric) (m : Metric) :
    plainStats p (ms ++ [m]) = frictionRecord p (plainStats p ms) m := by
  simp [plainStats, List.foldl_append]

theorem objectGet_frictionRecord (p : Option Nat) (st : List (String × FieldStats)) (m : Metric)
    (f : String) :
    objectGet (frictionRecord p st m) f
      = if f = m.field then some (frictionUpdate p m ((objectGet st f).getD FieldStats.init))
        else objectGet st f := by
  unfold frictionRecord
  by_cases hf : f = m.field
  · subst hf
    cases hg : objectGet st m.field with
    | none => simp [objectGet_modify, objectGet_add, hg]
    | some s => simp [objectGet_modify, hg]
  · have hf2 : ¬ m.field = f := fun e => hf e.symm
    cases hg : objectGet st m.field with
    | none =>
      simp only [Option.isNone_none, if_true, objectGet_modify, hf, if_false, objectGet_add, hf2]
      cases objectGet st f <;> rfl
    | some s => simp [hg, objectGet_modify, hf]

theorem objectKeys_frictionRecord (p : Option Nat) (st : List (String × FieldStats))
    (m : Metric) :
    objectKeys (frictionRecord p st m)
      = if m.field ∈ objectKeys st then objectKeys st else objectKeys st ++ [m.field] := by
  unfold frictionRecord
  by_cases hk : m.field ∈ objectKeys st
  · have : objectGet st m.field ≠ none := fun e => (objectGet_eq_none st m.field).1 e hk
    cases hg : objectGet st m.field with
    | none => exact absurd hg this
    | some s => simp [hg, hk, objectKeys_modify]
  · have : objectGet st m.field = none := (objectGet_eq_none st m.field).2 hk
    simp [this, hk, objectKeys_modify, objectKeys_add]

theorem plainStats_nodup (p : Option Nat) (ms : List Metric) :
    (objectKeys (plainStats p ms)).Nodup := by
  induction ms using List.reverseRecOn with
  | nil => simp [plainStats, objectKeys]
  | append_singleton ms m ih =>
    rw [plainStats_snoc, objectKeys_frictionRecord]
    by_cases hk : m.field ∈ objectKeys (plainStats p ms)
    · simpa [hk] using ih
    · simp only [hk, if_false]
      exact List.nodup_append.2 ⟨ih, List.nodup_singleton _, by
        intro a ha hb
        rw [List.mem_singleton] at hb
        exact hk (hb ▸ ha)⟩

theorem jsSum_snoc (xs : List Num) (x : Num) : jsSum (xs ++ [x]) = jsAdd (jsSum xs) x := by
  simp [jsSum, List.foldl_append]

/-- Invariant of the grouping loop: a field is a key iff some event names it, and its
accumulator then holds the samples and totals of the field. -/
theorem plainStats_get (p : Option Nat) (ms : List Metric) (f : String) :
    (objectGet (plainStats p ms) f = none ∧ ∀ m ∈ ms, m.field ≠ f) ∨
    (∃ s, objectGet (plainStats p ms) f = some s ∧ (∃ m ∈ ms, m.field = f)
      ∧ s.hesitation = hesitationSamples ms f ∧ s.backspaces = backspacesTotal ms f
      ∧ s.rageClicks = rageClicksTotal ms f) := by
  induction ms using List.reverseRecOn with
  | nil =>
    left
    simp [plainStats, objectGet]
  | append_singleton ms m ih =>
    rw [plainStats_snoc, objectGet_frictionRecord]
    by_cases hf : f = m.field
    · subst hf
      right
      refine ⟨frictionUpdate p m ((objectGet (plainStats p ms) m.field).getD FieldStats.init),
        by simp, ⟨m, by simp, rfl⟩, ?_⟩
      have key : (objectGet (plainStats p ms) m.field).getD FieldStats.init
          = { hesitation := hesitationSamples ms m.field
              backspaces := backspacesTotal ms m.field
              rageClicks := rageClicksTotal ms m.field
              focusCount := ((objectGet (plainStats p ms) m.field).getD FieldStats.init).focusCount } := by
        rcases ih with ⟨hn, hall⟩ | ⟨s, hs, _, h1, h2, h3⟩
        · have e1 : ms.filter (fun x => decide (x.field = m.field ∧ x.type = "hesitation")) = [] :=
            List.filter_eq_nil_iff.2 (fun x hx => by simp [hall x hx])
          have e2 : ms.filter (fun x => decide (x.field = m.field ∧ x.type = "backspace")) = [] :=
            List.filter_eq_nil_iff.2 (fun x hx => by simp [hall x hx])
          have e3 : ms.filter (fun x => decide (x.field = m.field ∧ x.type = "rage_click")) = [] :=
            List.filter_eq_nil_iff.2 (fun x hx => by simp [hall x hx])
          simp only [hesitationSamples, backspacesTotal, rageClicksTotal, e1, e2, e3]
          simp [hn, FieldStats.init, jsSum]
        · rw [hs]
          cases s
          simp_all
      rw [key]
      simp only [hesitationSamples, backspacesTotal, rageClicksTotal, List.filter_append,
        List.map_append, frictionUpdate]
      by_cases t1 : m.type = "hesitation"
      · simp [t1, List.filter_cons, List.filter_nil]
      · by_cases t2 : m.type = "backspace"
        · simp [t2, jsSum_snoc]
        · by_cases t3 : m.type = "rage_click"
          · simp [t3, jsSum_snoc]
          · by_cases t4 : m.type = "field_focus"
            · simp [t4]
            · simp [t1, t2, t3, t4]
    · have hf2 : ¬ m.field = f := fun e => hf e.symm
      simp only [hf, if_false]
      rcases ih with ⟨hn, hall⟩ | ⟨s, hs, ⟨m0, hm0, hm0f⟩, h1, h2, h3⟩
      · left
        refine ⟨hn, ?_⟩
        intro x hx
        rcases List.mem_append.1 hx with h | h
        · exact hall x h
        · rw [List.mem_singleton] at h
          rw [h]; exact hf2
      · right
        refine ⟨s, hs, ⟨m0, List.mem_append_left _ hm0, hm0f⟩, ?_⟩
        simp [hesitationSamples, backspacesTotal, rageClicksTotal, List.filter_append, hf2,
          h1, h2, h3]

theorem avgHesitationOf_samples (ms : List Metric) (f : String) :
    avgHesitationOf (hesitationSamples ms f) = meanHesitation ms f := by
  unfold avgHesitationOf meanHesitation
  cases h : hesitationSamples ms f <;> simp

theorem frictionEntry_field (kv : String × FieldStats) (e : ProblematicField)
    (h : frictionEntry kv = some e) : e.field = kv.1 := by
  simp only [frictionEntry] at h
  split at h
  · simp only [Option.some.injEq] at h
    rw [← h]
  · exact absurd h (by simp)

theorem mem_problematicFields (p : Option Nat) (ms : List Metric) (e : ProblematicField) :
    e ∈ (frictionResult (plainStats p ms)).problematicFields
      ↔ ∃ s, objectGet (plainStats p ms) e.field = some s
          ∧ frictionEntry (e.field, s) = some e := by
  simp only [frictionResult, List.mem_filterMap, mem_objectEntries]
  constructor
  · rintro ⟨⟨k, s⟩, hmem, he⟩
    have hk := frictionEntry_field _ _ he
    simp only at hk
    rw [hk]
    exact ⟨s, (objectGet_of_mem _ (plainStats_nodup p ms) k s).1 hmem, he⟩
  · rintro ⟨s, hg, he⟩
    exact ⟨(e.field, s), (objectGet_of_mem _ (plainStats_nodup p ms) _ s).2 hg, he⟩

theorem frictionEntry_stats (p : Option Nat) (ms : List Metric) (f : String) (s : FieldStats)
    (hs : objectGet (plainStats p ms) f = some s) :
    frictionEntry (f, s)
      = if jsGt (specFrictionScore ms f) 3 then
          some { field := f
                 frictionScore := specFrictionScore ms f
                 issues := { highHesitation := jsGt (meanHesitation ms f) 3000
                             manyBackspaces := jsGt (backspacesTotal ms f) 5
                             rageClicks := jsGt (rageClicksTotal ms f) 0 } }
        else none := by
  rcases plainStats_get p ms f with ⟨hn, _⟩ | ⟨s2, hs2, _, h1, h2, h3⟩
  · rw [hn] at hs; exact absurd hs (by simp)
  · rw [hs] at hs2
    simp only [Option.some.injEq] at hs2
    subst hs2
    simp only [frictionEntry, h1, h2, h3, avgHesitationOf_samples, frictionScoreOf,
      specFrictionScore]

theorem specFrictionScore_absent (ms : List Metric) (f : String)
    (h : ∀ m ∈ ms, m.field ≠ f) : specFrictionScore ms f = some 0 := by
  have e1 : ms.filter (fun x => decide (x.field = f ∧ x.type = "hesitation")) = [] :=
    List.filter_eq_nil_iff.2 (fun x hx => by simp [h x hx])
  have e2 : ms.filter (fun x => decide (x.field = f ∧ x.type = "backspace")) = [] :=
    List.filter_eq_nil_iff.2 (fun x hx => by simp [h x hx])
  have e3 : ms.filter (fun x => decide (x.field = f ∧ x.type = "rage_click")) = [] :=
    List.filter_eq_nil_iff.2 (fun x hx => by simp [h x hx])
  simp only [specFrictionScore, meanHesitation, hesitationSamples, backspacesTotal,
    rageClicksTotal, e1, e2, e3]
  simp [jsSum, jsAdd, jsDivConst, jsMulConst]


/-! ## Reads through the prototype chain -/

theorem slotOf_plain {α : Type} (p : Option Nat) (o : List (String × α)) (k : String)
    (h : plainLabel p k) : slotOf p o k = .own ∨ slotOf p o k = .undefined := by
  obtain ⟨h1, h2, h3⟩ := h
  unfold slotOf
  rw [if_neg h1]
  by_cases hg : (objectGet o k).isSome = true
  · left; rw [if_pos hg]
  · right; rw [if_neg hg, if_neg h2, if_neg h3]

theorem slotOf_not_plain {α : Type} (p : Option Nat) (o : List (String × α)) (k : String)
    (h : ¬ plainLabel p k) (hg : objectGet o k = none) :
    slotOf p o k = .prototype ∨ slotOf p o k = .inherited := by
  unfold slotOf
  by_cases h1 : k = "__proto__"
  · left; rw [if_pos h1]
  · right
    rw [if_neg h1, hg]
    by_cases h2 : k ∈ prototypeMethods
    · simp [h2]
    · by_cases h3 : k = "focusCount" ∧ 0 < p.getD 0
      · simp [h2, h3]
      · exact absurd ⟨h1, h2, h3⟩ h

theorem frictionStep_plain (p : Option Nat) (fs : List (String × FieldStats)) (m : Metric)
    (h : plainLabel p m.field) :
    frictionStep { fieldStats := fs, focusCount := p, thrown := false } m
      = { fieldStats := frictionRecord p fs m, focusCount := p, thrown := false } := by
  unfold frictionStep
  rcases slotOf_plain p fs m.field h with e | e <;> simp [e]

theorem frictionLoop_snoc (p : Option Nat) (ms : List Metric) (m : Metric) :
    frictionLoop p (ms ++ [m]) = frictionStep (frictionLoop p ms) m := by
  simp [frictionLoop, List.foldl_append]

/-- On labels that the prototype chain does not resolve, the first `forEach` builds the
dictionary of own accumulators, leaves `Object.prototype` as it is and does not throw. -/
theorem frictionLoop_plain (p : Option Nat) (ms : List Metric)
    (h : ∀ m ∈ ms, plainLabel p m.field) :
    frictionLoop p ms = { fieldStats := plainStats p ms, focusCount := p, thrown := false } := by
  induction ms using List.reverseRecOn with
  | nil => rfl
  | append_singleton ms m ih =>
    rw [frictionLoop_snoc, ih (fun x hx => h x (List.mem_append_left _ hx)), plainStats_snoc]
    exact frictionStep_plain p _ m (h m (by simp))

theorem analyzeFrictionPatterns_plain (p : Option Nat) (ms : List Metric)
    (h : ∀ m ∈ ms, plainLabel p m.field) :
    analyzeFrictionPatterns p ms = some (frictionResult (plainStats p ms)) := by
  simp [analyzeFrictionPatterns, frictionLoop_plain p ms h]

/-- On labels that the prototype chain does not resolve, `analyzeFrictionPatterns` returns
a result that lists a field iff its score `avgHesitation/1000 + backspaces*0.5 +
rageClicks*2` exceeds 3 (the mean being 0 when the field has no hesitation sample), with
that score and the flags `avgHesitation > 3000`, `backspaces > 5`, `rageClicks > 0`, and
whose overall score is `High` iff some field is listed, else `Low`. -/
theorem analyzeFrictionPatterns_of_plain (p : Option Nat) (metrics : List Metric)
    (h : ∀ m ∈ metrics, plainLabel p m.field) (f : String) :
    ∃ r, analyzeFrictionPatterns p metrics = some r
    ∧ ((∃ e ∈ r.problematicFields, e.field = f)
        ↔ jsGt (specFrictionScore metrics f) 3 = true)
    ∧ (∀ e ∈ r.problematicFields, e.field = f →
        e.frictionScore = specFrictionScore metrics f
        ∧ e.issues.highHesitation = jsGt (meanHesitation metrics f) 3000
        ∧ e.issues.manyBackspaces = jsGt (backspacesTotal metrics f) 5
        ∧ e.issues.rageClicks = jsGt (rageClicksTotal metrics f) 0)
    ∧ (∀ a b r : ℚ, meanHesitation metrics f = some a → backspacesTotal metrics f = some b →
        rageClicksTotal metrics f = some r →
        specFrictionScore metrics f = some (a / 1000 + b * (1 / 2) + r * 2))
    ∧ (r.score = "High" ↔ r.problematicFields ≠ [])
    ∧ (r.score = "Low" ↔ r.problematicFields = []) := by
  refine ⟨_, analyzeFrictionPatterns_plain p metrics h, ⟨?_, ?_⟩, ?_, ?_, ?_, ?_⟩
  · rintro ⟨e, he, hf⟩
    obtain ⟨s, hg, hent⟩ := (mem_problematicFields p metrics e).1 he
    rw [hf] at hg hent
    rw [frictionEntry_stats p metrics f s hg] at hent
    by_contra hc
    simp [hc] at hent
  · intro hgt
    rcases plainStats_get p metrics f with ⟨_, hall⟩ | ⟨s, hs, _⟩
    · rw [specFrictionScore_absent metrics f hall] at hgt
      simp only [jsGt, decide_eq_true_eq] at hgt
      norm_num at hgt
    · have hent := frictionEntry_stats p metrics f s hs
      rw [if_pos hgt] at hent
      exact ⟨{ field := f
               frictionScore := specFrictionScore metrics f
               issues := { highHesitation := jsGt (meanHesitation metrics f) 3000
                           manyBackspaces := jsGt (backspacesTotal metrics f) 5
                           rageClicks := jsGt (rageClicksTotal metrics f) 0 } },
        (mem_problematicFields p metrics _).2 ⟨s, hs, hent⟩, rfl⟩
  · intro e he hf
    obtain ⟨s, hg, hent⟩ := (mem_problematicFields p metrics e).1 he
    rw [hf] at hg hent
    rw [frictionEntry_stats p metrics f s hg] at hent
    split at hent
    · simp only [Option.some.injEq] at hent
      rw [← hent]
      exact ⟨rfl, rfl, rfl, rfl⟩
    · exact absurd hent (by simp)
  · intro a b r ha hb hr
    simp [specFrictionScore, ha, hb, hr, jsAdd, jsDivConst, jsMulConst]
  · cases h : (frictionResult (plainStats p metrics)).problematicFields <;>
      simp_all [frictionResult]
  · cases h : (frictionResult (plainStats p metrics)).problematicFields <;>
      simp_all [frictionResult]

/-- C1 (code bug): the dictionary `fieldStats` is read through the prototype chain. The
events of the spec's witness (6 backspaces, 1 rage-click, no hesitation sample: score 5)
are listed with score 5 on a field labelled `Email`, but on a field labelled `constructor`
the read finds the function inherited from `Object.prototype`, no accumulator is created
and the result is `Low` with no field listed; a hesitation event on that label makes the
function throw. -/
theorem friction_inherited_label :
    hesitationSamples inheritedLabel "constructor" = []
    ∧ backspacesTotal inheritedLabel "constructor" = some 6
    ∧ rageClicksTotal inheritedLabel "constructor" = some 1
    ∧ specFrictionScore inheritedLabel "constructor" = some 5
    ∧ analyzeFrictionPatterns none inheritedLabel
        = some { score := "Low", problematicFields := [] }
    ∧ analyzeFrictionPatterns none inheritedHesitation = none
    ∧ specFrictionScore frictionWitness "Email" = some 5
    ∧ analyzeFrictionPatterns none frictionWitness
        = some { score := "High"
                 problematicFields :=
                   [ { field := "Email"
                       frictionScore := some 5
                       issues := { highHesitation := false
                                   manyBackspaces := true
                                   rageClicks := true } } ] } := by
  have ha : arrayIndex "Email" = none := by decide
  have hm : "constructor" ∈ prototypeMethods := by decide
  refine ⟨?_, ?_, ?_, ?_, ?_, ?_, ?_, ?_⟩
  · simp [hesitationSamples, inheritedLabel]
  · simp [backspacesTotal, inheritedLabel, jsSum, jsAdd, natToNum]
  · simp [rageClicksTotal, inheritedLabel, jsSum, jsAdd, natToNum]
  · simp [specFrictionScore, meanHesitation, hesitationSamples, backspacesTotal,
      rageClicksTotal, inheritedLabel, jsSum, jsAdd, natToNum, jsDivConst, jsMulConst]
    norm_num
  · simp [analyzeFrictionPatterns, frictionLoop, frictionStep, slotOf, inheritedLabel,
      objectGet, hm, frictionResult, objectEntries]
  · simp [analyzeFrictionPatterns, frictionLoop, frictionStep, slotOf, inheritedHesitation,
      objectGet, hm]
  · simp [specFrictionScore, meanHesitation, hesitationSamples, backspacesTotal,
      rageClicksTotal, frictionWitness, jsSum, jsAdd, natToNum, jsDivConst, jsMulConst]
    norm_num
  · simp [analyzeFrictionPatterns, frictionLoop, frictionStep, slotOf, frictionWitness,
      frictionRecord, prototypeMethods, objectGet, objectAdd, objectModify, frictionUpdate,
      frictionResult, objectEntries, ha, frictionEntry, jsGt, frictionScoreOf,
      avgHesitationOf, jsSum, jsAdd, jsMulConst, jsDivConst, natToNum, FieldStats.init,
      List.filterMap_cons]
    norm_num

/-! ## C2: backspaces accumulated by the engine -/

theorem foldl_jsAdd (a : Num) (xs : List Num) : xs.foldl jsAdd a = jsAdd a (jsSum xs) := by
  induction xs using List.reverseRecOn generalizing a with
  | nil => cases a <;> simp [jsSum, jsAdd]
  | append_singleton xs x ih =>
    rw [List.foldl_append, jsSum_snoc]
    simp only [List.foldl_cons, List.foldl_nil]
    rw [ih]
    cases a <;> cases jsSum xs <;> cases x <;> simp [jsAdd, add_assoc]

theorem jsSum_append (xs ys : List Num) : jsSum (xs ++ ys) = jsAdd (jsSum xs) (jsSum ys) := by
  unfold jsSum
  rw [List.foldl_append, foldl_jsAdd]
  rfl

theorem backspacesTotal_append (xs ys : List Metric) (f : String) :
    backspacesTotal (xs ++ ys) f = jsAdd (backspacesTotal xs f) (backspacesTotal ys f) := by
  simp only [backspacesTotal, List.filter_append, List.map_append, jsSum_append]

theorem onInput_fst (s : FieldState) (now : Int) (t : String) :
    (onInput s now t).1
      = (inputCharCount (inputTypingRate (inputHesitation s now).1 now).1 t).1 := rfl

theorem onInput_snd (s : FieldState) (now : Int) (t : String) :
    (onInput s now t).2
      = (inputHesitation s now).2 ++ (inputTypingRate (inputHesitation s now).1 now).2
        ++ (inputCharCount (inputTypingRate (inputHesitation s now).1 now).1 t).2
        ++ inputCorrectionRate (inputCharCount (inputTypingRate (inputHesitation s now).1 now).1 t).1
        ++ inputDropoff (inputCharCount (inputTypingRate (inputHesitation s now).1 now).1 t).1 :=
  rfl

theorem inputHesitation_type (s : FieldState) (now : Int) :
    ∀ x ∈ (inputHesitation s now).2, x.type = "hesitation" := by
  intro x hx
  unfold inputHesitation at hx
  split at hx <;> simp at hx
  rw [hx]

theorem inputTypingRate_type (s : FieldState) (now : Int) :
    ∀ x ∈ (inputTypingRate s now).2, x.type = "typing_rate" := by
  intro x hx
  simp only [inputTypingRate] at hx
  split_ifs at hx <;> simp at hx
  rw [hx]

theorem inputCorrectionRate_type (s : FieldState) :
    ∀ x ∈ inputCorrectionRate s, x.type = "correction_rate" := by
  intro x hx
  simp only [inputCorrectionRate] at hx
  split_ifs at hx <;> simp at hx
  rw [hx]

theorem inputDropoff_type (s : FieldState) :
    ∀ x ∈ inputDropoff s, x.type = "typing_speed_dropoff" := by
  intro x hx
  simp only [inputDropoff] at hx
  split_ifs at hx <;> simp at hx
  rw [hx]

theorem inputHesitation_backspaceCount (s : FieldState) (now : Int) :
    (inputHesitation s now).1.backspaceCount = s.backspaceCount := by
  unfold inputHesitation
  split <;> rfl

theorem inputTypingRate_backspaceCount (s : FieldState) (now : Int) :
    (inputTypingRate s now).1.backspaceCount = s.backspaceCount := by
  simp only [inputTypingRate]
  split_ifs <;> rfl

theorem backspacesTotal_none (sid form label : String) (now : Int) (out : List Emission)
    (h : ∀ x ∈ out, x.type ≠ "backspace") :
    backspacesTotal (out.map (reportMetric sid form label now)) label = some 0 := by
  have e : (out.map (reportMetric sid form label now)).filter
      (fun m => decide (m.field = label ∧ m.type = "backspace")) = [] := by
    apply List.filter_eq_nil_iff.2
    intro m hm
    obtain ⟨x, hx, rfl⟩ := List.mem_map.1 hm
    simp [reportMetric, h x hx]
  simp only [backspacesTotal, e]
  rfl

/-- Backspace metrics of one handler run: a deletion reports the incremented counter,
any other event but a blur reports nothing and keeps the counter. -/
theorem fieldStep_backspace (sid form label : String) (s : FieldState) (e : FieldEvent)
    (hb : isBlur e = false) :
    backspacesTotal ((fieldStep s e).2.map (reportMetric sid form label e.now)) label
        = (if isDeletion e = true then some ((s.backspaceCount : ℚ) + 1) else some 0)
    ∧ (fieldStep s e).1.backspaceCount
        = s.backspaceCount + (if isDeletion e = true then 1 else 0) := by
  cases e with
  | focus now =>
    refine ⟨backspacesTotal_none _ _ _ _ _ ?_, rfl⟩
    intro x hx
    simp only [fieldStep, onFocus, List.mem_singleton] at hx
    simp [hx]
  | paste now =>
    refine ⟨backspacesTotal_none _ _ _ _ _ ?_, rfl⟩
    intro x hx
    simp only [fieldStep, onPaste, List.mem_singleton] at hx
    simp [hx]
  | mouseover now =>
    refine ⟨backspacesTotal_none _ _ _ _ _ ?_, rfl⟩
    intro x hx
    simp [fieldStep, onMouseover] at hx
  | mouseout now =>
    constructor
    · refine backspacesTotal_none _ _ _ _ _ ?_
      intro x hx
      simp only [fieldStep, onMouseout] at hx
      split_ifs at hx <;> simp at hx
      simp [hx]
    · show (onMouseout s now).1.backspaceCount = s.backspaceCount + 0
      unfold onMouseout
      split <;> rfl
  | click now =>
    constructor
    · refine backspacesTotal_none _ _ _ _ _ ?_
      intro x hx
      simp only [fieldStep, onClick] at hx
      split_ifs at hx <;> simp at hx
      simp [hx]
    · show (onClick s now).1.backspaceCount = s.backspaceCount + 0
      simp only [onClick]
      split <;> rfl
  | blur now => simp [isBlur] at hb
  | input now inputType =>
    have n1 : ∀ x ∈ (inputHesitation s now).2, x.type ≠ "backspace" := fun x hx => by
      rw [inputHesitation_type s now x hx]; decide
    have n2 : ∀ x ∈ (inputTypingRate (inputHesitation s now).1 now).2, x.type ≠ "backspace" :=
      fun x hx => by rw [inputTypingRate_type _ now x hx]; decide
    have n4 : ∀ (t : FieldState), ∀ x ∈ inputCorrectionRate t, x.type ≠ "backspace" :=
      fun t x hx => by rw [inputCorrectionRate_type t x hx]; decide
    have n5 : ∀ (t : FieldState), ∀ x ∈ inputDropoff t, x.type ≠ "backspace" :=
      fun t x hx => by rw [inputDropoff_type t x hx]; decide
    have hc : (inputTypingRate (inputHesitation s now).1 now).1.backspaceCount
        = s.backspaceCount := by
      rw [inputTypingRate_backspaceCount, inputHesitation_backspaceCount]
    simp only [fieldStep, FieldEvent.now, onInput_fst, onInput_snd, List.map_append,
      backspacesTotal_append, backspacesTotal_none _ _ _ _ _ n1,
      backspacesTotal_none _ _ _ _ _ n2, backspacesTotal_none _ _ _ _ _ (n4 _),
      backspacesTotal_none _ _ _ _ _ (n5 _), isDeletion]
    generalize inputTypingRate (inputHesitation s now).1 now = r at hc ⊢
    by_cases hd : inputType = "deleteContentBackward"
    · simp [inputCharCount, hd, hc, backspacesTotal, reportMetric, jsSum, jsAdd, natToNum]
    · by_cases hi : inputType = "insertText" ∨ inputType = "insertFromPaste"
      · simp [inputCharCount, hd, hi, hc, backspacesTotal, jsSum, jsAdd]
      · simp [inputCharCount, hd, hi, hc, backspacesTotal, jsSum, jsAdd]

theorem backspaces_run (sid form label : String) (es : List FieldEvent) :
    ∀ s : FieldState, (∀ e ∈ es, isBlur e = false) →
    backspacesTotal (fieldMetrics sid form label s es) label
      = some ((es.countP isDeletion : ℚ) * (s.backspaceCount : ℚ)
          + (es.countP isDeletion : ℚ) * ((es.countP isDeletion : ℚ) + 1) / 2) := by
  induction es with
  | nil => intro s _; simp [fieldMetrics, backspacesTotal, jsSum]
  | cons e es ih =>
    intro s hb
    have he := fieldStep_backspace sid form label s e (hb e (List.mem_cons_self _ _))
    have hrest := ih (fieldStep s e).1 (fun x hx => hb x (List.mem_cons_of_mem _ hx))
    rw [fieldMetrics, backspacesTotal_append, he.1, hrest, he.2, List.countP_cons]
    by_cases hd : isDeletion e = true
    · simp only [hd, if_true, jsAdd, Option.some.injEq]
      push_cast
      ring_nf
    · simp only [hd, if_false, jsAdd, Option.some.injEq]
      push_cast
      ring_nf

theorem fieldMetrics_field (sid form label : String) (es : List FieldEvent) :
    ∀ (s : FieldState), ∀ m ∈ fieldMetrics sid form label s es, m.field = label := by
  induction es with
  | nil => intro s m hm; simp [fieldMetrics] at hm
  | cons e es ih =>
    intro s m hm
    rw [fieldMetrics, List.mem_append] at hm
    rcases hm with hm | hm
    · obtain ⟨x, _, hx⟩ := List.mem_map.1 hm
      rw [← hx]
      rfl
    · exact ih _ m hm

theorem frictionStep_inherited (s : FrictionLoop) (m : Metric) (hs : s.fieldStats = [])
    (hm : m.field = "__proto__" ∨ m.field ∈ prototypeMethods) :
    (frictionStep s m).fieldStats = [] := by
  unfold frictionStep
  by_cases ht : s.thrown = true
  · rw [if_pos ht]; exact hs
  · rw [if_neg ht]
    by_cases h1 : m.field = "__proto__"
    · have e : slotOf s.focusCount s.fieldStats m.field = .prototype := by
        unfold slotOf; rw [if_pos h1]
      rw [e]
      simp only
      split_ifs <;> exact hs
    · have h2 : m.field ∈ prototypeMethods := hm.resolve_left h1
      have e : slotOf s.focusCount s.fieldStats m.field = .inherited := by
        unfold slotOf
        rw [if_neg h1, hs]
        simp [objectGet, h2]
      rw [e]
      simp only
      split_ifs <;> exact hs

/-- When every event bears a label that names `__proto__` or a function inherited from
`Object.prototype`, the first `forEach` creates no accumulator. -/
theorem frictionLoop_inherited (ms : List Metric)
    (hm : ∀ m ∈ ms, m.field = "__proto__" ∨ m.field ∈ prototypeMethods) :
    ∀ s : FrictionLoop, s.fieldStats = [] → (ms.foldl frictionStep s).fieldStats = [] := by
  induction ms with
  | nil => intro s hs; exact hs
  | cons m ms ih =>
    intro s hs
    rw [List.foldl_cons]
    exact ih (fun x hx => hm x (List.mem_cons_of_mem _ hx)) _
      (frictionStep_inherited s m hs (hm m (List.mem_cons_self _ _)))

/-- Dictionary of the first `forEach` over the events of one field, from a pristine
`Object.prototype`: the own accumulators when the label is not resolved by the prototype
chain, and nothing otherwise. -/
theorem frictionStats_single (label : String) (ms : List Metric)
    (hf : ∀ m ∈ ms, m.field = label) :
    frictionStats ms = plainStats none ms ∨ frictionStats ms = [] := by
  by_cases hp : plainLabel none label
  · left
    unfold frictionStats
    rw [frictionLoop_plain none ms (fun m hm => by rw [hf m hm]; exact hp)]
  · right
    have hl : label = "__proto__" ∨ label ∈ prototypeMethods := by
      by_contra hc
      push_neg at hc
      exact hp ⟨hc.1, hc.2, by simp⟩
    exact frictionLoop_inherited ms (fun m hm => by rw [hf m hm]; exact hl) _ rfl

/-- C2 (code bug): over a focus cycle (no blur) that starts with a zero counter and holds
`n` deletion-type edits, the tracker reports the running counts `1, 2, ..., n` and the
engine adds them up: the backspaces total of the field is `n (n + 1) / 2`, not `n`. -/
theorem backspaces_total_triangular (sid form label : String) (s : FieldState)
    (es : List FieldEvent) (h0 : s.backspaceCount = 0) (hb : ∀ e ∈ es, isBlur e = false) :
    backspacesTotal (fieldMetrics sid form label s es) label
        = some ((es.countP isDeletion : ℚ) * ((es.countP isDeletion : ℚ) + 1) / 2)
    ∧ ∀ st, objectGet (frictionStats (fieldMetrics sid form label s es)) label = some st →
        st.backspaces
          = some ((es.countP isDeletion : ℚ) * ((es.countP isDeletion : ℚ) + 1) / 2) := by
  have h := backspaces_run sid form label es s hb
  rw [h0] at h
  simp only [Nat.cast_zero, mul_zero, zero_add] at h
  refine ⟨h, ?_⟩
  intro st hst
  rcases frictionStats_single label _ (fieldMetrics_field sid form label es s) with e | e
  · rw [e] at hst
    rcases plainStats_get none (fieldMetrics sid form label s es) label with
      ⟨hn, _⟩ | ⟨s2, hs2, _, _, h2, _⟩
    · rw [hn] at hst; exact absurd hst (by simp)
    · rw [hst] at hs2
      simp only [Option.some.injEq] at hs2
      rw [hs2, h2, h]
  · rw [e] at hst
    simp [objectGet] at hst

/-- Failing input of C2: two deletions in one focus cycle give an engine total of 3. -/
theorem backspaces_total_triangular_witness :
    twoDeletions.countP isDeletion = 2
    ∧ backspacesTotal (fieldMetrics "s1" "signup" "Email" {} twoDeletions) "Email" = some 3
    ∧ ∃ st, objectGet (frictionStats (fieldMetrics "s1" "signup" "Email" {} twoDeletions))
          "Email" = some st ∧ st.backspaces = some 3 ∧ st.backspaces ≠ some 2 := by
  have hc : twoDeletions.countP isDeletion = 2 := by
    simp [twoDeletions, isDeletion, List.countP_cons]
  have hb : ∀ e ∈ twoDeletions, isBlur e = false := by
    intro e he
    simp only [twoDeletions, List.mem_cons, List.mem_singleton, List.not_mem_nil, or_false] at he
    rcases he with h | h | h <;> rw [h] <;> rfl
  have h := backspaces_total_triangular "s1" "signup" "Email" {} twoDeletions rfl hb
  rw [hc] at h
  have h3 : ((2 : ℕ) : ℚ) * (((2 : ℕ) : ℚ) + 1) / 2 = 3 := by norm_num
  rw [h3] at h
  refine ⟨hc, h.1, ?_⟩
  have hplain : frictionStats (fieldMetrics "s1" "signup" "Email" {} twoDeletions)
      = plainStats none (fieldMetrics "s1" "signup" "Email" {} twoDeletions) := by
    unfold frictionStats
    rw [frictionLoop_plain none _ (fun m hm => by
      rw [fieldMetrics_field "s1" "signup" "Email" twoDeletions {} m hm]
      decide)]
  rw [hplain] at h ⊢
  rcases plainStats_get none (fieldMetrics "s1" "signup" "Email" {} twoDeletions) "Email" with
    ⟨_, hall⟩ | ⟨st, hst, _⟩
  · exfalso
    exact hall (reportMetric "s1" "signup" "Email" 1000
      { type := "field_focus", data := { focusCount := some 1 } })
      (by
        unfold twoDeletions
        rw [fieldMetrics]
        exact List.mem_append_left _ (by simp [fieldStep, onFocus, reportMetric, FieldEvent.now]))
      rfl
  · refine ⟨st, hst, h.2 st hst, ?_⟩
    rw [h.2 st hst]
    norm_num

/-! ## C3: last field before an abandonment -/

/-- Agreement of the helper with the spec when nothing of the session is blurred after the
abandonment `d`: the last `field_blur` of the session is then the one that precedes `d`. -/
theorem getLastFieldBeforeAbandon_of_no_later_blur (pre post : List Metric) (d : Metric)
    (hd : d.type = "form_abandon")
    (hpost : ∀ m ∈ post, ¬ (m.sessionId = d.sessionId ∧ m.type = "field_blur")) :
    getLastFieldBeforeAbandon (pre ++ d :: post) d.sessionId = specLastField pre d.sessionId := by
  have hf : ∀ l : List Metric,
      (l.filter (fun m => decide (m.sessionId = d.sessionId))).filter
          (fun m => decide (m.type = "field_blur"))
        = l.filter (fun m => decide (m.sessionId = d.sessionId ∧ m.type = "field_blur")) := by
    intro l
    rw [List.filter_filter]
    congr 1
    funext m
    by_cases h1 : m.sessionId = d.sessionId <;> by_cases h2 : m.type = "field_blur" <;>
      simp [h1, h2]
  unfold getLastFieldBeforeAbandon specLastField
  simp only [hf]
  have : (pre ++ d :: post).filter
        (fun m => decide (m.sessionId = d.sessionId ∧ m.type = "field_blur"))
      = pre.filter (fun m => decide (m.sessionId = d.sessionId ∧ m.type = "field_blur")) := by
    rw [List.filter_append]
    have e : (d :: post).filter
        (fun m => decide (m.sessionId = d.sessionId ∧ m.type = "field_blur")) = [] := by
      apply List.filter_eq_nil_iff.2
      intro m hm
      rcases List.mem_cons.1 hm with h | h
      · subst h; simp [hd]
      · simpa using hpost m h
    rw [e, List.append_nil]
  rw [this]

/-- C3 (code bug): on an abandonment followed by a `field_blur` of the same session,
`analyzeDropOffPoints` attributes the later field (`Email`), whereas no `field_blur`
precedes the abandonment and the spec attributes `Unknown`; on the witness of the spec
(blur on `Email`, then the abandonment) both give `Email`. -/
theorem lastField_ignores_position :
    (analyzeDropOffPoints blurAfterAbandon).points
        = [{ sessionId := "s1", timestamp := none, lastField := "Email" }]
    ∧ specLastField [] "s1" = "Unknown"
    ∧ (analyzeDropOffPoints blurThenAbandon).points
        = [{ sessionId := "s1", timestamp := none, lastField := "Email" }]
    ∧ specLastField
        [{ sessionId := "s1", field := "Email", type := "field_blur", ts := 1000 }] "s1"
        = "Email" := by
  refine ⟨?_, ?_, ?_, ?_⟩ <;>
    simp [analyzeDropOffPoints, getLastFieldBeforeAbandon, specLastField, blurAfterAbandon,
      blurThenAbandon]

/-! ## C4: the `field_clarity` rule -/

theorem mem_setAdd {α : Type} [DecidableEq α] (s : List α) (x y : α) :
    y ∈ setAdd s x ↔ y ∈ s ∨ y = x := by
  unfold setAdd
  by_cases h : x ∈ s
  · simp only [h, if_true]
    constructor
    · exact Or.inl
    · rintro (h1 | h1)
      · exact h1
      · rw [h1]; exact h
  · simp [h]

theorem nodup_setAdd {α : Type} [DecidableEq α] (s : List α) (x : α) (hs : s.Nodup) :
    (setAdd s x).Nodup := by
  unfold setAdd
  by_cases h : x ∈ s
  · simpa [h] using hs
  · simp only [h, if_false]
    exact List.nodup_append.2 ⟨hs, List.nodup_singleton _, by
      intro a ha hb
      rw [List.mem_singleton] at hb
      exact h (hb ▸ ha)⟩

theorem setOf_snoc {α : Type} [DecidableEq α] (xs : List α) (x : α) :
    setOf (xs ++ [x]) = setAdd (setOf xs) x := by
  simp [setOf, List.foldl_append]

theorem mem_setOf {α : Type} [DecidableEq α] (xs : List α) (y : α) :
    y ∈ setOf xs ↔ y ∈ xs := by
  induction xs using List.reverseRecOn with
  | nil => simp [setOf]
  | append_singleton xs x ih => rw [setOf_snoc, mem_setAdd, ih]; simp

theorem nodup_setOf {α : Type} [DecidableEq α] (xs : List α) : (setOf xs).Nodup := by
  induction xs using List.reverseRecOn with
  | nil => simp [setOf]
  | append_singleton xs x ih => rw [setOf_snoc]; exact nodup_setAdd _ _ ih

/-- Size of `new Set(xs)`: the number of distinct elements of `xs`. -/
theorem length_setOf {α : Type} [DecidableEq α] (xs : List α) :
    (setOf xs).length = xs.toFinset.card := by
  rw [← List.toFinset_card_of_nodup (nodup_setOf xs)]
  congr 1
  ext y
  simp [mem_setOf]

theorem objectGet_upsert {α : Type} (o : List (String × α)) (k f : String) (init : α)
    (g : α → α) :
    objectGet (objectModify (if (objectGet o k).isNone then objectAdd o k init else o) k g) f
      = if f = k then some (g ((objectGet o f).getD init)) else objectGet o f := by
  by_cases hf : f = k
  · subst hf
    cases hg : objectGet o f with
    | none => simp [objectGet_modify, objectGet_add, hg]
    | some s => simp [objectGet_modify, hg]
  · have hf2 : ¬ k = f := fun e => hf e.symm
    cases hg : objectGet o k with
    | none =>
      simp only [Option.isNone_none, if_true, objectGet_modify, hf, if_false, objectGet_add, hf2]
      cases objectGet o f <;> rfl
    | some s => simp [objectGet_modify, hf]

theorem objectKeys_upsert {α : Type} (o : List (String × α)) (k : String) (init : α)
    (g : α → α) :
    objectKeys (objectModify (if (objectGet o k).isNone then objectAdd o k init else o) k g)
      = if k ∈ objectKeys o then objectKeys o else objectKeys o ++ [k] := by
  by_cases hk : k ∈ objectKeys o
  · have : objectGet o k ≠ none := fun e => (objectGet_eq_none o k).1 e hk
    cases hg : objectGet o k with
    | none => exact absurd hg this
    | some s => simp [hk, objectKeys_modify]
  · have : objectGet o k = none := (objectGet_eq_none o k).2 hk
    simp [this, hk, objectKeys_modify, objectKeys_add]

theorem nodup_upsert_keys (ks : List String) (k : String) (h : ks.Nodup) :
    (if k ∈ ks then ks else ks ++ [k]).Nodup := by
  by_cases hk : k ∈ ks
  · simpa [hk] using h
  · simp only [hk, if_false]
    exact List.nodup_append.2 ⟨h, List.nodup_singleton _, by
      intro a ha hb
      rw [List.mem_singleton] at hb
      exact hk (hb ▸ ha)⟩

theorem patternStats_snoc (ms : List Metric) (m : Metric) :
    patternStats (ms ++ [m]) = plainPatternStep (patternStats ms) m := by
  simp [patternStats, List.foldl_append]

theorem patternStats_nodup (ms : List Metric) : (objectKeys (patternStats ms)).Nodup := by
  induction ms using List.reverseRecOn with
  | nil => simp [patternStats, objectKeys]
  | append_singleton ms m ih =>
    rw [patternStats_snoc]
    unfold plainPatternStep patternRecord
    by_cases ht : m.type = "field_blur"
    · simp only [ht, if_true, objectKeys_upsert]
      exact nodup_upsert_keys _ _ ih
    · simpa [ht] using ih

theorem blurEvents_snoc (ms : List Metric) (m : Metric) (f : String) :
    blurEvents (ms ++ [m]) f
      = blurEvents ms f ++ (if m.type = "field_blur" ∧ m.field = f then [m] else []) := by
  unfold blurEvents
  rw [List.filter_append]
  by_cases h : m.type = "field_blur" ∧ m.field = f
  · simp [h]
  · simp only [h, if_false, List.append_cancel_left_eq]
    exact List.filter_eq_nil_iff.2 (fun x hx => by
      rw [List.mem_singleton] at hx
      subst hx
      simpa using h)

/-- Invariant of the loop of `analyzeFieldPatterns`: a field is a key iff it has a
`field_blur` event, and its accumulator then holds the sums over these events. -/
theorem patternStats_get (ms : List Metric) (f : String) :
    objectGet (patternStats ms) f
      = if blurEvents ms f = [] then none
        else some { name := f
                    totalTime := hoverTotal ms f
                    backspaces := blurBackspaces ms f
                    characters := blurCharacters ms f
                    sessions := setOf ((blurEvents ms f).map (fun m => m.sessionId)) } := by
  induction ms using List.reverseRecOn with
  | nil => simp [patternStats, objectGet, blurEvents]
  | append_singleton ms m ih =>
    rw [patternStats_snoc]
    unfold plainPatternStep patternRecord
    by_cases ht : m.type = "field_blur"
    · simp only [ht, if_true, objectGet_upsert]
      by_cases hf : f = m.field
      · subst hf
        simp only [if_true, hoverTotal, blurBackspaces, blurCharacters, blurEvents_snoc, ht,
          and_self, List.map_append, List.sum_append, List.map_cons, List.map_nil,
          List.sum_cons, List.sum_nil, add_zero, setOf_snoc]
        rw [ih]
        by_cases he : blurEvents ms m.field = []
        · simp [he, setOf]
        · simp [he, hoverTotal, blurBackspaces, blurCharacters]
      · have hf2 : ¬ m.field = f := fun e => hf e.symm
        simp only [hf, if_false, hoverTotal, blurBackspaces, blurCharacters, blurEvents_snoc,
          hf2, and_false, List.append_nil]
        simpa [hoverTotal, blurBackspaces, blurCharacters] using ih
    · simp only [ht, if_false, hoverTotal, blurBackspaces, blurCharacters, blurEvents_snoc,
        false_and, List.append_nil]
      simpa [hoverTotal, blurBackspaces, blurCharacters] using ih

/-- Entries computed from the dictionary of own accumulators: one per field with a
`field_blur` event, holding the sums over these events. -/
theorem mem_analyzeFieldPatterns (ms : List Metric) (p : FieldPattern) :
    p ∈ fieldPatterns (patternStats ms)
      ↔ blurEvents ms p.name ≠ [] ∧ p = fieldPatternOf ms p.name := by
  have key : ∀ (k : String) (st : PatternStats), (k, st) ∈ patternStats ms ↔
      blurEvents ms k ≠ [] ∧ st = { name := k
                                    totalTime := hoverTotal ms k
                                    backspaces := blurBackspaces ms k
                                    characters := blurCharacters ms k
                                    sessions := setOf ((blurEvents ms k).map (fun m => m.sessionId)) } := by
    intro k st
    rw [objectGet_of_mem _ (patternStats_nodup ms), patternStats_get]
    by_cases he : blurEvents ms k = []
    · simp [he]
    · simp only [he, if_false, Option.some.injEq, ne_eq, not_false_eq_true, true_and]
      exact eq_comm
  simp only [fieldPatterns, objectValues, List.mem_map, mem_objectEntries]
  constructor
  · rintro ⟨st, ⟨⟨k, st2⟩, hmem, rfl⟩, rfl⟩
    obtain ⟨hne, hst⟩ := (key k st2).1 hmem
    subst hst
    exact ⟨hne, by simp [fieldPatternOf, blurSessionCount, length_setOf]⟩
  · rintro ⟨hne, hp⟩
    refine ⟨_, ⟨(p.name, _), (key p.name _).2 ⟨hne, rfl⟩, rfl⟩, ?_⟩
    rw [hp]
    simp [fieldPatternOf, blurSessionCount, length_setOf]

theorem patternStep_plain (p : Option Nat) (fs : List (String × PatternStats)) (m : Metric)
    (h : m.type = "field_blur" → plainLabel p m.field) :
    patternStep p { fieldStats := fs, thrown := false } m
      = { fieldStats := plainPatternStep fs m, thrown := false } := by
  unfold patternStep plainPatternStep
  by_cases ht : m.type = "field_blur"
  · rcases slotOf_plain p fs m.field (h ht) with e | e <;> simp [e, ht]
  · simp [ht]

theorem patternLoop_snoc (p : Option Nat) (ms : List Metric) (m : Metric) :
    patternLoop p (ms ++ [m]) = patternStep p (patternLoop p ms) m := by
  simp [patternLoop, List.foldl_append]

/-- When no `field_blur` event bears a label that the prototype chain resolves, the
`forEach` of `analyzeFieldPatterns` builds the dictionary of own accumulators and does not
throw. -/
theorem patternLoop_plain (p : Option Nat) (ms : List Metric)
    (h : ∀ m ∈ ms, m.type = "field_blur" → plainLabel p m.field) :
    patternLoop p ms = { fieldStats := patternStats ms, thrown := false } := by
  induction ms using List.reverseRecOn with
  | nil => rfl
  | append_singleton ms m ih =>
    rw [patternLoop_snoc, ih (fun x hx => h x (List.mem_append_left _ hx)), patternStats_snoc]
    exact patternStep_plain p _ m (h m (by simp))

theorem generateOptimizationSuggestions_plain (p : Option Nat) (ms : List Metric)
    (h : ∀ m ∈ ms, m.type = "field_blur" → plainLabel p m.field) :
    generateOptimizationSuggestions p ms
      = some (suggestionsOf (fieldPatterns (patternStats ms))) := by
  simp [generateOptimizationSuggestions, analyzeFieldPatterns, patternLoop_plain p ms h]

/-- What the `field_clarity` rule tests, when no `field_blur` event bears a label that the
prototype chain resolves: a suggestion is emitted for a field iff the field has a
`field_blur` event and the sum of `totalHover` over its `field_blur` events (a missing
value counting as 0), divided by the number of distinct sessions among them, exceeds
5000; hesitation samples play no part. -/
theorem field_clarity_of_plain (p : Option Nat) (metrics : List Metric)
    (h : ∀ m ∈ metrics, m.type = "field_blur" → plainLabel p m.field) (f : String) :
    ∃ l, generateOptimizationSuggestions p metrics = some l
      ∧ ((∃ s ∈ l, s.type = "field_clarity" ∧ s.field = f)
        ↔ (blurEvents metrics f ≠ []
            ∧ (hoverTotal metrics f : ℚ) / (blurSessionCount metrics f : ℚ) > 5000)) := by
  refine ⟨_, generateOptimizationSuggestions_plain p metrics h, ?_⟩
  simp only [suggestionsOf, List.mem_flatMap]
  constructor
  · rintro ⟨s, ⟨p, hp, hs⟩, ht, hf⟩
    obtain ⟨hne, hpe⟩ := (mem_analyzeFieldPatterns metrics p).1 hp
    simp only [suggestionsFor, List.mem_append] at hs
    rcases hs with hs | hs
    · split_ifs at hs with hgt
      · simp only [List.mem_singleton] at hs
        have hn : p.name = f := by rw [← hf, hs]
        rw [hn] at hne hpe
        rw [hpe] at hgt
        exact ⟨hne, hgt⟩
      · simp at hs
    · split_ifs at hs
      · simp only [List.mem_singleton] at hs
        rw [hs] at ht
        simp at ht
      · simp at hs
  · rintro ⟨hne, hgt⟩
    refine ⟨{ type := "field_clarity"
              field := f
              suggestion := "Clarify the purpose of \"" ++ f ++ "\" field"
              reasoning := "Users hesitate significantly before filling this field" },
      ⟨fieldPatternOf metrics f, (mem_analyzeFieldPatterns metrics _).2 ⟨hne, rfl⟩, ?_⟩,
      ?_, ?_⟩
    · have h2 : (fieldPatternOf metrics f).avgHesitation > 5000 := hgt
      simp only [suggestionsFor, h2, if_true, List.mem_append, List.mem_singleton]
      left
      rfl
    · rfl
    · rfl

/-- C4 (code bug): the value that `analyzeFieldPatterns` names `avgHesitation`, and that
the `field_clarity` rule explains by hesitation, is computed from the `totalHover` of the
`field_blur` events. A field whose only hesitation sample is 6000 ms (mean hesitation
above 5000) gets no suggestion, and a field blurred after 6000 ms of hover, with no
hesitation sample (mean hesitation 0), gets a `field_clarity` suggestion. -/
theorem field_clarity_not_hesitation :
    meanHesitation longHesitation "Name" = some 6000
    ∧ jsGt (meanHesitation longHesitation "Name") 5000 = true
    ∧ generateOptimizationSuggestions none longHesitation = some []
    ∧ meanHesitation longHover "Name" = some 0
    ∧ jsGt (meanHesitation longHover "Name") 5000 = false
    ∧ generateOptimizationSuggestions none longHover
        = some [ { type := "field_clarity"
                   field := "Name"
                   suggestion := "Clarify the purpose of \"Name\" field"
                   reasoning := "Users hesitate significantly before filling this field" } ] := by
  have harr : arrayIndex "Name" = none := by decide
  have hm : "Name" ∉ prototypeMethods := by decide
  refine ⟨?_, ?_, ?_, ?_, ?_, ?_⟩
  · simp [meanHesitation, hesitationSamples, longHesitation, jsSum, jsAdd, jsDivConst,
      intToNum]
  · simp [meanHesitation, hesitationSamples, longHesitation, jsSum, jsAdd, jsDivConst,
      intToNum, jsGt]
    norm_num
  · simp [generateOptimizationSuggestions, analyzeFieldPatterns, patternLoop, longHesitation,
      patternStep, fieldPatterns, suggestionsOf, objectValues, objectEntries]
  · simp [meanHesitation, hesitationSamples, longHover]
  · simp [meanHesitation, hesitationSamples, longHover, jsGt]
  · simp [generateOptimizationSuggestions, analyzeFieldPatterns, patternLoop, longHover,
      patternStep, slotOf, hm, patternRecord, fieldPatterns, suggestionsOf,
      objectValues, objectEntries, objectGet, objectAdd, objectModify, harr, setAdd,
      suggestionsFor, intOrZero, natOrZero]
    norm_num

/-! ## C5: ingestion -/

theorem objectGet_objectSet_self {α : Type} (o : List (String × α)) (k : String) (v : α) :
    objectGet (objectSet o k v) k = some v := by
  unfold objectSet
  cases h : objectGet o k with
  | none => simp [objectGet_add, h]
  | some s => simp [objectGet_modify, h]

theorem objectGet_objectSet_other {α : Type} (o : List (String × α)) (k k2 : String) (v : α)
    (hk : k2 ≠ k) : objectGet (objectSet o k v) k2 = objectGet o k2 := by
  unfold objectSet
  have hk2 : ¬ k = k2 := fun e => hk e.symm
  cases h : objectGet o k with
  | none =>
    simp only [Option.isSome_none, Bool.false_eq_true, if_false, objectGet_add, hk2]
    cases objectGet o k2 <;> rfl
  | some s => simp [objectGet_modify, hk]

theorem obj_of_truthy_prop (metric : JsonValue) (k : String)
    (h : truthy (metric.prop k) = true) : ∃ props, metric = .obj props := by
  cases metric with
  | obj props => exact ⟨props, rfl⟩
  | null => simp [JsonValue.prop, truthy] at h
  | bool b => simp [JsonValue.prop, truthy] at h
  | num q => simp [JsonValue.prop, truthy] at h
  | str s => simp [JsonValue.prop, truthy] at h
  | arr items => simp [JsonValue.prop, truthy] at h

theorem postMetric_eq (metrics : List (List (String × JsonValue))) (metric : JsonValue)
    (now : Int) :
    postMetric metrics metric now
      = if accepted metric = true then (.ok, metrics ++ [storedEntry (metric, now)])
        else (.badRequest "Invalid metric payload", metrics) := by
  unfold postMetric accepted storedEntry
  by_cases h1 : truthy (metric.prop "type") = true
  · obtain ⟨props, rfl⟩ := obj_of_truthy_prop metric "type" h1
    have ht : truthy (some (JsonValue.obj props)) = true := rfl
    by_cases h2 : truthy ((JsonValue.obj props).prop "field") = true
    · simp [h1, h2, ht]
    · simp [h1, h2, ht]
  · simp [h1]

theorem postAll_eq (reqs : List (JsonValue × Int)) :
    ∀ metrics : List (List (String × JsonValue)),
      postAll metrics reqs
        = metrics ++ (reqs.filter (fun r => accepted r.1)).map storedEntry := by
  induction reqs with
  | nil => intro metrics; simp [postAll]
  | cons r rs ih =>
    intro metrics
    rw [postAll, ih, postMetric_eq]
    by_cases h : accepted r.1 = true
    · simp [h]
    · simp [h]

/-- C5 (amended): `append` rejects, with error `Invalid metric payload` and the store
unchanged, iff `type` or `field` is absent or falsy (`null`, `false`, `0`, the empty
string); otherwise the payload is an object and the store becomes the previous sequence
followed by one entry that equals the payload on every key but `receivedAt`, which holds
the server time; `readAll` after a sequence of requests returns the previous entries
followed by the entries of the accepted requests, in receipt order. -/
theorem postMetric_spec (metrics : List (List (String × JsonValue))) (metric : JsonValue)
    (now : Int) :
    ((postMetric metrics metric now).1 = .badRequest "Invalid metric payload"
        ↔ ¬ (truthy (metric.prop "type") = true ∧ truthy (metric.prop "field") = true))
    ∧ ((postMetric metrics metric now).1 ≠ .ok → (postMetric metrics metric now).2 = metrics)
    ∧ ((postMetric metrics metric now).1 = .ok →
        ∃ props entry, metric = .obj props
          ∧ (postMetric metrics metric now).2 = metrics ++ [entry]
          ∧ objectGet entry "receivedAt" = some (.num (now : ℚ))
          ∧ ∀ k, k ≠ "receivedAt" → objectGet entry k = objectGet props k)
    ∧ (∀ reqs : List (JsonValue × Int),
        getMetrics (postAll metrics reqs)
          = metrics ++ (reqs.filter (fun r => accepted r.1)).map storedEntry) := by
  have heq := postMetric_eq metrics metric now
  by_cases h : accepted metric = true
  · rw [if_pos h] at heq
    have h2 : truthy (metric.prop "type") = true ∧ truthy (metric.prop "field") = true := by
      simpa [accepted] using h
    obtain ⟨props, hp⟩ := obj_of_truthy_prop metric "type" h2.1
    refine ⟨?_, ?_, ?_, fun reqs => postAll_eq reqs metrics⟩
    · rw [heq]; simp [h2]
    · rw [heq]; simp
    · intro _
      refine ⟨props, storedEntry (metric, now), hp, by rw [heq], ?_, ?_⟩
      · exact objectGet_objectSet_self _ _ _
      · intro k hk
        rw [storedEntry, objectGet_objectSet_other _ _ _ _ hk, hp]
        rfl
  · rw [if_neg h] at heq
    have h2 : ¬ (truthy (metric.prop "type") = true ∧ truthy (metric.prop "field") = true) := by
      simpa [accepted] using h
    refine ⟨?_, ?_, ?_, fun reqs => postAll_eq reqs metrics⟩
    · rw [heq]; simp [h2]
    · rw [heq]; simp
    · rw [heq]; simp

/-- Witness of C5: a payload with `type`, `field` and a `receivedAt` of its own is
accepted after the stored entries, and its `receivedAt` is the server time 5000. -/
theorem postMetric_spec_witness :
    (postMetric [[("type", .str "hover")]] stampedPayload 5000).1 = .ok
    ∧ ∃ entry, (postMetric [[("type", .str "hover")]] stampedPayload 5000).2
          = [[("type", .str "hover")]] ++ [entry]
        ∧ objectGet entry "receivedAt" = some (.num 5000)
        ∧ objectGet entry "field" = objectGet (spreadProps stampedPayload) "field" := by
  have hok : (postMetric [[("type", .str "hover")]] stampedPayload 5000).1 = .ok := by
    simp [postMetric, stampedPayload, truthy, JsonValue.prop, objectGet]
  obtain ⟨props, entry, hp, hs, hr, hk⟩ :=
    (postMetric_spec [[("type", .str "hover")]] stampedPayload 5000).2.2.1 hok
  refine ⟨hok, entry, hs, by simpa using hr, ?_⟩
  rw [hk "field" (by decide)]
  have : props = spreadProps stampedPayload := by
    simp only [stampedPayload, JsonValue.obj.injEq] at hp
    rw [← hp]; rfl
  rw [this]

/-- Counterexample of C5: a payload whose `type` and `field` are both present is rejected
when `field` is the empty string. -/
theorem postMetric_rejects_present :
    (emptyFieldPayload.prop "type").isSome = true
    ∧ (emptyFieldPayload.prop "field").isSome = true
    ∧ (postMetric [] emptyFieldPayload 1000).1 = .badRequest "Invalid metric payload"
    ∧ (postMetric [] emptyFieldPayload 1000).2 = [] := by
  simp [postMetric, emptyFieldPayload, truthy, JsonValue.prop, objectGet]

/-! ## C6, C7: drop-off rate and predicted completion -/

theorem length_filter_abandon (ms : List Metric) :
    (ms.filter (fun m => decide (m.type = "form_abandon"))).length = abandonCount ms := by
  rw [abandonCount, List.countP_eq_length_filter]

theorem length_filter_submit (ms : List Metric) :
    (ms.filter (fun m => decide (m.type = "form_submit"))).length = submitCount ms := by
  rw [submitCount, List.countP_eq_length_filter]

theorem dropOffRate_eq (ms : List Metric) :
    (analyzeDropOffPoints ms).dropOffRate = percentOf (abandonCount ms) (submitCount ms) := by
  simp only [analyzeDropOffPoints, length_filter_abandon, length_filter_submit]

/-- Error of the two roundings of `part / (part + rest) * 100`: a relative `2 ^ (-51)`. -/
theorem percent_error (y : ℚ) (hy : 0 ≤ y) :
    |toDouble (toDouble y * 100) - y * 100| ≤ y * 100 / 2 ^ 51 := by
  have h1 := toDouble_error y
  have h2 := toDouble_error (toDouble y * 100)
  rw [abs_of_nonneg hy] at h1
  have h1' := abs_le.1 h1
  have hz : 0 ≤ toDouble y * 100 := by
    have : y / 2 ^ 53 ≤ y := div_le_self hy (by norm_num)
    nlinarith [h1'.1]
  rw [abs_of_nonneg hz] at h2
  have h2' := abs_le.1 h2
  have hy2 : y / 2 ^ 53 ≤ y := div_le_self hy (by norm_num)
  rw [abs_le]
  constructor
  · have : toDouble y * 100 / 2 ^ 53 ≤ y * 100 / 2 ^ 52 := by
      rw [div_le_div_iff₀ (by positivity) (by positivity)]
      nlinarith [h1'.2]
    have e : y * 100 / 2 ^ 51 = y * 100 / 2 ^ 52 + 100 * (y / 2 ^ 53) + 100 * (y / 2 ^ 53) := by
      ring
    rw [e]
    nlinarith [h1'.1, h2'.1]
  · have : toDouble y * 100 / 2 ^ 53 ≤ y * 100 / 2 ^ 52 := by
      rw [div_le_div_iff₀ (by positivity) (by positivity)]
      nlinarith [h1'.2]
    have e : y * 100 / 2 ^ 51 = y * 100 / 2 ^ 52 + 100 * (y / 2 ^ 53) + 100 * (y / 2 ^ 53) := by
      ring
    rw [e]
    nlinarith [h1'.2, h2'.2]

theorem toDouble_three_tenths : toDouble (3 / 10) = 5404319552844595 * 2 ^ (-2 - 52 : ℤ) :=
  toDouble_eval _ (-2) 5404319552844595 (by norm_num) (by norm_num) (by norm_num) (by norm_num)

theorem percentOf_3_7 : percentOf 3 7 = some 30 := by
  have e1 : ((3 : ℕ) : ℚ) / (((3 : ℕ) : ℚ) + ((7 : ℕ) : ℚ)) = 3 / 10 := by norm_num
  have e2 : toDouble (5404319552844595 * 2 ^ (-2 - 52 : ℤ) * 100) = 8444249301319680 * 2 ^ (4 - 52 : ℤ) :=
    toDouble_eval _ 4 8444249301319680 (by norm_num) (by norm_num) (by norm_num) (by norm_num)
  rw [percentOf, if_neg (by decide), e1, toDouble_three_tenths, e2]
  norm_num

theorem percentOf_7_93 : percentOf 7 93 = some (7881299347898369 / 2 ^ 50) := by
  have e1 : ((7 : ℕ) : ℚ) / (((7 : ℕ) : ℚ) + ((93 : ℕ) : ℚ)) = 7 / 100 := by norm_num
  have e0 : toDouble (7 / 100) = 5044031582654956 * 2 ^ (-4 - 52 : ℤ) :=
    toDouble_eval _ (-4) 5044031582654956 (by norm_num) (by norm_num) (by norm_num) (by norm_num)
  have e2 : toDouble (5044031582654956 * 2 ^ (-4 - 52 : ℤ) * 100) = 7881299347898369 * 2 ^ (2 - 52 : ℤ) :=
    toDouble_eval _ 2 7881299347898369 (by norm_num) (by norm_num) (by norm_num) (by norm_num)
  rw [percentOf, if_neg (by decide), e1, e0, e2]
  norm_num

theorem percentOf_23_17 : percentOf 23 17 = some (8092405580431359 / 2 ^ 47) := by
  have e1 : ((23 : ℕ) : ℚ) / (((23 : ℕ) : ℚ) + ((17 : ℕ) : ℚ)) = 23 / 40 := by norm_num
  have e0 : toDouble (23 / 40) = 5179139571476070 * 2 ^ (-1 - 52 : ℤ) :=
    toDouble_eval _ (-1) 5179139571476070 (by norm_num) (by norm_num) (by norm_num) (by norm_num)
  have e2 : toDouble (5179139571476070 * 2 ^ (-1 - 52 : ℤ) * 100) = 8092405580431359 * 2 ^ (5 - 52 : ℤ) :=
    toDouble_eval _ 5 8092405580431359 (by norm_num) (by norm_num) (by norm_num) (by norm_num)
  rw [percentOf, if_neg (by decide), e1, e0, e2]
  norm_num

theorem percentOf_1_7 : percentOf 1 7 = some (25 / 2) := by
  have e1 : ((1 : ℕ) : ℚ) / (((1 : ℕ) : ℚ) + ((7 : ℕ) : ℚ)) = 1 / 8 := by norm_num
  have e0 : toDouble (1 / 8) = 4503599627370496 * 2 ^ (-3 - 52 : ℤ) :=
    toDouble_eval _ (-3) 4503599627370496 (by norm_num) (by norm_num) (by norm_num) (by norm_num)
  have e2 : toDouble (4503599627370496 * 2 ^ (-3 - 52 : ℤ) * 100) = 7036874417766400 * 2 ^ (3 - 52 : ℤ) :=
    toDouble_eval _ 3 7036874417766400 (by norm_num) (by norm_num) (by norm_num) (by norm_num)
  rw [percentOf, if_neg (by decide), e1, e0, e2]
  norm_num

theorem abandonCount_formEvents (n k : Nat) :
    abandonCount (formEvents "form_abandon" n ++ formEvents "form_submit" k) = n
    ∧ submitCount (formEvents "form_abandon" n ++ formEvents "form_submit" k) = k := by
  constructor
  · simp [abandonCount, formEvents, List.countP_append, List.countP_replicate]
  · simp [submitCount, formEvents, List.countP_append, List.countP_replicate]

theorem submitCount_formEvents (n k : Nat) :
    submitCount (formEvents "form_submit" n ++ formEvents "form_abandon" k) = n
    ∧ abandonCount (formEvents "form_submit" n ++ formEvents "form_abandon" k) = k := by
  constructor
  · simp [submitCount, formEvents, List.countP_append, List.countP_replicate]
  · simp [abandonCount, formEvents, List.countP_append, List.countP_replicate]

/-- C6 (amended): `analyzeDropOffPoints` counts the `form_abandon` and `form_submit`
events; when the denominator is positive, `dropOffRate` is the double-precision value of
`abandonments / (abandonments + completions) * 100` (the quotient rounded to a double,
then its product by 100 rounded to a double), within a relative `2 ^ (-51)` of the exact
value; when it is zero the rate is NaN, never 0; `totalSessions` is the number of
distinct `sessionId`s. -/
theorem analyzeDropOffPoints_rate (metrics : List Metric) :
    (analyzeDropOffPoints metrics).abandonments = abandonCount metrics
    ∧ (analyzeDropOffPoints metrics).completions = submitCount metrics
    ∧ (analyzeDropOffPoints metrics).totalSessions
        = (metrics.map (fun m => m.sessionId)).toFinset.card
    ∧ (0 < abandonCount metrics + submitCount metrics →
        ∃ r : ℚ, (analyzeDropOffPoints metrics).dropOffRate = some r
          ∧ r = toDouble (toDouble ((abandonCount metrics : ℚ)
                  / ((abandonCount metrics : ℚ) + (submitCount metrics : ℚ))) * 100)
          ∧ |r - (abandonCount metrics : ℚ)
                  / ((abandonCount metrics : ℚ) + (submitCount metrics : ℚ)) * 100|
              ≤ (abandonCount metrics : ℚ)
                  / ((abandonCount metrics : ℚ) + (submitCount metrics : ℚ)) * 100 / 2 ^ 51)
    ∧ (abandonCount metrics + submitCount metrics = 0 →
        (analyzeDropOffPoints metrics).dropOffRate = none
        ∧ (analyzeDropOffPoints metrics).dropOffRate ≠ some 0) := by
  refine ⟨length_filter_abandon metrics, length_filter_submit metrics, length_setOf _, ?_, ?_⟩
  · intro h
    refine ⟨_, ?_, rfl, percent_error _ (by positivity)⟩
    rw [dropOffRate_eq, percentOf, if_neg (by omega)]
  · intro h
    rw [dropOffRate_eq, percentOf, if_pos h]
    exact ⟨rfl, by simp⟩

/-- Witness of C6: 3 abandonments and 7 completions give a rate of 30, and a sequence
without abandonment or completion gives NaN. -/
theorem analyzeDropOffPoints_rate_witness :
    (analyzeDropOffPoints (formEvents "form_abandon" 3 ++ formEvents "form_submit" 7)).dropOffRate
        = some 30
    ∧ (analyzeDropOffPoints []).dropOffRate = none
    ∧ (analyzeDropOffPoints []).dropOffRate ≠ some 0 := by
  obtain ⟨ha, hs⟩ := abandonCount_formEvents 3 7
  obtain ⟨r, hr, hv, _⟩ := (analyzeDropOffPoints_rate
    (formEvents "form_abandon" 3 ++ formEvents "form_submit" 7)).2.2.2.1 (by rw [ha, hs]; decide)
  have h0 := (analyzeDropOffPoints_rate []).2.2.2.2 rfl
  refine ⟨?_, h0.1, h0.2⟩
  have hp := percentOf_3_7
  rw [percentOf, if_neg (by decide)] at hp
  rw [hr, hv, ha, hs]
  exact hp

/-- Counterexample of C6: with 7 abandonments and 93 completions the exact value of
`abandonments / (abandonments + completions) * 100` is 7, and the rate returned is the
double `7.000000000000001`. -/
theorem dropOffRate_not_exact :
    (7 : ℚ) / (7 + 93) * 100 = 7
    ∧ (analyzeDropOffPoints (formEvents "form_abandon" 7 ++ formEvents "form_submit" 93)).dropOffRate
        = some (7881299347898369 / 2 ^ 50)
    ∧ (analyzeDropOffPoints (formEvents "form_abandon" 7 ++ formEvents "form_submit" 93)).dropOffRate
        ≠ some 7 := by
  obtain ⟨ha, hs⟩ := abandonCount_formEvents 7 93
  have h : (analyzeDropOffPoints
      (formEvents "form_abandon" 7 ++ formEvents "form_submit" 93)).dropOffRate
      = some (7881299347898369 / 2 ^ 50) := by
    rw [dropOffRate_eq, ha, hs, percentOf_7_93]
  refine ⟨by norm_num, h, ?_⟩
  rw [h]
  norm_num

theorem setOf_length_eq_zero (ms : List Metric) :
    (setOf (ms.map (fun m => m.sessionId))).length = 0 ↔ ms = [] := by
  rw [length_setOf]
  constructor
  · intro h
    cases ms with
    | nil => rfl
    | cons m ms =>
      exfalso
      have hm : m.sessionId ∈ ((m :: ms).map (fun m => m.sessionId)).toFinset := by simp
      rw [Finset.card_eq_zero] at h
      rw [h] at hm
      simp at hm
  · intro h
    subst h
    rfl

theorem calculatePredictedCompletion_eq (ms : List Metric) (hne : ms ≠ []) :
    calculatePredictedCompletion ms = mathRound (percentOf (submitCount ms) (abandonCount ms)) := by
  have hs : ¬ (setOf (ms.map (fun m => m.sessionId))).length = 0 := fun e =>
    hne ((setOf_length_eq_zero ms).1 e)
  simp only [calculatePredictedCompletion, hs, if_false, length_filter_abandon,
    length_filter_submit]

/-- The integer nearest to the double-precision percentage is an integer nearest to the
exact percentage, as long as the counts are below `2 ^ 32`. -/
theorem round_percent_near (c n : ℕ) (hn : 0 < n) (hn2 : n < 2 ^ 32) (hc : c ≤ n) :
    |((⌊toDouble (toDouble ((c : ℚ) / (n : ℚ)) * 100) + 1 / 2⌋ : ℤ) : ℚ)
        - (c : ℚ) / (n : ℚ) * 100| ≤ 1 / 2 := by
  have hnq : (0 : ℚ) < (n : ℚ) := by exact_mod_cast hn
  have hn2q : (n : ℚ) ≤ 2 ^ 32 := by exact_mod_cast hn2.le
  have hy0 : (0 : ℚ) ≤ (c : ℚ) / (n : ℚ) := by positivity
  have hy1 : (c : ℚ) / (n : ℚ) ≤ 1 := by
    rw [div_le_one hnq]
    exact_mod_cast hc
  have herr := abs_le.1 (percent_error ((c : ℚ) / (n : ℚ)) hy0)
  have hb : (c : ℚ) / (n : ℚ) * 100 / 2 ^ 51 ≤ 100 / 2 ^ 51 := by
    apply div_le_div_of_nonneg_right _ (by positivity)
    nlinarith
  have hx : (c : ℚ) / (n : ℚ) * 100 * (2 * (n : ℚ)) = 200 * (c : ℚ) := by
    field_simp
    ring
  have hfl := Int.floor_le (toDouble (toDouble ((c : ℚ) / (n : ℚ)) * 100) + 1 / 2)
  have hfl2 := Int.lt_floor_add_one (toDouble (toDouble ((c : ℚ) / (n : ℚ)) * 100) + 1 / 2)
  generalize (⌊toDouble (toDouble ((c : ℚ) / (n : ℚ)) * 100) + 1 / 2⌋ : ℤ) = r at hfl hfl2 ⊢
  generalize toDouble (toDouble ((c : ℚ) / (n : ℚ)) * 100) = x2 at herr hfl hfl2
  generalize hxe : (c : ℚ) / (n : ℚ) * 100 = x at herr hb hx
  rw [abs_le]
  constructor
  · by_contra hcon
    push_neg at hcon
    have h1 : ((2 * r + 1) * (n : ℤ) : ℤ) < 200 * (c : ℤ) := by
      have : (2 * (r : ℚ) + 1) * (n : ℚ) < 200 * (c : ℚ) := by
        rw [← hx]
        nlinarith
      exact_mod_cast this
    have h2 : (2 * (r : ℚ) + 1) * (n : ℚ) + 1 ≤ 200 * (c : ℚ) := by
      have : ((2 * r + 1) * (n : ℤ) : ℤ) + 1 ≤ 200 * (c : ℤ) := h1
      exact_mod_cast this
    have h3 : (x - (r : ℚ) - 1 / 2) * (2 * (n : ℚ)) ≥ 1 := by
      have : (x - (r : ℚ) - 1 / 2) * (2 * (n : ℚ))
          = x * (2 * (n : ℚ)) - (2 * (r : ℚ) + 1) * (n : ℚ) := by ring
      rw [this, hx]
      linarith
    have h4 : x - (r : ℚ) - 1 / 2 < 100 / 2 ^ 51 := by linarith [herr.1]
    have h5 : (x - (r : ℚ) - 1 / 2) * (2 * (n : ℚ)) ≤ 100 / 2 ^ 51 * (2 * 2 ^ 32) := by
      apply mul_le_mul h4.le (by linarith) (by positivity) (by positivity)
    norm_num at h5
    linarith
  · by_contra hcon
    push_neg at hcon
    -- x < r - 1/2, so (2 r - 1) n - 200 c is a positive integer
    have h1 : (200 * (c : ℤ) : ℤ) < (2 * r - 1) * (n : ℤ) := by
      have : (200 * (c : ℚ)) < (2 * (r : ℚ) - 1) * (n : ℚ) := by
        rw [← hx]
        nlinarith
      exact_mod_cast this
    have h2 : (200 * (c : ℚ)) + 1 ≤ (2 * (r : ℚ) - 1) * (n : ℚ) := by
      have : (200 * (c : ℤ) : ℤ) + 1 ≤ (2 * r - 1) * (n : ℤ) := h1
      exact_mod_cast this
    -- the gap is at least 1 / (2 n), more than the rounding error
    have h3 : ((r : ℚ) - 1 / 2 - x) * (2 * (n : ℚ)) ≥ 1 := by
      have : ((r : ℚ) - 1 / 2 - x) * (2 * (n : ℚ))
          = (2 * (r : ℚ) - 1) * (n : ℚ) - x * (2 * (n : ℚ)) := by ring
      rw [this, hx]
      linarith
    have h4 : (r : ℚ) - 1 / 2 - x ≤ 100 / 2 ^ 51 := by linarith [herr.2]
    have h5 : ((r : ℚ) - 1 / 2 - x) * (2 * (n : ℚ)) ≤ 100 / 2 ^ 51 * (2 * 2 ^ 32) := by
      apply mul_le_mul h4 (by linarith) (by positivity) (by positivity)
    norm_num at h5
    linarith

/-- C7 (amended): `calculatePredictedCompletion` returns 0 on the empty sequence (no
session at all). On a non-empty sequence with a `form_submit` or `form_abandon` event it
returns the integer nearest to the double-precision value of
`completions / (completions + abandonments) * 100`, half-way doubles going up; for counts
below `2 ^ 32` this is an integer nearest to the exact percentage (within 1/2 of it). On a
non-empty sequence without such an event the expression is `0 / 0` and the result is
NaN. -/
theorem calculatePredictedCompletion_spec (metrics : List Metric) :
    (metrics = [] → calculatePredictedCompletion metrics = some 0)
    ∧ (0 < submitCount metrics + abandonCount metrics →
        submitCount metrics + abandonCount metrics < 2 ^ 32 →
        ∃ r : Int, calculatePredictedCompletion metrics = some r
          ∧ r = Int.floor (toDouble (toDouble ((submitCount metrics : ℚ)
                  / ((submitCount metrics : ℚ) + (abandonCount metrics : ℚ))) * 100) + 1 / 2)
          ∧ |(r : ℚ) - (submitCount metrics : ℚ)
                  / ((submitCount metrics : ℚ) + (abandonCount metrics : ℚ)) * 100| ≤ 1 / 2)
    ∧ (metrics ≠ [] → submitCount metrics + abandonCount metrics = 0 →
        calculatePredictedCompletion metrics = none) := by
  refine ⟨?_, ?_, ?_⟩
  · intro h
    subst h
    rfl
  · intro hpos hlt
    have hne : metrics ≠ [] := by
      intro e
      subst e
      simp [submitCount, abandonCount] at hpos
    refine ⟨_, ?_, rfl, ?_⟩
    · rw [calculatePredictedCompletion_eq metrics hne, percentOf, if_neg (by omega)]
      rfl
    · have h := round_percent_near (submitCount metrics)
        (submitCount metrics + abandonCount metrics) hpos hlt (Nat.le_add_right _ _)
      push_cast at h
      exact h
  · intro hne h0
    rw [calculatePredictedCompletion_eq metrics hne, percentOf, if_pos h0]
    rfl

/-- Witness of C7: no event gives 0; 1 completion and 7 abandonments give 12.5, rounded to
13; one event that is neither a completion nor an abandonment gives NaN. -/
theorem calculatePredictedCompletion_spec_witness :
    calculatePredictedCompletion [] = some 0
    ∧ calculatePredictedCompletion (formEvents "form_submit" 1 ++ formEvents "form_abandon" 7)
        = some 13
    ∧ calculatePredictedCompletion (formEvents "field_focus" 1) = none := by
  obtain ⟨hs, ha⟩ := submitCount_formEvents 1 7
  have hs2 : submitCount (formEvents "field_focus" 1) = 0 := by
    simp [submitCount, formEvents, List.countP_replicate]
  have ha2 : abandonCount (formEvents "field_focus" 1) = 0 := by
    simp [abandonCount, formEvents, List.countP_replicate]
  refine ⟨(calculatePredictedCompletion_spec []).1 rfl, ?_, ?_⟩
  · obtain ⟨r, hr, hfl, _⟩ := (calculatePredictedCompletion_spec
      (formEvents "form_submit" 1 ++ formEvents "form_abandon" 7)).2.1
        (by rw [hs, ha]; decide) (by rw [hs, ha]; decide)
    have hp := percentOf_1_7
    rw [percentOf, if_neg (by decide), Option.some.injEq] at hp
    rw [hr, hfl, hs, ha, hp]
    congr 1
    rw [Int.floor_eq_iff]
    norm_num
  · exact (calculatePredictedCompletion_spec (formEvents "field_focus" 1)).2.2
      (by simp [formEvents]) (by rw [hs2, ha2])

/-- Counterexample of C7: with 23 completions and 17 abandonments the exact percentage is
57.5, which rounds to 58 (to the nearest integer, a tie going up or to the even
neighbour); the double computed is `57.49999999999999` and the function returns 57. And
two events of one session that are neither completions nor abandonments give NaN, which
is no integer. -/
theorem predicted_completion_rounds_double :
    (23 : ℚ) / (23 + 17) * 100 = 115 / 2
    ∧ Int.floor ((23 : ℚ) / (23 + 17) * 100 + 1 / 2) = 58
    ∧ roundHalfEven ((23 : ℚ) / (23 + 17) * 100) = 58
    ∧ percentOf 23 17 = some (8092405580431359 / 2 ^ 47)
    ∧ calculatePredictedCompletion (formEvents "form_submit" 23 ++ formEvents "form_abandon" 17)
        = some 57
    ∧ calculatePredictedCompletion (formEvents "hesitation" 2) = none := by
  obtain ⟨hs, ha⟩ := submitCount_formEvents 23 17
  have hfl : Int.floor ((23 : ℚ) / (23 + 17) * 100 + 1 / 2) = 58 := by
    rw [Int.floor_eq_iff]
    norm_num
  have hfl2 : Int.floor ((23 : ℚ) / (23 + 17) * 100) = 57 := by
    rw [Int.floor_eq_iff]
    norm_num
  refine ⟨by norm_num, hfl, ?_, percentOf_23_17, ?_, ?_⟩
  rotate_left 2
  · have h0 : submitCount (formEvents "hesitation" 2) + abandonCount (formEvents "hesitation" 2)
        = 0 := by
      simp [submitCount, abandonCount, formEvents, List.countP_replicate]
    rw [calculatePredictedCompletion_eq _ (by simp [formEvents]), percentOf, if_pos h0]
    rfl
  · unfold roundHalfEven
    rw [hfl2]
    norm_num
  · rw [calculatePredictedCompletion_eq _ (by simp [formEvents]), hs, ha, percentOf_23_17,
      mathRound, Option.map_some']
    congr 1
    rw [Int.floor_eq_iff]
    norm_num

/-! ## C8: user journeys -/

theorem journeyEntry_sessionId (ms : List Metric) (sid : String) (e : JourneyInsight)
    (h : journeyEntry ms sid = some e) : e.sessionId = sid := by
  simp only [journeyEntry] at h
  split at h
  · simp only [Option.some.injEq] at h
    rw [← h]
  · exact absurd h (by simp)

theorem nodup_filterMap_key {α β : Type} (f : α → Option β) (g : β → α)
    (hfg : ∀ a b, f a = some b → g b = a) (l : List α) (hl : l.Nodup) :
    ((l.filterMap f).map g).Nodup := by
  induction l with
  | nil => simp
  | cons a l ih =>
    rw [List.nodup_cons] at hl
    cases hfa : f a with
    | none => simpa [List.filterMap_cons, hfa] using ih hl.2
    | some b =>
      simp only [List.filterMap_cons, hfa, List.map_cons, List.nodup_cons]
      refine ⟨?_, ih hl.2⟩
      intro hmem
      obtain ⟨b2, hb2, hg⟩ := List.mem_map.1 hmem
      obtain ⟨a2, ha2, hf2⟩ := List.mem_filterMap.1 hb2
      have e1 : g b2 = a2 := hfg a2 b2 hf2
      have e2 : g b = a := hfg a b hfa
      rw [e1, e2] at hg
      exact hl.1 (hg ▸ ha2)

theorem filter_session_type (ms : List Metric) (sid t : String) :
    (ms.filter (fun m => decide (m.sessionId = sid))).filter (fun m => decide (m.type = t))
      = ms.filter (fun m => decide (m.sessionId = sid ∧ m.type = t)) := by
  rw [List.filter_filter]
  congr 1
  funext m
  by_cases h1 : m.sessionId = sid <;> by_cases h2 : m.type = t <;> simp [h1, h2]

theorem journeyEntry_eq (ms : List Metric) (sid : String) :
    journeyEntry ms sid
      = if 2 ≤ (focusFields ms sid).length then
          some { sessionId := sid
                 fieldOrder := focusFields ms sid
                 completed := (ms.filter (fun m => decide (m.sessionId = sid))).any
                   (fun m => decide (m.type = "form_submit"))
                 abandoned := (ms.filter (fun m => decide (m.sessionId = sid))).any
                   (fun m => decide (m.type = "form_abandon")) }
        else none := by
  simp only [journeyEntry, focusFields, filter_session_type]
  rfl

/-- C8 (amended): `analyzeUserJourney` returns at most one entry per session; an entry
holds the fields of the `field_focus` events of its session in sequence order, and its
`completed` / `abandoned` flags hold iff the session has a `form_submit` / `form_abandon`
event; a session has an entry iff it has at least 2 `field_focus` events, whether or not
they name distinct fields. -/
theorem analyzeUserJourney_spec (metrics : List Metric) :
    ((analyzeUserJourney metrics).map (fun e => e.sessionId)).Nodup
    ∧ (∀ e ∈ analyzeUserJourney metrics,
        e.fieldOrder = focusFields metrics e.sessionId
        ∧ (e.completed = true
            ↔ ∃ m ∈ metrics, m.sessionId = e.sessionId ∧ m.type = "form_submit")
        ∧ (e.abandoned = true
            ↔ ∃ m ∈ metrics, m.sessionId = e.sessionId ∧ m.type = "form_abandon"))
    ∧ (∀ sid, (∃ e ∈ analyzeUserJourney metrics, e.sessionId = sid)
        ↔ 2 ≤ (focusFields metrics sid).length) := by
  refine ⟨?_, ?_, ?_⟩
  · exact nodup_filterMap_key (journeyEntry metrics) (fun e => e.sessionId)
      (fun a b h => journeyEntry_sessionId metrics a b h) _ (nodup_setOf _)
  · intro e he
    simp only [analyzeUserJourney, List.mem_filterMap] at he
    obtain ⟨sid, _, hent⟩ := he
    have hsid := journeyEntry_sessionId metrics sid e hent
    rw [journeyEntry_eq] at hent
    split_ifs at hent
    simp only [Option.some.injEq] at hent
    rw [← hent]
    refine ⟨rfl, ?_, ?_⟩ <;>
      simp only [List.any_eq_true, List.mem_filter, decide_eq_true_eq] <;>
      constructor <;>
      first
        | (rintro ⟨m, ⟨hm, hs⟩, ht⟩; exact ⟨m, hm, hs, ht⟩)
        | (rintro ⟨m, hm, hs, ht⟩; exact ⟨m, ⟨hm, hs⟩, ht⟩)
  · intro sid
    simp only [analyzeUserJourney, List.mem_filterMap]
    constructor
    · rintro ⟨e, ⟨sid2, _, hent⟩, hs⟩
      have hsid := journeyEntry_sessionId metrics sid2 e hent
      rw [hs] at hsid
      subst hsid
      rw [journeyEntry_eq] at hent
      by_contra hc
      rw [if_neg hc] at hent
      exact absurd hent (by simp)
    · intro h2
      have hmem : sid ∈ setOf (metrics.map (fun m => m.sessionId)) := by
        rw [mem_setOf]
        have hpos : 0 < (focusFields metrics sid).length := by omega
        obtain ⟨x, hx⟩ := List.exists_mem_of_length_pos hpos
        simp only [focusFields, List.mem_map, List.mem_filter, decide_eq_true_eq] at hx
        obtain ⟨m, ⟨hm, hs, _⟩, _⟩ := hx
        exact List.mem_map.2 ⟨m, hm, hs⟩
      exact ⟨{ sessionId := sid
               fieldOrder := focusFields metrics sid
               completed := (metrics.filter (fun m => decide (m.sessionId = sid))).any
                 (fun m => decide (m.type = "form_submit"))
               abandoned := (metrics.filter (fun m => decide (m.sessionId = sid))).any
                 (fun m => decide (m.type = "form_abandon")) },
        ⟨sid, hmem, by rw [journeyEntry_eq, if_pos h2]⟩, rfl⟩

/-- Witness of C8: a session that focuses `Name`, then `Email`, and submits has one entry
with that traversal order, completed and not abandoned. -/
theorem analyzeUserJourney_spec_witness :
    ∃ e ∈ analyzeUserJourney twoFieldJourney,
      e.sessionId = "s1" ∧ e.fieldOrder = ["Name", "Email"] ∧ e.completed = true
        ∧ ¬ e.abandoned = true := by
  have hf : focusFields twoFieldJourney "s1" = ["Name", "Email"] := by
    simp [focusFields, twoFieldJourney]
  have spec := analyzeUserJourney_spec twoFieldJourney
  obtain ⟨e, he, hs⟩ := (spec.2.2 "s1").2 (by rw [hf]; decide)
  obtain ⟨h1, h2, h3⟩ := spec.2.1 e he
  refine ⟨e, he, hs, ?_, ?_, ?_⟩
  · rw [h1, hs, hf]
  · rw [h2, hs]
    exact ⟨{ sessionId := "s1", field := "signup", type := "form_submit", ts := 3000 },
      by simp [twoFieldJourney], rfl, rfl⟩
  · rw [h3, hs]
    simp [twoFieldJourney]

/-- Counterexample of C8: a session whose two `field_focus` events name the single field
`Name` (fewer than two distinct fields) is not excluded. -/
theorem journey_same_field_listed :
    (focusFields refocus "s1").toFinset.card = 1
    ∧ analyzeUserJourney refocus
        = [{ sessionId := "s1", fieldOrder := ["Name", "Name"], completed := false,
             abandoned := false }] := by
  constructor
  · simp [focusFields, refocus]
  · simp [analyzeUserJourney, refocus, setOf, setAdd, journeyEntry]

/-! ## C9: rage clicks -/

theorem fieldRun_append (es fs : List FieldEvent) :
    ∀ s : FieldState, fieldRun s (es ++ fs)
      = ((fieldRun (fieldRun s es).1 fs).1, (fieldRun s es).2 ++ (fieldRun (fieldRun s es).1 fs).2) := by
  induction es with
  | nil => intro s; simp [fieldRun]
  | cons e es ih =>
    intro s
    rw [List.cons_append, fieldRun, ih (fieldStep s e).1, fieldRun]
    simp only [List.append_assoc]

theorem onClick_window (s : FieldState) (t : Int) :
    (onClick s t).1.clickTimestamps = retained (s.clickTimestamps ++ [t]) t := by
  simp only [onClick, retained]
  split <;> rfl

theorem onClick_emits (s : FieldState) (t : Int) :
    (onClick s t).2
      = if 3 ≤ (retained (s.clickTimestamps ++ [t]) t).length then
          [rageClick (retained (s.clickTimestamps ++ [t]) t).length]
        else [] := by
  simp only [onClick, retained, rageClick, ge_iff_le]
  split <;> rfl

theorem retained_retained (cs : List Int) (u t : Int) (h : u ≤ t) :
    retained (retained cs u) t = retained cs t := by
  unfold retained
  rw [List.filter_filter]
  apply List.filter_congr
  intro x _
  by_cases h1 : t - x < 1000
  · have h2 : u - x < 1000 := by omega
    simp [h1, h2]
  · simp [h1]

/-- Window kept by the handler: seen from a click time `t` that no earlier click exceeds,
the stored window holds the same recent clicks as the whole history. -/
theorem window_retained (s : FieldState) (h0 : s.clickTimestamps = []) (cs : List Int) :
    ∀ t : Int, (∀ c ∈ cs, c ≤ t) →
      retained (fieldRun s (clickEvents cs)).1.clickTimestamps t = retained cs t := by
  induction cs using List.reverseRecOn with
  | nil => intro t _; simp [clickEvents, fieldRun, h0]
  | append_singleton cs u ih =>
    intro t ht
    have hu : u ≤ t := ht u (by simp)
    have hcs : ∀ c ∈ cs, c ≤ t := fun c hc => ht c (List.mem_append_left _ hc)
    have hrun : (fieldRun s (clickEvents (cs ++ [u]))).1
        = (onClick (fieldRun s (clickEvents cs)).1 u).1 := by
      simp [clickEvents, fieldRun_append, fieldRun, fieldStep]
    rw [hrun, onClick_window, retained_retained _ _ _ hu]
    unfold retained at ih ⊢
    rw [List.filter_append, List.filter_append]
    congr 1
    exact ih t hcs

/-- C9 (amended): after the clicks `pre` made since the last blur (empty window), a click at
a time `t` that no earlier click exceeds emits `rage_click` iff at least 3 of the clicks
`pre ++ [t]` are less than 1000 ms old at `t` (entries with `t - ts ≥ 1000` are dropped);
the count is the number of retained clicks; the test is made afresh on every click. -/
theorem rage_click_iff (s : FieldState) (h0 : s.clickTimestamps = []) (pre : List Int)
    (t : Int) (ht : ∀ c ∈ pre, c ≤ t) :
    (fieldStep (fieldRun s (clickEvents pre)).1 (.click t)).2
      = if 3 ≤ (retained (pre ++ [t]) t).length then
          [rageClick (retained (pre ++ [t]) t).length]
        else [] := by
  have hw : retained ((fieldRun s (clickEvents pre)).1.clickTimestamps ++ [t]) t
      = retained (pre ++ [t]) t := by
    have := window_retained s h0 pre t ht
    unfold retained at this ⊢
    rw [List.filter_append, List.filter_append, this]
  show (onClick (fieldRun s (clickEvents pre)).1 t).2 = _
  rw [onClick_emits, hw]

/-- Witness of C9: clicks at 1000, 1500 and 1900 fire on the third click with count 3,
and a fourth click at 2200, 1200 ms after the first, fires again with count 3 (clicks 2,
3 and 4 retained). -/
theorem rage_click_iff_witness :
    (fieldStep (fieldRun {} (clickEvents [1000, 1500])).1 (.click 1900)).2 = [rageClick 3]
    ∧ (fieldStep (fieldRun {} (clickEvents [1000, 1500, 1900])).1 (.click 2200)).2
        = [rageClick 3]
    ∧ retained ([1000, 1500, 1900] ++ [2200]) 2200 = [1500, 1900, 2200] := by
  have h3 := rage_click_iff {} rfl [1000, 1500] 1900 (by decide)
  have h4 := rage_click_iff {} rfl [1000, 1500, 1900] 2200 (by decide)
  have r3 : retained ([1000, 1500] ++ [1900]) 1900 = [1000, 1500, 1900] := by decide
  have r4 : retained ([1000, 1500, 1900] ++ [2200]) 2200 = [1500, 1900, 2200] := by decide
  rw [r3] at h3
  rw [r4] at h4
  exact ⟨h3, h4, r4⟩

/-- Counterexample of C9: with clicks at 1000, 1500 and 2000, the first click is exactly
1000 ms old at the third: it is not older than 1000 ms, so 3 clicks are retained in the
window as C9 words it, yet the handler drops it and emits nothing. -/
theorem rage_click_boundary :
    (retainedAtMost [1000, 1500, 2000] 2000).length = 3
    ∧ (fieldStep (fieldRun {} (clickEvents [1000, 1500])).1 (.click 2000)).1.clickTimestamps
        = [1500, 2000]
    ∧ (fieldStep (fieldRun {} (clickEvents [1000, 1500])).1 (.click 2000)).2 = [] := by
  refine ⟨by decide, ?_, ?_⟩ <;>
    simp [clickEvents, fieldRun, fieldStep, onClick]

/-! ## C10: abandonment -/

theorem formRun_append (es fs : List FormEvent) :
    ∀ s : FormState, formRun s (es ++ fs) = formRun s es ++ formRun (formStateAfter s es) fs := by
  induction es with
  | nil => intro s; rfl
  | cons e es ih =>
    intro s
    rw [List.cons_append, formRun, ih (formStep s e).1, formRun]
    rfl

theorem length_formRun (es : List FormEvent) : ∀ s : FormState, (formRun s es).length = es.length := by
  induction es with
  | nil => intro s; rfl
  | cons e es ih => intro s; simp [formRun, ih]

theorem formStateAfter_eq (es : List FormEvent) :
    ∀ s : FormState, formStateAfter s es
      = { formStarted := s.formStarted || es.any isFieldFocus
          formSubmitted := s.formSubmitted || es.any isSubmission } := by
  induction es with
  | nil => intro s; simp [formStateAfter]
  | cons e es ih =>
    intro s
    have h : formStateAfter s (e :: es) = formStateAfter (formStep s e).1 es := rfl
    rw [h, ih]
    cases e with
    | fieldFocus now => simp [formStep, isFieldFocus, isSubmission]
    | submit now => simp [formStep, isFieldFocus, isSubmission]
    | submitButtonClick now => simp [formStep, isFieldFocus, isSubmission]
    | beforeunload now =>
      have hs : (formStep s (.beforeunload now)).1 = s := by
        simp only [formStep]
        split <;> rfl
      rw [hs]
      simp [isFieldFocus, isSubmission]

theorem abandons_formStep (s : FormState) (e : FormEvent) :
    abandons (formStep s e).2
      = if isTeardown e = true ∧ s.formStarted = true ∧ s.formSubmitted = false then
          [formAbandon e.now]
        else [] := by
  cases e with
  | fieldFocus now => simp [formStep, abandons, isTeardown]
  | submit now => simp [formStep, abandons, isTeardown]
  | submitButtonClick now => simp [formStep, abandons, isTeardown]
  | beforeunload now =>
    cases h1 : s.formStarted <;> cases h2 : s.formSubmitted <;>
      simp [formStep, abandons, isTeardown, h1, h2, formAbandon, FormEvent.now]

/-- C10 (amended): in the life of a tracked form, the event that follows the events `pre`
emits `form_abandon` iff it is a teardown at which `formStarted` is true and
`formSubmitted` is false, that is, some field was focused and nothing was submitted among
`pre`; such a teardown emits exactly one `form_abandon`, and every such teardown does:
the check is made afresh at each teardown. -/
theorem form_abandon_iff (pre post : List FormEvent) (e : FormEvent) :
    ∃ out, (formRun {} (pre ++ e :: post))[pre.length]? = some out
      ∧ (formStateAfter {} pre).formStarted = pre.any isFieldFocus
      ∧ (formStateAfter {} pre).formSubmitted = pre.any isSubmission
      ∧ abandons out
          = if isTeardown e = true ∧ pre.any isFieldFocus = true
                ∧ pre.any isSubmission = false then
              [formAbandon e.now]
            else [] := by
  refine ⟨(formStep (formStateAfter {} pre) e).2, ?_, ?_, ?_, ?_⟩
  · rw [formRun_append, formRun]
    rw [List.getElem?_append_right (by rw [length_formRun])]
    simp [length_formRun]
  · rw [formStateAfter_eq]; rfl
  · rw [formStateAfter_eq]; rfl
  · rw [abandons_formStep, formStateAfter_eq]
    rfl

/-- Counterexample of C10: after one focus, each of two successive teardowns emits a
`form_abandon`: two are emitted over the lifetime of the form. -/
theorem form_abandon_twice :
    formRun {} twoTeardowns = [[], [formAbandon 2000], [formAbandon 3000]]
    ∧ (abandons (formRun {} twoTeardowns).flatten).length = 2 := by
  constructor <;> simp [formRun, twoTeardowns, formStep, formAbandon, abandons]

/-! ## C11: blur reset and focus count -/

theorem inputHesitation_focusCount (s : FieldState) (now : Int) :
    (inputHesitation s now).1.focusCount = s.focusCount := by
  unfold inputHesitation
  split <;> rfl

theorem inputTypingRate_focusCount (s : FieldState) (now : Int) :
    (inputTypingRate s now).1.focusCount = s.focusCount := by
  simp only [inputTypingRate]
  split_ifs <;> rfl

theorem inputCharCount_focusCount (s : FieldState) (t : String) :
    (inputCharCount s t).1.focusCount = s.focusCount := by
  simp only [inputCharCount]
  split_ifs <;> rfl

theorem fieldStep_focusCount (s : FieldState) (e : FieldEvent) :
    (fieldStep s e).1.focusCount = s.focusCount + (if isFocus e = true then 1 else 0) := by
  cases e with
  | focus now => rfl
  | input now t =>
    show (onInput s now t).1.focusCount = s.focusCount + 0
    rw [onInput_fst, inputCharCount_focusCount, inputTypingRate_focusCount,
      inputHesitation_focusCount]
    rfl
  | paste now => rfl
  | mouseover now => rfl
  | mouseout now =>
    show (onMouseout s now).1.focusCount = s.focusCount + 0
    unfold onMouseout
    split <;> rfl
  | click now =>
    show (onClick s now).1.focusCount = s.focusCount + 0
    simp only [onClick]
    split <;> rfl
  | blur now => rfl

theorem fieldRun_focusCount (es : List FieldEvent) :
    ∀ s : FieldState, (fieldRun s es).1.focusCount = s.focusCount + es.countP isFocus := by
  induction es with
  | nil => intro s; rfl
  | cons e es ih =>
    intro s
    rw [fieldRun]
    simp only []
    rw [ih, fieldStep_focusCount, List.countP_cons]
    omega

/-- C11: a blur emits `field_blur` with the snapshot of the cycle, then leaves every
per-cycle variable at its initial value and `focusCount` unchanged; hence, whatever the
events `es` delivered to a field since it was tracked, the next focus, the k-th one,
emits `field_focus` with `focusCount = k`. -/
theorem blur_resets_cycle (s : FieldState) (es : List FieldEvent) (now : Int) :
    (onBlur s).2
        = [{ type := "field_blur"
             data := { totalHover := some s.totalHover
                       backspaceCount := some s.backspaceCount
                       charCount := some s.charCount
                       correctionRate :=
                         some (if s.charCount > 0 then
                                 (s.backspaceCount : ℚ) / (s.charCount : ℚ)
                               else 0)
                       focusCount := some s.focusCount
                       pasteCount := some s.pasteCount } }]
    ∧ (onBlur s).1
        = { startTime := none, hoverStart := none, lastInputTime := none,
            lastTypingRate := none, hesitationRecorded := false, backspaceCount := 0,
            charCount := 0, pasteCount := 0, totalHover := 0, clickTimestamps := [],
            typingIntervals := [], focusCount := s.focusCount }
    ∧ (fieldStep (fieldRun {} es).1 (.focus now)).2 = [fieldFocus (es.countP isFocus + 1)] := by
  refine ⟨rfl, rfl, ?_⟩
  show (onFocus (fieldRun {} es).1 now).2 = _
  simp only [onFocus, fieldFocus, fieldRun_focusCount]
  simp

/-! ## C12: typing-speed drop-off -/

theorem ofType_append (t : String) (xs ys : List Emission) :
    ofType t (xs ++ ys) = ofType t xs ++ ofType t ys := by
  simp [ofType]

theorem ofType_eq_nil (t u : String) (out : List Emission) (h : ∀ x ∈ out, x.type = u)
    (hne : u ≠ t) : ofType t out = [] := by
  apply List.filter_eq_nil_iff.2
  intro x hx
  simp [h x hx, hne]

theorem intSum_eq_sum (xs : List Int) : intSum xs = xs.sum := by
  have h : ∀ (a : Int) (l : List Int), l.foldl (fun a b => a + b) a = a + l.sum := by
    intro a l
    induction l generalizing a with
    | nil => simp
    | cons x l ih => simp [List.foldl_cons, ih, add_assoc]
  rw [intSum, h, zero_add]

theorem currAvg_slice (l : List Int) :
    ((intSum (l.drop (l.length - 3)) : Int) : ℚ) / 3 = currAvgOf l := by
  rw [currAvgOf, intSum_eq_sum, List.take_reverse, List.sum_reverse]

theorem prevAvg_slice (l : List Int) (h : 6 ≤ l.length) :
    ((intSum ((l.drop (l.length - 6)).take 3) : Int) : ℚ) / 3 = prevAvgOf l := by
  rw [prevAvgOf, intSum_eq_sum, List.drop_reverse, List.take_reverse, List.sum_reverse,
    List.length_take, List.drop_take]
  have e1 : min (l.length - 3) l.length - 3 = l.length - 6 := by omega
  have e2 : l.length - 3 - (l.length - 6) = 3 := by omega
  rw [e1, e2]

theorem inputDropoff_eq (s : FieldState) :
    inputDropoff s
      = if 6 ≤ s.typingIntervals.length ∧ prevAvgOf s.typingIntervals ≠ 0
            ∧ currAvgOf s.typingIntervals ≠ 0
            ∧ slowerInDouble (prevAvgOf s.typingIntervals) (currAvgOf s.typingIntervals) then
          [speedDropoff (toDouble (prevAvgOf s.typingIntervals))
            (toDouble (currAvgOf s.typingIntervals))]
        else [] := by
  unfold inputDropoff
  by_cases h6 : 6 ≤ s.typingIntervals.length
  · simp only [ge_iff_le, h6, if_true, true_and, currAvg_slice, prevAvg_slice _ h6,
      speedDropoff, slowerInDouble, Ne, toDouble_eq_zero]
  · simp [h6]

theorem inputHesitation_intervals (s : FieldState) (now : Int) :
    (inputHesitation s now).1.typingIntervals = s.typingIntervals
    ∧ (inputHesitation s now).1.lastInputTime = s.lastInputTime := by
  unfold inputHesitation
  split <;> exact ⟨rfl, rfl⟩

theorem inputTypingRate_intervals (s : FieldState) (now : Int) :
    (inputTypingRate s now).1.typingIntervals = intervalsAfter s now := by
  simp only [inputTypingRate, intervalsAfter]
  split_ifs <;> rfl

theorem inputCharCount_intervals (s : FieldState) (t : String) :
    (inputCharCount s t).1.typingIntervals = s.typingIntervals := by
  simp only [inputCharCount]
  split_ifs <;> rfl

theorem inputCharCount_type (s : FieldState) (t : String) :
    ∀ x ∈ (inputCharCount s t).2, x.type = "backspace" := by
  intro x hx
  simp only [inputCharCount] at hx
  split_ifs at hx <;> simp at hx
  rw [hx]

theorem onInput_intervals (s : FieldState) (now : Int) (t : String) :
    (onInput s now t).1.typingIntervals = intervalsAfter s now := by
  rw [onInput_fst, inputCharCount_intervals, inputTypingRate_intervals]
  unfold intervalsAfter
  rw [(inputHesitation_intervals s now).1, (inputHesitation_intervals s now).2]

theorem sum_nonneg_of_forall (l : List Int) (h : ∀ i ∈ l, 0 ≤ i) : 0 ≤ l.sum := by
  induction l with
  | nil => simp
  | cons x l ih =>
    rw [List.sum_cons]
    have h1 := h x (List.mem_cons_self _ _)
    have h2 := ih (fun i hi => h i (List.mem_cons_of_mem _ hi))
    omega

/-- Drop-off emissions of the `input` handler, in terms of the intervals recorded once the
change is accounted for. -/
theorem onInput_dropoff (s : FieldState) (now : Int) (t : String) :
    ofType "typing_speed_dropoff" (onInput s now t).2
      = if 6 ≤ (intervalsAfter s now).length ∧ prevAvgOf (intervalsAfter s now) ≠ 0
            ∧ currAvgOf (intervalsAfter s now) ≠ 0
            ∧ slowerInDouble (prevAvgOf (intervalsAfter s now))
                (currAvgOf (intervalsAfter s now)) then
          [speedDropoff (toDouble (prevAvgOf (intervalsAfter s now)))
            (toDouble (currAvgOf (intervalsAfter s now)))]
        else [] := by
  have hiv : (inputCharCount (inputTypingRate (inputHesitation s now).1 now).1 t).1.typingIntervals
      = intervalsAfter s now := by
    have := onInput_intervals s now t
    rwa [onInput_fst] at this
  rw [onInput_snd, ofType_append, ofType_append, ofType_append, ofType_append,
    ofType_eq_nil _ _ _ (inputHesitation_type s now) (by decide),
    ofType_eq_nil _ _ _ (inputTypingRate_type _ now) (by decide),
    ofType_eq_nil _ _ _ (inputCharCount_type _ t) (by decide),
    ofType_eq_nil _ _ _ (inputCorrectionRate_type _) (by decide),
    inputDropoff_eq, hiv]
  simp only [List.nil_append]
  split_ifs <;> simp [ofType, speedDropoff]

/-- The comparison in double precision agrees with the exact one away from the threshold:
for a positive `prevAvg`, it holds when `currAvg` exceeds `1.7 × prevAvg` by more than a
relative `2 ^ (-50)`, and it implies that `currAvg` exceeds `1.7 × prevAvg` less a
relative `2 ^ (-50)`. -/
theorem slowerInDouble_margin (p c : ℚ) (hp : 0 < p) :
    (p * (17 / 10) * (1 + 1 / 2 ^ 50) < c → slowerInDouble p c)
    ∧ (slowerInDouble p c → p * (17 / 10) * (1 - 1 / 2 ^ 50) < c) := by
  obtain ⟨m1, m2⟩ := doubleProduct_bounds p hp
  have hpk : 0 < p * (17 / 10) := by positivity
  constructor
  · intro h
    have hc : 0 < c := lt_trans (by positivity) h
    obtain ⟨c1, _⟩ := toDouble_bounds c hc
    unfold slowerInDouble
    have h1 : p * (17 / 10) * (1 + 1 / 2 ^ 50) * (1 - 1 / 2 ^ 53) < c * (1 - 1 / 2 ^ 53) :=
      mul_lt_mul_of_pos_right h (by norm_num)
    have h2 : p * (17 / 10) * (1 + 1 / 2 ^ 51)
        ≤ p * (17 / 10) * (1 + 1 / 2 ^ 50) * (1 - 1 / 2 ^ 53) := by
      have : (1 : ℚ) + 1 / 2 ^ 51 ≤ (1 + 1 / 2 ^ 50) * (1 - 1 / 2 ^ 53) := by norm_num
      calc p * (17 / 10) * (1 + 1 / 2 ^ 51)
          ≤ p * (17 / 10) * ((1 + 1 / 2 ^ 50) * (1 - 1 / 2 ^ 53)) :=
            mul_le_mul_of_nonneg_left this hpk.le
        _ = p * (17 / 10) * (1 + 1 / 2 ^ 50) * (1 - 1 / 2 ^ 53) := by ring
    linarith
  · intro h
    unfold slowerInDouble at h
    have hprod : 0 < toDouble (toDouble p * toDouble (17 / 10)) :=
      toDouble_pos _ (mul_pos (toDouble_pos p hp) (toDouble_pos _ (by norm_num)))
    have hc : 0 < c := by
      by_contra hn
      push_neg at hn
      rcases eq_or_lt_of_le hn with h0 | hneg
      · rw [h0, toDouble_zero] at h
        linarith
      · have he := toDouble_error c
        rw [abs_of_neg hneg, abs_le] at he
        have : -c / 2 ^ 53 < -c := div_lt_self (by linarith) (by norm_num)
        linarith [he.2]
    obtain ⟨_, c2⟩ := toDouble_bounds c hc
    have h1 : p * (17 / 10) * (1 - 1 / 2 ^ 51) < c * (1 + 1 / 2 ^ 53) := by linarith
    have h2 : p * (17 / 10) * (1 - 1 / 2 ^ 50) * (1 + 1 / 2 ^ 53)
        ≤ p * (17 / 10) * (1 - 1 / 2 ^ 51) := by
      have : ((1 : ℚ) - 1 / 2 ^ 50) * (1 + 1 / 2 ^ 53) ≤ 1 - 1 / 2 ^ 51 := by norm_num
      calc p * (17 / 10) * (1 - 1 / 2 ^ 50) * (1 + 1 / 2 ^ 53)
          = p * (17 / 10) * ((1 - 1 / 2 ^ 50) * (1 + 1 / 2 ^ 53)) := by ring
        _ ≤ p * (17 / 10) * (1 - 1 / 2 ^ 51) := mul_le_mul_of_nonneg_left this hpk.le
    have h3 : p * (17 / 10) * (1 - 1 / 2 ^ 50) * (1 + 1 / 2 ^ 53) < c * (1 + 1 / 2 ^ 53) :=
      lt_of_le_of_lt h2 h1
    exact lt_of_mul_lt_mul_right h3 (by norm_num)

theorem toDouble_17_10 : toDouble (17 / 10) = 7656119366529843 * 2 ^ (0 - 52 : ℤ) :=
  toDouble_eval _ 0 7656119366529843 (by norm_num) (by norm_num) (by norm_num) (by norm_num)

theorem toDouble_100 : toDouble 100 = 100 := by
  rw [toDouble_eval 100 6 7036874417766400 (by norm_num) (by norm_num) (by norm_num)
    (by norm_num)]
  norm_num

theorem toDouble_150 : toDouble 150 = 150 := by
  rw [toDouble_eval 150 7 5277655813324800 (by norm_num) (by norm_num) (by norm_num)
    (by norm_num)]
  norm_num

theorem toDouble_300 : toDouble 300 = 300 := by
  rw [toDouble_eval 300 8 5277655813324800 (by norm_num) (by norm_num) (by norm_num)
    (by norm_num)]
  norm_num

/-- In double precision `100 * 1.7` is 170. -/
theorem toDouble_100_times : toDouble (toDouble 100 * toDouble (17 / 10)) = 170 := by
  rw [toDouble_100, toDouble_17_10,
    toDouble_eval _ 7 5981343255101440 (by norm_num) (by norm_num) (by norm_num)
      (by norm_num)]
  norm_num

theorem typedAt_steady :
    (fieldRun {} (typedAt [1000, 1100, 1200, 1300, 1450, 1600])).1.typingIntervals
        = [100, 100, 100, 150, 150]
    ∧ (fieldRun {} (typedAt [1000, 1100, 1200, 1300, 1450, 1600])).1.lastInputTime
        = some 1600 := by
  simp [typedAt, fieldRun, fieldStep, onInput, inputHesitation, inputTypingRate,
    inputCharCount, truthyTime]

theorem typedAt_slowing :
    (fieldRun {} (typedAt [1000, 1100, 1200, 1300, 1600, 1900])).1.typingIntervals
        = [100, 100, 100, 300, 300]
    ∧ (fieldRun {} (typedAt [1000, 1100, 1200, 1300, 1600, 1900])).1.lastInputTime
        = some 1900 := by
  simp [typedAt, fieldRun, fieldStep, onInput, inputHesitation, inputTypingRate,
    inputCharCount, truthyTime]

theorem typedAt_backwards :
    (fieldRun {} (typedAt [1000, 1100, 1200, 500, 600, 700])).1.typingIntervals
        = [100, 100, -700, 100, 100]
    ∧ (fieldRun {} (typedAt [1000, 1100, 1200, 500, 600, 700])).1.lastInputTime
        = some 700 := by
  simp [typedAt, fieldRun, fieldStep, onInput, inputHesitation, inputTypingRate,
    inputCharCount, truthyTime]

theorem typedAt_threshold :
    (fieldRun {} (typedAt [1000, 1036, 1073, 1110, 1172, 1234])).1.typingIntervals
        = [36, 37, 37, 62, 62]
    ∧ (fieldRun {} (typedAt [1000, 1036, 1073, 1110, 1172, 1234])).1.lastInputTime
        = some 1234 := by
  simp [typedAt, fieldRun, fieldStep, onInput, inputHesitation, inputTypingRate,
    inputCharCount, truthyTime]

/-- C12 (amended): a content change emits `typing_speed_dropoff{prevAvg, currAvg}`, once,
iff at least 6 typing intervals are recorded in the cycle (the one of this change
included), `prevAvg` and `currAvg` are both non-zero and `currAvg > prevAvg * 1.7` as
evaluated in double precision; the payload holds the two means as doubles. When no
recorded interval is negative, non-zero means positive. For a positive `prevAvg` the
comparison in double precision holds when the exact `currAvg` exceeds `1.7 × prevAvg` by
more than a relative `2 ^ (-50)`, and fails when it falls short of it by more than that. -/
theorem typing_speed_dropoff_iff (s : FieldState) (now : Int) (t : String) :
    ofType "typing_speed_dropoff" (onInput s now t).2
        = (if 6 ≤ (intervalsAfter s now).length ∧ prevAvgOf (intervalsAfter s now) ≠ 0
              ∧ currAvgOf (intervalsAfter s now) ≠ 0
              ∧ slowerInDouble (prevAvgOf (intervalsAfter s now))
                  (currAvgOf (intervalsAfter s now)) then
            [speedDropoff (toDouble (prevAvgOf (intervalsAfter s now)))
              (toDouble (currAvgOf (intervalsAfter s now)))]
          else [])
    ∧ ((∀ i ∈ intervalsAfter s now, 0 ≤ i) →
        ((prevAvgOf (intervalsAfter s now) ≠ 0 ∧ currAvgOf (intervalsAfter s now) ≠ 0)
          ↔ (0 < prevAvgOf (intervalsAfter s now) ∧ 0 < currAvgOf (intervalsAfter s now))))
    ∧ (0 < prevAvgOf (intervalsAfter s now) →
        (prevAvgOf (intervalsAfter s now) * (17 / 10) * (1 + 1 / 2 ^ 50)
            < currAvgOf (intervalsAfter s now) →
          slowerInDouble (prevAvgOf (intervalsAfter s now)) (currAvgOf (intervalsAfter s now)))
        ∧ (slowerInDouble (prevAvgOf (intervalsAfter s now)) (currAvgOf (intervalsAfter s now)) →
          prevAvgOf (intervalsAfter s now) * (17 / 10) * (1 - 1 / 2 ^ 50)
            < currAvgOf (intervalsAfter s now))) := by
  refine ⟨onInput_dropoff s now t, ?_, fun hp => slowerInDouble_margin _ _ hp⟩
  intro hnn
  have hp : 0 ≤ prevAvgOf (intervalsAfter s now) := by
    unfold prevAvgOf
    have : (0 : Int) ≤ (((intervalsAfter s now).reverse.drop 3).take 3).sum :=
      sum_nonneg_of_forall _ (fun i hi =>
        hnn i (List.mem_reverse.1 (List.mem_of_mem_drop (List.mem_of_mem_take hi))))
    have h2 : (0 : ℚ) ≤ (((((intervalsAfter s now).reverse.drop 3).take 3).sum : Int) : ℚ) := by
      exact_mod_cast this
    positivity
  have hc : 0 ≤ currAvgOf (intervalsAfter s now) := by
    unfold currAvgOf
    have : (0 : Int) ≤ ((intervalsAfter s now).reverse.take 3).sum :=
      sum_nonneg_of_forall _ (fun i hi => hnn i (List.mem_reverse.1 (List.mem_of_mem_take hi)))
    have h2 : (0 : ℚ) ≤ ((((intervalsAfter s now).reverse.take 3).sum : Int) : ℚ) := by
      exact_mod_cast this
    positivity
  constructor
  · rintro ⟨h1, h2⟩
    exact ⟨lt_of_le_of_ne hp (Ne.symm h1), lt_of_le_of_ne hc (Ne.symm h2)⟩
  · rintro ⟨h1, h2⟩
    exact ⟨ne_of_gt h1, ne_of_gt h2⟩

/-- Witness of C12: intervals `[100,100,100,300,300,300]` give `prevAvg = 100`,
`currAvg = 300` and the event fires; intervals `[100,100,100,150,150,150]` give
`currAvg = 150`, not above 170, and no event fires. -/
theorem typing_speed_dropoff_iff_witness :
    intervalsAfter (fieldRun {} (typedAt [1000, 1100, 1200, 1300, 1600, 1900])).1 2200
        = [100, 100, 100, 300, 300, 300]
    ∧ ofType "typing_speed_dropoff"
        (onInput (fieldRun {} (typedAt [1000, 1100, 1200, 1300, 1600, 1900])).1 2200
          "insertText").2 = [speedDropoff 100 300]
    ∧ intervalsAfter (fieldRun {} (typedAt [1000, 1100, 1200, 1300, 1450, 1600])).1 1750
        = [100, 100, 100, 150, 150, 150]
    ∧ ofType "typing_speed_dropoff"
        (onInput (fieldRun {} (typedAt [1000, 1100, 1200, 1300, 1450, 1600])).1 1750
          "insertText").2 = []
    ∧ (0 < prevAvgOf [100, 100, 100, 300, 300, 300]
        ∧ 0 < currAvgOf [100, 100, 100, 300, 300, 300])
    ∧ slowerInDouble (prevAvgOf [100, 100, 100, 300, 300, 300])
        (currAvgOf [100, 100, 100, 300, 300, 300]) := by
  have i1 : intervalsAfter (fieldRun {} (typedAt [1000, 1100, 1200, 1300, 1600, 1900])).1 2200
      = [100, 100, 100, 300, 300, 300] := by
    simp [intervalsAfter, typedAt_slowing.1, typedAt_slowing.2, truthyTime]
  have i2 : intervalsAfter (fieldRun {} (typedAt [1000, 1100, 1200, 1300, 1450, 1600])).1 1750
      = [100, 100, 100, 150, 150, 150] := by
    simp [intervalsAfter, typedAt_steady.1, typedAt_steady.2, truthyTime]
  have p1 : prevAvgOf [100, 100, 100, 300, 300, 300] = 100 := by
    simp [prevAvgOf]; norm_num
  have c1 : currAvgOf [100, 100, 100, 300, 300, 300] = 300 := by
    simp [currAvgOf]; norm_num
  have p2 : prevAvgOf [100, 100, 100, 150, 150, 150] = 100 := by
    simp [prevAvgOf]; norm_num
  have c2 : currAvgOf [100, 100, 100, 150, 150, 150] = 150 := by
    simp [currAvgOf]; norm_num
  have s1 : slowerInDouble 100 300 := by
    unfold slowerInDouble
    rw [toDouble_100_times, toDouble_300]
    norm_num
  have s2 : ¬ slowerInDouble 100 150 := by
    unfold slowerInDouble
    rw [toDouble_100_times, toDouble_150]
    norm_num
  have h1 := typing_speed_dropoff_iff
    (fieldRun {} (typedAt [1000, 1100, 1200, 1300, 1600, 1900])).1 2200 "insertText"
  have h2 := typing_speed_dropoff_iff
    (fieldRun {} (typedAt [1000, 1100, 1200, 1300, 1450, 1600])).1 1750 "insertText"
  rw [i1, p1, c1] at h1
  rw [i2, p2, c2] at h2
  refine ⟨i1, ?_, i2, ?_, ?_, ?_⟩
  · rw [h1.1, if_pos ⟨by decide, by norm_num, by norm_num, s1⟩, toDouble_100, toDouble_300]
  · rw [h2.1, if_neg (fun h => s2 h.2.2.2)]
  · rw [p1, c1]
    exact (h1.2.1 (by decide)).1 ⟨by norm_num, by norm_num⟩
  · rw [p1, c1]
    exact (h1.2.2 (by norm_num)).1 (by norm_num)

/-- Counterexample of C12. With the intervals `[36,37,37,62,62,63]` both means are
positive and `currAvg = 187/3` is exactly `1.7 × prevAvg`, not above it, yet the event
fires: in double precision `prevAvg * 1.7` is `62.33333333333333` and `currAvg` is
`62.333333333333336`. And when the clock steps back once, the recorded intervals are
`[100,100,-700,100,100,100]`: `prevAvg = -500/3` is not positive, yet the event fires. -/
theorem typing_speed_dropoff_threshold :
    intervalsAfter (fieldRun {} (typedAt [1000, 1036, 1073, 1110, 1172, 1234])).1 1297
        = [36, 37, 37, 62, 62, 63]
    ∧ prevAvgOf [36, 37, 37, 62, 62, 63] = 110 / 3
    ∧ currAvgOf [36, 37, 37, 62, 62, 63] = 187 / 3
    ∧ ¬ (currAvgOf [36, 37, 37, 62, 62, 63]
          > (17 / 10) * prevAvgOf [36, 37, 37, 62, 62, 63])
    ∧ ofType "typing_speed_dropoff"
        (onInput (fieldRun {} (typedAt [1000, 1036, 1073, 1110, 1172, 1234])).1 1297
          "insertText").2
        = [speedDropoff (5160374573028693 / 2 ^ 47) (8772636774148779 / 2 ^ 47)]
    ∧ intervalsAfter (fieldRun {} (typedAt [1000, 1100, 1200, 500, 600, 700])).1 800
        = [100, 100, -700, 100, 100, 100]
    ∧ prevAvgOf [100, 100, -700, 100, 100, 100] = -500 / 3
    ∧ ¬ 0 < prevAvgOf [100, 100, -700, 100, 100, 100]
    ∧ ofType "typing_speed_dropoff"
        (onInput (fieldRun {} (typedAt [1000, 1100, 1200, 500, 600, 700])).1 800
          "insertText").2
        = [speedDropoff (-5864062014805333 / 2 ^ 45) 100] := by
  have i1 : intervalsAfter (fieldRun {} (typedAt [1000, 1036, 1073, 1110, 1172, 1234])).1 1297
      = [36, 37, 37, 62, 62, 63] := by
    simp [intervalsAfter, typedAt_threshold.1, typedAt_threshold.2, truthyTime]
  have p1 : prevAvgOf [36, 37, 37, 62, 62, 63] = 110 / 3 := by
    simp [prevAvgOf]
  have c1 : currAvgOf [36, 37, 37, 62, 62, 63] = 187 / 3 := by
    simp [currAvgOf]
  have dp1 : toDouble (110 / 3) = 5160374573028693 * 2 ^ (5 - 52 : ℤ) :=
    toDouble_eval _ 5 5160374573028693 (by norm_num) (by norm_num) (by norm_num) (by norm_num)
  have dc1 : toDouble (187 / 3) = 8772636774148779 * 2 ^ (5 - 52 : ℤ) :=
    toDouble_eval _ 5 8772636774148779 (by norm_num) (by norm_num) (by norm_num) (by norm_num)
  have dm1 : toDouble (5160374573028693 * 2 ^ (5 - 52 : ℤ) * (7656119366529843 * 2 ^ (0 - 52 : ℤ)))
      = 8772636774148778 * 2 ^ (5 - 52 : ℤ) :=
    toDouble_eval _ 5 8772636774148778 (by norm_num) (by norm_num) (by norm_num) (by norm_num)
  have s1 : slowerInDouble (110 / 3) (187 / 3) := by
    unfold slowerInDouble
    rw [dp1, dc1, toDouble_17_10, dm1]
    norm_num
  have i2 : intervalsAfter (fieldRun {} (typedAt [1000, 1100, 1200, 500, 600, 700])).1 800
      = [100, 100, -700, 100, 100, 100] := by
    simp [intervalsAfter, typedAt_backwards.1, typedAt_backwards.2, truthyTime]
  have p2 : prevAvgOf [100, 100, -700, 100, 100, 100] = -500 / 3 := by
    simp [prevAvgOf]
  have c2 : currAvgOf [100, 100, -700, 100, 100, 100] = 100 := by
    simp [currAvgOf]; norm_num
  have dp2 : toDouble (-500 / 3) = -5864062014805333 * 2 ^ (7 - 52 : ℤ) :=
    toDouble_eval_neg _ 7 (-5864062014805333) (by norm_num) (by norm_num) (by norm_num)
      (by norm_num)
  have dm2 : toDouble (-5864062014805333 * 2 ^ (7 - 52 : ℤ) * (7656119366529843 * 2 ^ (0 - 52 : ℤ)))
      = -4984452712584533 * 2 ^ (8 - 52 : ℤ) :=
    toDouble_eval_neg _ 8 (-4984452712584533) (by norm_num) (by norm_num) (by norm_num)
      (by norm_num)
  have s2 : slowerInDouble (-500 / 3) 100 := by
    unfold slowerInDouble
    rw [dp2, toDouble_100, toDouble_17_10, dm2]
    norm_num
  refine ⟨i1, p1, c1, by rw [p1, c1]; norm_num, ?_, i2, p2, by rw [p2]; norm_num, ?_⟩
  · rw [onInput_dropoff, i1, p1, c1, if_pos ⟨by decide, by norm_num, by norm_num, s1⟩,
      dp1, dc1]
    norm_num
  · rw [onInput_dropoff, i2, p2, c2, if_pos ⟨by decide, by norm_num, by norm_num, s2⟩,
      dp2, toDouble_100]
    norm_num

/-! ## C13: hesitation -/

theorem inputTypingRate_hesitation (s : FieldState) (now : Int) :
    (inputTypingRate s now).1.startTime = s.startTime
    ∧ (inputTypingRate s now).1.hesitationRecorded = s.hesitationRecorded := by
  simp only [inputTypingRate]
  split_ifs <;> exact ⟨rfl, rfl⟩

theorem inputCharCount_hesitation (s : FieldState) (t : String) :
    (inputCharCount s t).1.startTime = s.startTime
    ∧ (inputCharCount s t).1.hesitationRecorded = s.hesitationRecorded := by
  simp only [inputCharCount]
  split_ifs <;> exact ⟨rfl, rfl⟩

theorem inputHesitation_eq (s : FieldState) (now : Int) :
    (inputHesitation s now).2
        = (if s.hesitationRecorded = false ∧ truthyTime s.startTime = true then
            [hesitationOf (now - s.startTime.getD 0)]
          else [])
    ∧ (inputHesitation s now).1.startTime = s.startTime
    ∧ (inputHesitation s now).1.hesitationRecorded
        = (s.hesitationRecorded || truthyTime s.startTime) := by
  unfold inputHesitation
  cases h1 : s.hesitationRecorded <;> cases h2 : truthyTime s.startTime <;>
    simp [h1, h2, hesitationOf]

/-- Hesitation of a content change: emitted iff none was recorded since the last focus or
blur and a focus start time is set; the change then marks the hesitation as recorded. -/
theorem onInput_hesitation (s : FieldState) (now : Int) (t : String) :
    ofType "hesitation" (onInput s now t).2
        = (if s.hesitationRecorded = false ∧ truthyTime s.startTime = true then
            [hesitationOf (now - s.startTime.getD 0)]
          else [])
    ∧ (onInput s now t).1.startTime = s.startTime
    ∧ (onInput s now t).1.hesitationRecorded
        = (s.hesitationRecorded || truthyTime s.startTime) := by
  refine ⟨?_, ?_, ?_⟩
  · rw [onInput_snd, ofType_append, ofType_append, ofType_append, ofType_append,
      ofType_eq_nil _ _ _ (inputTypingRate_type _ now) (by decide),
      ofType_eq_nil _ _ _ (inputCharCount_type _ t) (by decide),
      ofType_eq_nil _ _ _ (inputCorrectionRate_type _) (by decide),
      ofType_eq_nil _ _ _ (inputDropoff_type _) (by decide),
      (inputHesitation_eq s now).1]
    simp only [List.append_nil]
    split_ifs <;> simp [ofType, hesitationOf]
  · rw [onInput_fst, (inputCharCount_hesitation _ t).1, (inputTypingRate_hesitation _ now).1,
      (inputHesitation_eq s now).2.1]
  · rw [onInput_fst, (inputCharCount_hesitation _ t).2, (inputTypingRate_hesitation _ now).2,
      (inputHesitation_eq s now).2.2]

/-- Events other than focus, blur and content change leave the hesitation variables alone
and emit no hesitation. -/
theorem fieldStep_other (s : FieldState) (e : FieldEvent) (h : isOther e = true) :
    ofType "hesitation" (fieldStep s e).2 = []
    ∧ (fieldStep s e).1.startTime = s.startTime
    ∧ (fieldStep s e).1.hesitationRecorded = s.hesitationRecorded := by
  cases e with
  | focus now => simp [isOther, isFocus] at h
  | input now t => simp [isOther, isInput] at h
  | blur now => simp [isOther, isBlur] at h
  | paste now => exact ⟨by simp [fieldStep, onPaste, ofType], rfl, rfl⟩
  | mouseover now => exact ⟨by simp [fieldStep, onMouseover, ofType], rfl, rfl⟩
  | mouseout now =>
    show ofType "hesitation" (onMouseout s now).2 = []
      ∧ (onMouseout s now).1.startTime = s.startTime
      ∧ (onMouseout s now).1.hesitationRecorded = s.hesitationRecorded
    unfold onMouseout
    split
    · exact ⟨by simp [ofType], rfl, rfl⟩
    · exact ⟨rfl, rfl, rfl⟩
  | click now =>
    show ofType "hesitation" (onClick s now).2 = []
      ∧ (onClick s now).1.startTime = s.startTime
      ∧ (onClick s now).1.hesitationRecorded = s.hesitationRecorded
    simp only [onClick]
    split
    · exact ⟨by simp [ofType], rfl, rfl⟩
    · exact ⟨rfl, rfl, rfl⟩

theorem fieldRun_cons (s : FieldState) (e : FieldEvent) (es : List FieldEvent) :
    fieldRun s (e :: es)
      = ((fieldRun (fieldStep s e).1 es).1, (fieldStep s e).2 ++ (fieldRun (fieldStep s e).1 es).2) :=
  rfl

theorem fieldRun_other (es : List FieldEvent) :
    ∀ s : FieldState, (∀ e ∈ es, isOther e = true) →
      ofType "hesitation" (fieldRun s es).2 = []
      ∧ (fieldRun s es).1.startTime = s.startTime
      ∧ (fieldRun s es).1.hesitationRecorded = s.hesitationRecorded := by
  induction es with
  | nil => intro s _; exact ⟨rfl, rfl, rfl⟩
  | cons e es ih =>
    intro s h
    obtain ⟨h1, h2, h3⟩ := fieldStep_other s e (h e (List.mem_cons_self _ _))
    obtain ⟨r1, r2, r3⟩ := ih (fieldStep s e).1 (fun x hx => h x (List.mem_cons_of_mem _ hx))
    rw [fieldRun_cons]
    exact ⟨by rw [ofType_append, h1, r1]; rfl, by rw [r2, h2], by rw [r3, h3]⟩

/-- Events of a cycle emit no hesitation once one is recorded. -/
theorem fieldStep_recorded (s : FieldState) (e : FieldEvent) (h : inCycle e = true)
    (hr : s.hesitationRecorded = true) :
    ofType "hesitation" (fieldStep s e).2 = []
    ∧ (fieldStep s e).1.hesitationRecorded = true := by
  by_cases hi : isInput e = true
  · cases e with
    | input now t =>
      obtain ⟨h1, _, h3⟩ := onInput_hesitation s now t
      exact ⟨by rw [show fieldStep s (.input now t) = onInput s now t from rfl, h1]; simp [hr],
        by rw [show fieldStep s (.input now t) = onInput s now t from rfl, h3, hr]; rfl⟩
    | focus now => simp [isInput] at hi
    | blur now => simp [isInput] at hi
    | paste now => simp [isInput] at hi
    | mouseover now => simp [isInput] at hi
    | mouseout now => simp [isInput] at hi
    | click now => simp [isInput] at hi
  · have ho : isOther e = true := by
      simp only [inCycle, Bool.and_eq_true, Bool.not_eq_true'] at h
      simp [isOther, h.1, h.2, hi]
    obtain ⟨h1, _, h3⟩ := fieldStep_other s e ho
    exact ⟨h1, by rw [h3, hr]⟩

theorem fieldRun_recorded (es : List FieldEvent) :
    ∀ s : FieldState, (∀ e ∈ es, inCycle e = true) → s.hesitationRecorded = true →
      ofType "hesitation" (fieldRun s es).2 = [] := by
  induction es with
  | nil => intro s _ _; rfl
  | cons e es ih =>
    intro s h hr
    obtain ⟨h1, h2⟩ := fieldStep_recorded s e (h e (List.mem_cons_self _ _)) hr
    rw [fieldRun_cons, ofType_append, h1,
      ih (fieldStep s e).1 (fun x hx => h x (List.mem_cons_of_mem _ hx)) h2]
    rfl

/-- Without a focus start time, and until the next focus, no event emits a hesitation. -/
theorem fieldRun_unfocused (es : List FieldEvent) :
    ∀ s : FieldState, (∀ e ∈ es, isFocus e = false) → s.startTime = none →
      ofType "hesitation" (fieldRun s es).2 = [] := by
  induction es with
  | nil => intro s _ _; rfl
  | cons e es ih =>
    intro s h hs
    have hrest := ih (fieldStep s e).1 (fun x hx => h x (List.mem_cons_of_mem _ hx))
    have hstep : ofType "hesitation" (fieldStep s e).2 = []
        ∧ (fieldStep s e).1.startTime = none := by
      cases e with
      | focus now => simpa [isFocus] using h _ (List.mem_cons_self _ _)
      | blur now => exact ⟨by simp [fieldStep, onBlur, ofType], rfl⟩
      | input now t =>
        obtain ⟨h1, h2, _⟩ := onInput_hesitation s now t
        refine ⟨?_, ?_⟩
        · rw [show fieldStep s (.input now t) = onInput s now t from rfl, h1, hs]
          simp [truthyTime]
        · rw [show fieldStep s (.input now t) = onInput s now t from rfl, h2, hs]
      | paste now =>
        obtain ⟨h1, h2, _⟩ := fieldStep_other s (.paste now) rfl
        exact ⟨h1, by rw [h2, hs]⟩
      | mouseover now =>
        obtain ⟨h1, h2, _⟩ := fieldStep_other s (.mouseover now) rfl
        exact ⟨h1, by rw [h2, hs]⟩
      | mouseout now =>
        obtain ⟨h1, h2, _⟩ := fieldStep_other s (.mouseout now) rfl
        exact ⟨h1, by rw [h2, hs]⟩
      | click now =>
        obtain ⟨h1, h2, _⟩ := fieldStep_other s (.click now) rfl
        exact ⟨h1, by rw [h2, hs]⟩
    rw [fieldRun_cons, ofType_append, hstep.1, hrest hstep.2]
    rfl

theorem focus_then_other (s : FieldState) (f : Int) (pre : List FieldEvent)
    (hpre : ∀ e ∈ pre, isOther e = true) :
    ofType "hesitation" (fieldRun s (.focus f :: pre)).2 = []
    ∧ (fieldRun s (.focus f :: pre)).1.startTime = some f
    ∧ (fieldRun s (.focus f :: pre)).1.hesitationRecorded = false := by
  obtain ⟨r1, r2, r3⟩ := fieldRun_other pre (fieldStep s (.focus f)).1 hpre
  rw [fieldRun_cons]
  refine ⟨?_, by rw [r2]; rfl, by rw [r3]; rfl⟩
  rw [ofType_append, r1]
  simp [fieldStep, onFocus, ofType]

/-- C13: in a focus cycle that starts with a focus at a positive time `f`, the events up
to the first content change emit no hesitation, the first content change, at `t1`, emits
exactly one, of value `t1 - f`, and the rest of the cycle emits none; a cycle without
content change emits none; and without a focus start time (before the first focus, or
after a blur) no event emits a hesitation until the next focus. -/
theorem hesitation_once_per_cycle (s : FieldState) (f : Int) (hf : 0 < f) :
    (∀ es : List FieldEvent, (∀ e ∈ es, isOther e = true) →
        ofType "hesitation" (fieldRun s (.focus f :: es)).2 = [])
    ∧ (∀ (pre post : List FieldEvent) (t1 : Int) (ty : String),
        (∀ e ∈ pre, isOther e = true) → (∀ e ∈ post, inCycle e = true) →
        ofType "hesitation" (fieldRun s (.focus f :: pre)).2 = []
        ∧ ofType "hesitation" (fieldStep (fieldRun s (.focus f :: pre)).1 (.input t1 ty)).2
            = [hesitationOf (t1 - f)]
        ∧ ofType "hesitation"
            (fieldRun (fieldStep (fieldRun s (.focus f :: pre)).1 (.input t1 ty)).1 post).2 = []
        ∧ ofType "hesitation" (fieldRun s (.focus f :: (pre ++ .input t1 ty :: post))).2
            = [hesitationOf (t1 - f)])
    ∧ (∀ (s0 : FieldState) (es : List FieldEvent), s0.startTime = none →
        (∀ e ∈ es, isFocus e = false) → ofType "hesitation" (fieldRun s0 es).2 = []) := by
  refine ⟨fun es hes => (focus_then_other s f es hes).1, ?_,
    fun s0 es hs hes => fieldRun_unfocused es s0 hes hs⟩
  intro pre post t1 ty hpre hpost
  obtain ⟨p1, p2, p3⟩ := focus_then_other s f pre hpre
  obtain ⟨i1, _, i3⟩ := onInput_hesitation (fieldRun s (.focus f :: pre)).1 t1 ty
  have ht : truthyTime (some f) = true := by
    simp only [truthyTime, decide_eq_true_eq]
    omega
  have hstep : ofType "hesitation"
      (fieldStep (fieldRun s (.focus f :: pre)).1 (.input t1 ty)).2 = [hesitationOf (t1 - f)] := by
    rw [show fieldStep (fieldRun s (.focus f :: pre)).1 (.input t1 ty)
      = onInput (fieldRun s (.focus f :: pre)).1 t1 ty from rfl, i1, p2, p3]
    simp [ht]
  have hrec : (fieldStep (fieldRun s (.focus f :: pre)).1 (.input t1 ty)).1.hesitationRecorded
      = true := by
    rw [show fieldStep (fieldRun s (.focus f :: pre)).1 (.input t1 ty)
      = onInput (fieldRun s (.focus f :: pre)).1 t1 ty from rfl, i3, p2, p3, ht]
    rfl
  have hpost2 := fieldRun_recorded post _ hpost hrec
  refine ⟨p1, hstep, hpost2, ?_⟩
  have hsplit : FieldEvent.focus f :: (pre ++ .input t1 ty :: post)
      = (FieldEvent.focus f :: pre) ++ (.input t1 ty :: post) := rfl
  rw [hsplit, fieldRun_append]
  simp only []
  rw [ofType_append, p1, fieldRun_cons]
  simp only []
  rw [ofType_append, hstep, hpost2]
  rfl

/-- Witness of C13: focus at 1000, a click, a first content change at 1500 and a second
at 1700: one hesitation, of 500 ms. -/
theorem hesitation_once_per_cycle_witness :
    ofType "hesitation"
      (fieldRun {} (.focus 1000 :: ([.click 1100] ++ .input 1500 "insertText"
        :: [.input 1700 "insertText"]))).2 = [hesitationOf (1500 - 1000)] :=
  ((hesitation_once_per_cycle {} 1000 (by decide)).2.1 [.click 1100]
    [.input 1700 "insertText"] 1500 "insertText"
    (by intro e he; rw [List.mem_singleton] at he; rw [he]; rfl)
    (by intro e he; rw [List.mem_singleton] at he; rw [he]; rfl)).2.2.2

/-! ## C14: the `field_validation` rule -/

theorem blurEvents_ne_nil_of_characters (ms : List Metric) (f : String)
    (h : 0 < blurCharacters ms f) : blurEvents ms f ≠ [] := by
  intro he
  simp [blurCharacters, he] at h

/-- What the `field_validation` rule tests, when no `field_blur` event bears a label that
the prototype chain resolves: a suggestion is emitted for a field iff the field has
characters and `backspaces / characters > 0.3`, both being sums over the `field_blur`
events of the field with a missing value counting as 0; none is emitted for a field whose
characters total is 0. -/
theorem field_validation_of_plain (p : Option Nat) (metrics : List Metric)
    (h : ∀ m ∈ metrics, m.type = "field_blur" → plainLabel p m.field) (f : String) :
    ∃ l, generateOptimizationSuggestions p metrics = some l
      ∧ ((∃ s ∈ l, s.type = "field_validation" ∧ s.field = f)
        ↔ (0 < blurCharacters metrics f
            ∧ (blurBackspaces metrics f : ℚ) / (blurCharacters metrics f : ℚ) > 3 / 10))
      ∧ (blurCharacters metrics f = 0 →
          ¬ ∃ s ∈ l, s.type = "field_validation" ∧ s.field = f) := by
  refine ⟨_, generateOptimizationSuggestions_plain p metrics h, ?_⟩
  have main : (∃ s ∈ suggestionsOf (fieldPatterns (patternStats metrics)),
        s.type = "field_validation" ∧ s.field = f)
      ↔ (0 < blurCharacters metrics f
          ∧ (blurBackspaces metrics f : ℚ) / (blurCharacters metrics f : ℚ) > 3 / 10) := by
    simp only [suggestionsOf, List.mem_flatMap]
    constructor
    · rintro ⟨s, ⟨p, hp, hs⟩, ht, hf⟩
      obtain ⟨_, hpe⟩ := (mem_analyzeFieldPatterns metrics p).1 hp
      simp only [suggestionsFor, List.mem_append] at hs
      rcases hs with hs | hs
      · split_ifs at hs
        · simp only [List.mem_singleton] at hs
          rw [hs] at ht
          simp at ht
        · simp at hs
      · split_ifs at hs with hgt
        · simp only [List.mem_singleton] at hs
          have hn : p.name = f := by rw [← hf, hs]
          rw [hn] at hpe
          rw [hpe] at hgt
          simp only [fieldPatternOf] at hgt
          by_cases hc : blurCharacters metrics f > 0
          · rw [if_pos hc] at hgt
            exact ⟨hc, hgt⟩
          · rw [if_neg hc] at hgt
            norm_num at hgt
        · simp at hs
    · rintro ⟨hc, hgt⟩
      have hne := blurEvents_ne_nil_of_characters metrics f hc
      have h2 : (fieldPatternOf metrics f).backspaceRate > 3 / 10 := by
        simp only [fieldPatternOf]
        rw [if_pos hc]
        exact hgt
      refine ⟨{ type := "field_validation"
                field := f
                suggestion := "Add real-time validation for \"" ++ f ++ "\""
                reasoning := "High correction rate indicates unclear requirements" },
        ⟨fieldPatternOf metrics f, (mem_analyzeFieldPatterns metrics _).2 ⟨hne, rfl⟩, ?_⟩,
        rfl, rfl⟩
      simp only [suggestionsFor, h2, if_true, List.mem_append, List.mem_singleton]
      right
      rfl
  refine ⟨main, ?_⟩
  intro h0 hex
  have := (main.1 hex).1
  omega

/-- On ordinary labels the rule is the one of the spec: `Email` totals 3 backspaces for 5
characters (0.6 > 0.3) and gets a `field_validation` suggestion; `Name` totals 4
backspaces for 0 characters and gets none. -/
theorem field_validation_of_plain_example :
    blurBackspaces correctedEmail "Email" = 3
    ∧ blurCharacters correctedEmail "Email" = 5
    ∧ blurBackspaces correctedEmail "Name" = 4
    ∧ blurCharacters correctedEmail "Name" = 0
    ∧ ∃ l, generateOptimizationSuggestions none correctedEmail = some l
        ∧ (∃ s ∈ l, s.type = "field_validation" ∧ s.field = "Email")
        ∧ ¬ ∃ s ∈ l, s.type = "field_validation" ∧ s.field = "Name" := by
  have hp : ∀ m ∈ correctedEmail, m.type = "field_blur" → plainLabel none m.field := by
    intro m hm _
    simp only [correctedEmail, List.mem_cons, List.mem_singleton, List.not_mem_nil,
      or_false] at hm
    rcases hm with h | h | h <;> rw [h] <;> decide
  have b1 : blurBackspaces correctedEmail "Email" = 3 := by
    simp [blurBackspaces, blurEvents, correctedEmail, natOrZero]
  have c1 : blurCharacters correctedEmail "Email" = 5 := by
    simp [blurCharacters, blurEvents, correctedEmail, natOrZero]
  have b2 : blurBackspaces correctedEmail "Name" = 4 := by
    simp [blurBackspaces, blurEvents, correctedEmail, natOrZero]
  have c2 : blurCharacters correctedEmail "Name" = 0 := by
    simp [blurCharacters, blurEvents, correctedEmail, natOrZero]
  obtain ⟨l, hl, h1, _⟩ := field_validation_of_plain none correctedEmail hp "Email"
  obtain ⟨l2, hl2, _, h2⟩ := field_validation_of_plain none correctedEmail hp "Name"
  rw [hl, Option.some.injEq] at hl2
  subst hl2
  refine ⟨b1, c1, b2, c2, l, hl, h1.2 ⟨by rw [c1]; decide, ?_⟩, h2 c2⟩
  rw [b1, c1]
  norm_num

theorem patternStep_thrown (p : Option Nat) (s : PatternLoop) (m : Metric)
    (h : s.thrown = true) : patternStep p s m = s := by
  unfold patternStep
  rw [if_pos h]

/-- The `forEach` of `analyzeFieldPatterns` throws iff some `field_blur` event bears a
label that the prototype chain resolves; otherwise it builds the dictionary of own
accumulators. -/
theorem patternLoop_thrown (p : Option Nat) (ms : List Metric) :
    ((patternLoop p ms).thrown = true
        ↔ ∃ m ∈ ms, m.type = "field_blur" ∧ ¬ plainLabel p m.field) := by
  induction ms using List.reverseRecOn with
  | nil => simp [patternLoop]
  | append_singleton ms m ih =>
    rw [patternLoop_snoc]
    by_cases hall : ∀ x ∈ ms, x.type = "field_blur" → plainLabel p x.field
    · rw [patternLoop_plain p ms hall]
      by_cases hm : m.type = "field_blur" → plainLabel p m.field
      · rw [patternStep_plain p _ m hm]
        simp only [Bool.false_eq_true, false_iff, not_exists, not_and, not_not]
        intro x hx hbl
        rcases List.mem_append.1 hx with hx | hx
        · exact hall x hx hbl
        · rw [List.mem_singleton] at hx
          rw [hx] at hbl ⊢
          exact hm hbl
      · push_neg at hm
        obtain ⟨hbl, hnp⟩ := hm
        have hg : objectGet (patternStats ms) m.field = none := by
          rw [patternStats_get, if_pos]
          by_contra hne
          obtain ⟨x, hx⟩ := List.exists_mem_of_ne_nil _ hne
          unfold blurEvents at hx
          rw [List.mem_filter] at hx
          simp only [decide_eq_true_eq] at hx
          exact hnp (hx.2.2 ▸ hall x hx.1 hx.2.1)
        have hth : (patternStep p { fieldStats := patternStats ms, thrown := false } m).thrown
            = true := by
          unfold patternStep
          rcases slotOf_not_plain p (patternStats ms) m.field hnp hg with e | e <;>
            simp [e, hbl]
        rw [hth]
        simp only [true_iff]
        exact ⟨m, by simp, hbl, hnp⟩
    · have hex : ∃ x ∈ ms, x.type = "field_blur" ∧ ¬ plainLabel p x.field := by
        push_neg at hall
        exact hall
      rw [patternStep_thrown p _ m (ih.2 hex)]
      simp only [ih.2 hex, true_iff]
      obtain ⟨x, hx, hb⟩ := hex
      exact ⟨x, List.mem_append_left _ hx, hb⟩

/-- The function `generateOptimizationSuggestions` returns no list (it throws) iff some
`field_blur` event bears a label that the prototype chain resolves. -/
theorem generateOptimizationSuggestions_eq_none (p : Option Nat) (ms : List Metric) :
    generateOptimizationSuggestions p ms = none
      ↔ ∃ m ∈ ms, m.type = "field_blur" ∧ ¬ plainLabel p m.field := by
  rw [← patternLoop_thrown]
  unfold generateOptimizationSuggestions analyzeFieldPatterns
  by_cases h : (patternLoop p ms).thrown = true <;> simp [h]

/-- C14 (code bug): the dictionary `fieldStats` of `analyzeFieldPatterns` is read through
the prototype chain. A blur of `Email` with 2 backspaces for 3 characters (0.66 > 0.3)
gets a `field_validation` suggestion when it is the only event; followed by a blur of a
field labelled `constructor`, the read finds the function inherited from
`Object.prototype`, `.sessions.add` throws and no suggestion is returned for any field. -/
theorem field_validation_inherited_label :
    blurBackspaces inheritedBlur "Email" = 2
    ∧ blurCharacters inheritedBlur "Email" = 3
    ∧ (2 : ℚ) / 3 > 3 / 10
    ∧ generateOptimizationSuggestions none inheritedBlur = none
    ∧ generateOptimizationSuggestions none (inheritedBlur.take 1)
        = some [ { type := "field_validation"
                   field := "Email"
                   suggestion := "Add real-time validation for \"Email\""
                   reasoning := "High correction rate indicates unclear requirements" } ] := by
  have harr : arrayIndex "Email" = none := by decide
  have hm : "Email" ∉ prototypeMethods := by decide
  have hc : "constructor" ∈ prototypeMethods := by decide
  refine ⟨?_, ?_, by norm_num, ?_, ?_⟩
  · simp [blurBackspaces, blurEvents, inheritedBlur, natOrZero]
  · simp [blurCharacters, blurEvents, inheritedBlur, natOrZero]
  · simp [generateOptimizationSuggestions, analyzeFieldPatterns, patternLoop, inheritedBlur,
      patternStep, slotOf, hm, hc, patternRecord, objectGet, objectAdd, objectModify]
  · simp [generateOptimizationSuggestions, analyzeFieldPatterns, patternLoop, inheritedBlur,
      patternStep, slotOf, hm, patternRecord, fieldPatterns, suggestionsOf,
      objectValues, objectEntries, objectGet, objectAdd, objectModify, harr, setAdd,
      suggestionsFor, intOrZero, natOrZero]
    norm_num

/-! ## C15: order of the suggestions -/

theorem firstAppearance_snoc (ms : List Metric) (m : Metric) :
    firstAppearance (ms ++ [m])
      = if m.type = "field_blur" then setAdd (firstAppearance ms) m.field
        else firstAppearance ms := by
  unfold firstAppearance
  rw [List.filter_append]
  by_cases h : m.type = "field_blur"
  · simp [h, setOf_snoc]
  · simp [h]

theorem objectKeys_patternStats (ms : List Metric) :
    objectKeys (patternStats ms) = firstAppearance ms := by
  induction ms using List.reverseRecOn with
  | nil => rfl
  | append_singleton ms m ih =>
    rw [patternStats_snoc, firstAppearance_snoc]
    unfold plainPatternStep patternRecord
    by_cases ht : m.type = "field_blur"
    · simp only [ht, if_true, objectKeys_upsert, ih, setAdd]
    · simp only [ht, if_false, ih]

theorem patternStats_eq_map (ms : List Metric) :
    patternStats ms = (firstAppearance ms).map (fun f => (f, patternStatsOf ms f)) := by
  have hv : ∀ kv ∈ patternStats ms, kv = (kv.1, patternStatsOf ms kv.1) := by
    rintro ⟨k, v⟩ hkv
    have hg := (objectGet_of_mem _ (patternStats_nodup ms) k v).1 hkv
    rw [patternStats_get] at hg
    split_ifs at hg
    simp only [Option.some.injEq] at hg
    rw [← hg]
    rfl
  rw [← objectKeys_patternStats, objectKeys, List.map_map]
  conv_lhs => rw [← List.map_id (patternStats ms)]
  exact List.map_congr_left hv

theorem objectEntries_map {α : Type} (g : String → α) (ks : List String) :
    objectEntries (ks.map (fun k => (k, g k)))
      = ((ks.filter (fun f => (arrayIndex f).isSome)).insertionSort labelLE
          ++ ks.filter (fun f => (arrayIndex f).isNone)).map (fun k => (k, g k)) := by
  unfold objectEntries
  rw [List.filter_map, List.filter_map, List.map_append]
  congr 1
  exact (List.map_insertionSort labelLE indexLE (fun k => (k, g k)) _
    (fun a _ b _ => Iff.rfl)).symm

/-- Entries computed from the dictionary of own accumulators, in the order in which they
are returned. -/
theorem fieldPatterns_eq (ms : List Metric) :
    fieldPatterns (patternStats ms) = (enumerationOrder ms).map (fieldPatternOf ms) := by
  unfold fieldPatterns objectValues
  rw [patternStats_eq_map, objectEntries_map, List.map_map, List.map_map]
  apply List.map_congr_left
  intro f _
  simp [fieldPatternOf, patternStatsOf, blurSessionCount, length_setOf]

theorem enumerationOrder_perm (ms : List Metric) :
    (enumerationOrder ms).Perm (firstAppearance ms) := by
  unfold enumerationOrder
  have h1 := List.perm_insertionSort labelLE
    ((firstAppearance ms).filter (fun f => (arrayIndex f).isSome))
  have h2 := List.filter_append_perm (fun f => (arrayIndex f).isSome) (firstAppearance ms)
  have h3 : (fun f : String => (arrayIndex f).isNone) = fun f => !(arrayIndex f).isSome := by
    funext f
    cases arrayIndex f <;> rfl
  rw [h3]
  exact (List.Perm.append_right _ h1).trans h2

theorem suggestionsFor_shape (p : FieldPattern) :
    ((suggestionsFor p).map (fun s => s.type)).Sublist ["field_clarity", "field_validation"]
    ∧ ∀ s ∈ suggestionsFor p, s.field = p.name := by
  unfold suggestionsFor
  by_cases h1 : p.avgHesitation > 5000 <;> by_cases h2 : p.backspaceRate > 3 / 10 <;>
    simp [h1, h2]

/-- C15 (amended): when no `field_blur` event bears a label that the prototype chain
resolves, the list returned by `generateOptimizationSuggestions` is ordered by field in
the enumeration order of the aggregate: the labels that are array indices (canonical
decimal numerals below `2^32 - 1`) first, in ascending numeric order, then the other
labels in order of first appearance; when no label is an array index this is the order of
first appearance. Every field of the aggregate is visited once, and contributes at most
one suggestion per rule, `field_clarity` before `field_validation`. -/
theorem suggestions_order (focusCount : Option Nat) (metrics : List Metric)
    (h : ∀ m ∈ metrics, m.type = "field_blur" → plainLabel focusCount m.field) :
    generateOptimizationSuggestions focusCount metrics
        = some ((enumerationOrder metrics).flatMap
            (fun f => suggestionsFor (fieldPatternOf metrics f)))
    ∧ (enumerationOrder metrics).Nodup
    ∧ (enumerationOrder metrics).Perm (firstAppearance metrics)
    ∧ ((∀ f ∈ firstAppearance metrics, arrayIndex f = none) →
        enumerationOrder metrics = firstAppearance metrics)
    ∧ (∀ f, ((suggestionsFor (fieldPatternOf metrics f)).map (fun s => s.type)).Sublist
          ["field_clarity", "field_validation"]
        ∧ ∀ s ∈ suggestionsFor (fieldPatternOf metrics f), s.field = f) := by
  refine ⟨?_, ?_, enumerationOrder_perm metrics, ?_, fun f => suggestionsFor_shape _⟩
  · rw [generateOptimizationSuggestions_plain focusCount metrics h, suggestionsOf,
      fieldPatterns_eq, List.flatMap_map]
  · exact (enumerationOrder_perm metrics).nodup_iff.2 (nodup_setOf _)
  · intro h
    unfold enumerationOrder
    have e1 : (firstAppearance metrics).filter (fun f => (arrayIndex f).isSome) = [] :=
      List.filter_eq_nil_iff.2 (fun f hf => by simp [h f hf])
    have e2 : (firstAppearance metrics).filter (fun f => (arrayIndex f).isNone)
        = firstAppearance metrics :=
      List.filter_eq_self.2 (fun f hf => by simp [h f hf])
    rw [e1, e2]
    rfl

/-- Witness of C15: with the labels `Name` and `Email`, blurred in that order, the
suggestions come in the order of first appearance. -/
theorem suggestions_order_witness :
    (∀ m ∈ namedLabels, m.type = "field_blur" → plainLabel none m.field)
    ∧ firstAppearance namedLabels = ["Name", "Email"]
    ∧ enumerationOrder namedLabels = ["Name", "Email"]
    ∧ (generateOptimizationSuggestions none namedLabels).map
          (fun l => l.map (fun s => (s.type, s.field)))
        = some [("field_clarity", "Name"), ("field_clarity", "Email")] := by
  have hp : ∀ m ∈ namedLabels, m.type = "field_blur" → plainLabel none m.field := by
    intro m hm _
    simp only [namedLabels, List.mem_cons, List.mem_singleton, List.not_mem_nil, or_false] at hm
    rcases hm with h | h | h <;> rw [h] <;> decide
  have hf : firstAppearance namedLabels = ["Name", "Email"] := by
    simp [firstAppearance, namedLabels, setOf, setAdd]
  have hs := suggestions_order none namedLabels hp
  have h := hs.2.2.2.1 (by
    intro f hf2
    rw [hf] at hf2
    simp only [List.mem_cons, List.mem_singleton, List.not_mem_nil, or_false] at hf2
    rcases hf2 with h | h <;> rw [h] <;> decide)
  refine ⟨hp, hf, by rw [h, hf], ?_⟩
  rw [hs.1, h, hf]
  simp [suggestionsFor, fieldPatternOf, hoverTotal, blurBackspaces, blurCharacters,
    blurSessionCount, blurEvents, namedLabels, intOrZero, natOrZero]
  norm_num

/-- Counterexample of C15: field `2` appears first in the aggregate, field `1` second,
yet the suggestion of field `1` comes before that of field `2`. -/
theorem suggestions_numeric_labels :
    firstAppearance numericLabels = ["2", "1"]
    ∧ (generateOptimizationSuggestions none numericLabels).map
          (fun l => l.map (fun s => (s.type, s.field)))
        = some [("field_clarity", "1"), ("field_clarity", "2")] := by
  have h1 : arrayIndex "1" = some 1 := by decide
  have h2 : arrayIndex "2" = some 2 := by decide
  have m1 : "1" ∉ prototypeMethods := by decide
  have m2 : "2" ∉ prototypeMethods := by decide
  constructor
  · simp [firstAppearance, numericLabels, setOf, setAdd]
  · simp [generateOptimizationSuggestions, analyzeFieldPatterns, patternLoop, numericLabels,
      patternStep, slotOf, m1, m2, patternRecord, fieldPatterns, suggestionsOf,
      objectValues, objectEntries, objectGet, objectAdd, objectModify, h1, h2, setAdd,
      suggestionsFor, intOrZero, natOrZero, indexLE, List.insertionSort,
      List.orderedInsert]
    norm_num

/-! ## C16: independence of the order of receipt -/

theorem jsAdd_right_comm (z x y : Num) : jsAdd (jsAdd z x) y = jsAdd (jsAdd z y) x := by
  cases z <;> cases x <;> cases y <;> simp [jsAdd, add_right_comm]

theorem jsSum_perm (xs ys : List Num) (h : xs.Perm ys) : jsSum xs = jsSum ys :=
  List.Perm.foldl_eq' h (fun x _ y _ z => jsAdd_right_comm z x y) (some 0)

theorem hesitationSamples_perm (ms1 ms2 : List Metric) (h : ms1.Perm ms2) (f : String) :
    (hesitationSamples ms1 f).Perm (hesitationSamples ms2 f) :=
  (h.filter _).map _

theorem meanHesitation_perm (ms1 ms2 : List Metric) (h : ms1.Perm ms2) (f : String) :
    meanHesitation ms1 f = meanHesitation ms2 f := by
  have hp := hesitationSamples_perm ms1 ms2 h f
  unfold meanHesitation
  rw [jsSum_perm _ _ hp, hp.length_eq]
  by_cases h1 : hesitationSamples ms1 f = []
  · have h2 : hesitationSamples ms2 f = [] := by
      rw [h1] at hp
      exact List.Perm.nil_eq hp |>.symm
    rw [if_pos h1, if_pos h2]
  · have h2 : hesitationSamples ms2 f ≠ [] := by
      intro e
      rw [e] at hp
      exact h1 (List.Perm.eq_nil hp)
    rw [if_neg h1, if_neg h2]

theorem backspacesTotal_perm (ms1 ms2 : List Metric) (h : ms1.Perm ms2) (f : String) :
    backspacesTotal ms1 f = backspacesTotal ms2 f :=
  jsSum_perm _ _ ((h.filter _).map _)

theorem rageClicksTotal_perm (ms1 ms2 : List Metric) (h : ms1.Perm ms2) (f : String) :
    rageClicksTotal ms1 f = rageClicksTotal ms2 f :=
  jsSum_perm _ _ ((h.filter _).map _)

theorem problematicOf_perm (ms1 ms2 : List Metric) (h : ms1.Perm ms2) (f : String) :
    problematicOf ms1 f = problematicOf ms2 f := by
  simp only [problematicOf, specFrictionScore, meanHesitation_perm ms1 ms2 h,
    backspacesTotal_perm ms1 ms2 h, rageClicksTotal_perm ms1 ms2 h]

/-- Entries of `problematicFields` computed from the dictionary of own accumulators: the
fields whose score exceeds 3, each with its entry. -/
theorem mem_problematicFields_iff (p : Option Nat) (ms : List Metric) (e : ProblematicField) :
    e ∈ (frictionResult (plainStats p ms)).problematicFields
      ↔ jsGt (problematicOf ms e.field).frictionScore 3 = true ∧ e = problematicOf ms e.field := by
  rw [mem_problematicFields]
  constructor
  · rintro ⟨s, hs, hent⟩
    rw [frictionEntry_stats p ms e.field s hs] at hent
    split_ifs at hent with hgt
    simp only [Option.some.injEq] at hent
    exact ⟨hgt, hent.symm⟩
  · rintro ⟨hgt, he⟩
    rcases plainStats_get p ms e.field with ⟨_, hall⟩ | ⟨s, hs, _⟩
    · exfalso
      have h0 := specFrictionScore_absent ms e.field hall
      simp only [problematicOf, h0, jsGt, decide_eq_true_eq] at hgt
      norm_num at hgt
    · refine ⟨s, hs, ?_⟩
      have hgt2 : jsGt (specFrictionScore ms e.field) 3 = true := hgt
      rw [frictionEntry_stats p ms e.field s hs, if_pos hgt2]
      exact congrArg some he.symm

theorem nodup_filterMap_of_key {α β κ : Type} (f : α → Option β) (k : α → κ) (g : β → κ)
    (hfg : ∀ a b, f a = some b → g b = k a) (l : List α) (hl : (l.map k).Nodup) :
    ((l.filterMap f).map g).Nodup := by
  induction l with
  | nil => simp
  | cons a l ih =>
    rw [List.map_cons, List.nodup_cons] at hl
    cases hfa : f a with
    | none => simpa [List.filterMap_cons, hfa] using ih hl.2
    | some b =>
      simp only [List.filterMap_cons, hfa, List.map_cons, List.nodup_cons]
      refine ⟨?_, ih hl.2⟩
      intro hmem
      obtain ⟨b2, hb2, hg⟩ := List.mem_map.1 hmem
      obtain ⟨a2, ha2, hf2⟩ := List.mem_filterMap.1 hb2
      apply hl.1
      rw [← hfg a b hfa, ← hg, hfg a2 b2 hf2]
      exact List.mem_map.2 ⟨a2, ha2, rfl⟩

theorem objectEntries_perm {α : Type} (o : List (String × α)) : (objectEntries o).Perm o := by
  unfold objectEntries
  have h1 := List.perm_insertionSort indexLE (o.filter (fun kv => (arrayIndex kv.1).isSome))
  have h2 := List.filter_append_perm (fun kv : String × α => (arrayIndex kv.1).isSome) o
  have h3 : (fun kv : String × α => (arrayIndex kv.1).isNone)
      = fun kv => !(arrayIndex kv.1).isSome := by
    funext kv
    cases arrayIndex kv.1 <;> rfl
  rw [h3]
  exact (List.Perm.append_right _ h1).trans h2

theorem problematicFields_nodup (p : Option Nat) (ms : List Metric) :
    (frictionResult (plainStats p ms)).problematicFields.Nodup := by
  have hk : ((objectEntries (plainStats p ms)).map Prod.fst).Nodup :=
    ((objectEntries_perm (plainStats p ms)).map Prod.fst).nodup_iff.2 (plainStats_nodup p ms)
  exact List.Nodup.of_map (fun e => e.field)
    (nodup_filterMap_of_key frictionEntry Prod.fst (fun e => e.field)
      (fun a b h => frictionEntry_field a b h) _ hk)

/-- When no event bears a label that the prototype chain resolves, the order of receipt
does not matter: for a permutation of the events `analyzeFrictionPatterns` returns the
same overall score and the same problematic fields, each with the same friction score and
the same issue flags; the two lists are permutations of each other. -/
theorem friction_order_of_plain (p : Option Nat) (ms1 ms2 : List Metric) (h : ms1.Perm ms2)
    (hp : ∀ m ∈ ms1, plainLabel p m.field) :
    ∃ r1 r2, analyzeFrictionPatterns p ms1 = some r1 ∧ analyzeFrictionPatterns p ms2 = some r2
      ∧ r1.score = r2.score
      ∧ (∀ e, e ∈ r1.problematicFields ↔ e ∈ r2.problematicFields)
      ∧ r1.problematicFields.Perm r2.problematicFields := by
  have hp2 : ∀ m ∈ ms2, plainLabel p m.field := fun m hm => hp m (h.mem_iff.2 hm)
  refine ⟨_, _, analyzeFrictionPatterns_plain p ms1 hp, analyzeFrictionPatterns_plain p ms2 hp2,
    ?_⟩
  have hmem : ∀ e, e ∈ (frictionResult (plainStats p ms1)).problematicFields
      ↔ e ∈ (frictionResult (plainStats p ms2)).problematicFields := by
    intro e
    rw [mem_problematicFields_iff, mem_problematicFields_iff, problematicOf_perm ms1 ms2 h]
  have hperm : (frictionResult (plainStats p ms1)).problematicFields.Perm
      (frictionResult (plainStats p ms2)).problematicFields :=
    (List.perm_ext_iff_of_nodup (problematicFields_nodup p ms1)
      (problematicFields_nodup p ms2)).2 hmem
  refine ⟨?_, hmem, hperm⟩
  have hlen := hperm.length_eq
  have e1 : (frictionResult (plainStats p ms1)).score
      = if (frictionResult (plainStats p ms1)).problematicFields.length > 0 then "High"
        else "Low" := rfl
  have e2 : (frictionResult (plainStats p ms2)).score
      = if (frictionResult (plainStats p ms2)).problematicFields.length > 0 then "High"
        else "Low" := rfl
  rw [e1, e2, hlen]

/-- On ordinary labels the order of receipt only changes the order of the list: the three
events of `mixedEvents`, received in another order, give the same score and the same two
entries. -/
theorem friction_order_of_plain_example :
    mixedEvents.Perm mixedEventsReordered
    ∧ ∃ r1 r2, analyzeFrictionPatterns none mixedEvents = some r1
        ∧ analyzeFrictionPatterns none mixedEventsReordered = some r2
        ∧ r1.score = "High" ∧ r2.score = "High"
        ∧ r1.problematicFields.Perm r2.problematicFields
        ∧ r1.problematicFields.map (fun e => e.field) = ["Email", "Name"]
        ∧ r2.problematicFields.map (fun e => e.field) = ["Name", "Email"] := by
  have hp : mixedEvents.Perm mixedEventsReordered :=
    (List.Perm.swap _ _ _).trans ((List.Perm.swap _ _ _).cons _)
  have hl : ∀ m ∈ mixedEvents, plainLabel none m.field := by
    intro m hm
    simp only [mixedEvents, List.mem_cons, List.mem_singleton, List.not_mem_nil,
      or_false] at hm
    rcases hm with h | h | h <;> rw [h] <;> decide
  have ha : arrayIndex "Email" = none := by decide
  have hn : arrayIndex "Name" = none := by decide
  have me : "Email" ∉ prototypeMethods := by decide
  have mn : "Name" ∉ prototypeMethods := by decide
  obtain ⟨r1, r2, h1, h2, hs, _, hperm⟩ :=
    friction_order_of_plain none mixedEvents mixedEventsReordered hp hl
  have f1 : r1.problematicFields.map (fun e => e.field) = ["Email", "Name"] := by
    have e : analyzeFrictionPatterns none mixedEvents = some r1 := h1
    rw [analyzeFrictionPatterns_plain none mixedEvents hl, Option.some.injEq] at e
    rw [← e]
    simp [frictionResult, plainStats, frictionRecord, mixedEvents, objectGet,
      objectAdd, objectModify, frictionUpdate, objectEntries, ha, hn, frictionEntry, jsGt,
      frictionScoreOf, avgHesitationOf, jsSum, jsAdd, jsMulConst, jsDivConst, natToNum,
      intToNum, FieldStats.init, List.filterMap_cons]
    norm_num
  have f2 : r2.problematicFields.map (fun e => e.field) = ["Name", "Email"] := by
    have e : analyzeFrictionPatterns none mixedEventsReordered = some r2 := h2
    rw [analyzeFrictionPatterns_plain none mixedEventsReordered
      (fun m hm => hl m (hp.mem_iff.2 hm)), Option.some.injEq] at e
    rw [← e]
    simp [frictionResult, plainStats, frictionRecord, mixedEventsReordered, objectGet,
      objectAdd, objectModify, frictionUpdate, objectEntries, ha, hn, frictionEntry, jsGt,
      frictionScoreOf, avgHesitationOf, jsSum, jsAdd, jsMulConst, jsDivConst, natToNum,
      intToNum, FieldStats.init, List.filterMap_cons]
    norm_num
  have s1 : r1.score = "High" := by
    have e : analyzeFrictionPatterns none mixedEvents = some r1 := h1
    rw [analyzeFrictionPatterns_plain none mixedEvents hl, Option.some.injEq] at e
    have hne : r1.problematicFields ≠ [] := by
      intro h0
      rw [h0] at f1
      simp at f1
    rw [← e] at hne ⊢
    have e1 : (frictionResult (plainStats none mixedEvents)).score
        = if (frictionResult (plainStats none mixedEvents)).problematicFields.length > 0
          then "High" else "Low" := rfl
    rw [e1, if_pos (List.length_pos.2 hne)]
  exact ⟨hp, r1, r2, h1, h2, s1, by rw [← hs]; exact s1, hperm, f1, f2⟩

/-- C16 (code bug): the dictionary `fieldStats` is read through the prototype chain, and a
`field_focus` event on a field labelled `__proto__` writes `Object.prototype.focusCount`.
Received after such an event, a rage-click of count 2 on a field labelled `focusCount`
finds the inherited number 1, creates no accumulator, and the result is `Low`; received
before it, the same rage-click is recorded, the field scores 4 and the result is `High`.
The two sequences are permutations of each other and their payloads are numbers. -/
theorem friction_order_dependent :
    shadowedLabel.Perm shadowedLabel.reverse
    ∧ analyzeFrictionPatterns none shadowedLabel
        = some { score := "Low", problematicFields := [] }
    ∧ analyzeFrictionPatterns none shadowedLabel.reverse
        = some { score := "High"
                 problematicFields :=
                   [ { field := "focusCount"
                       frictionScore := some 4
                       issues := { highHesitation := false
                                   manyBackspaces := false
                                   rageClicks := true } } ] }
    ∧ (frictionLoop none shadowedLabel).focusCount = some 1 := by
  have ha : arrayIndex "focusCount" = none := by decide
  have hm : "focusCount" ∉ prototypeMethods := by decide
  refine ⟨(List.reverse_perm shadowedLabel).symm, ?_, ?_, ?_⟩
  · simp [analyzeFrictionPatterns, frictionLoop, frictionStep, slotOf, shadowedLabel,
      readFocusCount, hm, objectGet, frictionResult, objectEntries]
  · simp [analyzeFrictionPatterns, frictionLoop, frictionStep, slotOf, shadowedLabel,
      readFocusCount, hm, frictionRecord, objectGet, objectAdd, objectModify,
      frictionUpdate, frictionResult, objectEntries, ha, frictionEntry, jsGt,
      frictionScoreOf, avgHesitationOf, jsSum, jsAdd, jsMulConst, jsDivConst, natToNum,
      FieldStats.init, List.filterMap_cons]
    norm_num
  · simp [frictionLoop, frictionStep, slotOf, shadowedLabel, readFocusCount, hm, objectGet]

end FormFix
